import Mathlib

/-!
# aeyae: decode pipeline, timestamp repair, demuxer merge, timeline spans

A shallow embedding of the synchronisation core of the repository:

* `verify_pts` and the PTS fallback chain of `AudioTrack::decode`
  (`yae/ffmpeg/yae_track.cpp`, `yae/ffmpeg/yae_audio_track.cpp`);
* the decoder failover state machine of `Track`
  (`Track::open`, `Track::decode`, `Track::decoderPull`, `Track::switchDecoder`);
* the `ParallelDemuxer` merge and the timeline `extend`, whose bodies are not
  part of the sources at hand and are modelled from the specification.

Conventions.  Signed 64-bit fields (`int64_t`) are integers of `Int`; signed
overflow is undefined behaviour in the source and lies outside the model.
Unsigned counters are naturals.  A null pointer is `none`.  Operations whose
behaviour is undefined in C++ (dereferencing a null codec context,
`pop_front` on an empty list) return a `Fault`.
-/

set_option maxRecDepth 100000

namespace yae

/-! ## Constants of the codec library -/

/-- The value `AV_NOPTS_VALUE`, i.e. `INT64_MIN`: "no timestamp". -/
def AV_NOPTS_VALUE : Int := -9223372036854775808

/-- The error `AVERROR(EAGAIN)`: the codec wants to be called again. -/
def AVERROR_EAGAIN : Int := -11

/-- The error `AVERROR_EOF`, i.e. `-MKTAG('E','O','F',' ')`. -/
def AVERROR_EOF : Int := -541478725

/-- The error `AVERROR_INVALIDDATA`, i.e. `-MKTAG('I','N','D','A')`. -/
def AVERROR_INVALIDDATA : Int := -1094995529

/-- The packet flag `AV_PKT_FLAG_KEY`. -/
def AV_PKT_FLAG_KEY : Nat := 1

/-- The codec id `AV_CODEC_ID_TEXT`. -/
def AV_CODEC_ID_TEXT : Nat := 94210

/-- The conversion `int64_t(x)` of an unsigned 64-bit value. -/
def toInt64 (x : Nat) : Int :=
  if x % 2 ^ 64 < 2 ^ 63 then ((x % 2 ^ 64 : Nat) : Int)
  else ((x % 2 ^ 64 : Nat) : Int) - 2 ^ 64

/-- The conversion of a signed value to `uint64_t`. -/
def toUInt64 (x : Int) : Nat := (x % 2 ^ 64).toNat

/-! ## TTime -/

/-- The timestamp `TTime`: `time_` ticks of `1 / base_` seconds. -/
structure TTime where
  time_ : Int
  base_ : Nat
  deriving DecidableEq, Repr

/-- The operations of `TTime` that the decode path calls and whose bodies live
in `yae/utils/yae_time.h`, outside the sources at hand.  They are parameters
of the embedding: `lt` is `operator <`, `add` is `operator +=` and
`secLt a b` is `a.sec() < b.sec()`. -/
structure TTimeApi where
  lt : TTime → TTime → Bool
  add : TTime → TTime → TTime
  secLt : TTime → TTime → Bool

/-- Modelled from the spec: the body of `TTime` arithmetic (`yae_time.h`) is
missing from the sources; the spec reads a timestamp as the exact time
`time_ / base_` seconds.  Comparison is by cross-multiplication, a sum of two
timestamps of one base keeps that base. -/
def TTime.exactLt (a b : TTime) : Bool :=
  decide (a.time_ * (b.base_ : Int) < b.time_ * (a.base_ : Int))

/-- Modelled from the spec: exact sum of two timestamps (see `TTime.exactLt`).
The spec does not say how `operator +=` adds timestamps of different bases:
the theorems on the decode path hold for every `TTimeApi`, and this sum serves
in closed instances only. -/
def TTime.exactAdd (a b : TTime) : TTime :=
  if a.base_ = b.base_ then ⟨a.time_ + b.time_, a.base_⟩
  else ⟨a.time_ * (b.base_ : Int) + b.time_ * (a.base_ : Int), a.base_ * b.base_⟩

/-- Modelled from the spec: the exact reading of the `TTime` operations. -/
def TTime.exactApi : TTimeApi :=
  { lt := TTime.exactLt, add := TTime.exactAdd, secLt := TTime.exactLt }

/-! ## verify_pts (yae_track.cpp) -/

/-- The function `verify_pts`: presentation timestamps must be monotonically
increasing.  `stream` tells whether the `AVStream *` argument is non-null; the
debug message argument has no effect. -/
def verify_pts (api : TTimeApi) (hasPrevPTS : Bool) (prevPTS nextPTS : TTime)
    (stream : Bool) : Bool :=
  let ok : Bool :=
    decide (nextPTS.time_ ≠ AV_NOPTS_VALUE) &&
    (decide (toInt64 nextPTS.base_ ≠ AV_NOPTS_VALUE) &&
     (decide (nextPTS.base_ ≠ 0) &&
      (!hasPrevPTS ||
       (if prevPTS.base_ = nextPTS.base_ then decide (prevPTS.time_ < nextPTS.time_)
        else api.secLt prevPTS nextPTS))))
  if !ok || !stream then ok else true

/-! ## Packets and frames -/

/-- The fields of an `AVPacket` (wrapped by `AvPkt`) that the decode path
reads; `data` stands for the payload.  The empty packet `AvPkt()` is the flush
request. -/
structure AvPkt where
  data : Nat
  size : Nat
  flags : Nat
  pts : Int
  dts : Int
  deriving DecidableEq, Repr

/-- The packet `AvPkt()` after `av_init_packet`: no payload, no timestamps. -/
def AvPkt.empty : AvPkt :=
  { data := 0, size := 0, flags := 0, pts := AV_NOPTS_VALUE, dts := AV_NOPTS_VALUE }

/-- A decoded audio frame `TAudioFrame`: its time stamp and sample count. -/
structure TAudioFrame where
  time_ : TTime
  numSamples : Nat
  deriving DecidableEq, Repr

/-! ## AudioTrack::decode (yae_audio_track.cpp) -/

/-- The state of `AudioTrack` that `AudioTrack::decode` reads and writes.
`time_base_num`, `time_base_den` and `sampleRate_` stand for
`stream_->time_base` and `output_.sampleRate_`.  The `double` members of the
playback interval are read as exact rationals; `frameQueue_` lists the frames
pushed so far, oldest first. -/
structure AudioTrack where
  time_base_num : Int
  time_base_den : Int
  sampleRate_ : Nat
  startTime_ : Int
  hasPrevPTS_ : Bool
  prevPTS_ : TTime
  prevNumSamples_ : Nat
  samplesDecoded_ : Nat
  playbackEnabled_ : Bool
  timeIn_ : ℚ
  timeOut_ : ℚ
  discarded_ : Nat
  frameQueue_ : List TAudioFrame

/-- What the codec and the filter graph deliver while the send/receive loop of
`AudioTrack::decode` consumes one packet: the best-effort timestamps of the
frames received with samples (in order), whether the loop left the function by
one of its `return` statements, and the number of output samples pulled from
the filter graph (`outputBytes / outputBytesPerSample_`). -/
structure AudioCodecOut where
  framePts : List Int
  returned : Bool
  numOutputSamples : Nat
  deriving DecidableEq, Repr

/-- The result of the time-stamping block: `af.time_` and `gotPTS`. -/
structure Stamp where
  time_ : TTime
  gotPTS : Bool
  deriving DecidableEq, Repr

/-- Ghost record of one `AudioTrack::decode` call: whether the check for
non-monotonic codec timestamps cleared `hasPrevPTS_`, the stamp of the frame
that reached time-stamping (if any), and whether that frame was pushed to the
frame queue. -/
structure AudioResult where
  reset : Bool
  stamp : Option Stamp
  pushed : Bool
  deriving DecidableEq, Repr

/-- The seconds of a timestamp, `TTime::toSeconds`, read exactly. -/
def TTime.toSeconds (t : TTime) : ℚ := (t.time_ : ℚ) / (t.base_ : ℚ)

/-- Lines 194-214: the check of a received frame for broken, non-monotonically
increasing codec timestamps; a frame earlier than the previous PTS clears
`hasPrevPTS_`. -/
def AudioTrack.checkFrame (api : TTimeApi) (t : AudioTrack) (pts : Int) : AudioTrack :=
  if t.hasPrevPTS_ && decide (pts ≠ AV_NOPTS_VALUE) then
    let nextPTS : TTime := ⟨t.time_base_num * pts, toUInt64 t.time_base_den⟩
    if api.lt nextPTS t.prevPTS_ then { t with hasPrevPTS_ := false } else t
  else t

/-- The frame checks of one send/receive loop, in the order of reception. -/
def AudioTrack.checkFrames (api : TTimeApi) (t : AudioTrack) : List Int → AudioTrack
  | [] => t
  | pts :: rest => AudioTrack.checkFrames api (t.checkFrame api pts) rest

/-- Lines 285-329: the PTS fallback chain.  `t` is the track after
`samplesDecoded_ += numOutputSamples`. -/
def AudioTrack.stampPTS (api : TTimeApi) (t : AudioTrack) (packet : AvPkt)
    (numOutputSamples : Nat) : Stamp :=
  let den : Nat := toUInt64 t.time_base_den
  let s0 : Stamp := { time_ := ⟨0, den⟩, gotPTS := false }
  -- packet.pts
  let s1 : Stamp :=
    if !s0.gotPTS && decide (packet.pts ≠ AV_NOPTS_VALUE) then
      let tm : TTime := ⟨t.time_base_num * packet.pts, s0.time_.base_⟩
      { time_ := tm, gotPTS := verify_pts api t.hasPrevPTS_ t.prevPTS_ tm true }
    else s0
  -- packet.dts
  let s2 : Stamp :=
    if !s1.gotPTS && decide (packet.dts ≠ AV_NOPTS_VALUE) then
      let tm : TTime := ⟨t.time_base_num * packet.dts, s1.time_.base_⟩
      { time_ := tm, gotPTS := verify_pts api t.hasPrevPTS_ t.prevPTS_ tm true }
    else s1
  -- samples decoded so far, offset by the start time
  let s3 : Stamp :=
    if !s2.gotPTS then
      let tm : TTime :=
        api.add ⟨((t.samplesDecoded_ - numOutputSamples : Nat) : Int), t.sampleRate_⟩
          ⟨t.startTime_, den⟩
      { time_ := tm, gotPTS := verify_pts api t.hasPrevPTS_ t.prevPTS_ tm true }
    else s2
  -- previous PTS plus the previous number of samples
  let s4 : Stamp :=
    if !s3.gotPTS && t.hasPrevPTS_ then
      let tm : TTime := api.add t.prevPTS_ ⟨(t.prevNumSamples_ : Int), t.sampleRate_⟩
      { time_ := tm, gotPTS := verify_pts api t.hasPrevPTS_ t.prevPTS_ tm true }
    else s3
  -- previous PTS plus one tick
  let s5 : Stamp :=
    if !s4.gotPTS && t.hasPrevPTS_ then
      let tm : TTime := ⟨t.prevPTS_.time_ + 1, t.prevPTS_.base_⟩
      { time_ := tm, gotPTS := verify_pts api t.hasPrevPTS_ t.prevPTS_ tm true }
    else s4
  s5

/-- The function `AudioTrack::decode` for one packet (the flush request is the
empty packet), from the frame checks of the loop to the push into the frame
queue.  The push itself is taken to succeed. -/
def AudioTrack.decode (api : TTimeApi) (t : AudioTrack) (packet : AvPkt)
    (o : AudioCodecOut) : AudioTrack × AudioResult :=
  let t1 := AudioTrack.checkFrames api t o.framePts
  let reset : Bool := t.hasPrevPTS_ && !t1.hasPrevPTS_
  if o.returned || decide (o.numOutputSamples = 0) then
    (t1, { reset := reset, stamp := none, pushed := false })
  else
    let numOutputSamples := o.numOutputSamples
    let t2 := { t1 with samplesDecoded_ := t1.samplesDecoded_ + numOutputSamples }
    let s := t2.stampPTS api packet numOutputSamples
    let af : TAudioFrame := { time_ := s.time_, numSamples := numOutputSamples }
    let t3 : AudioTrack :=
      if s.gotPTS then
        { t2 with hasPrevPTS_ := true, prevPTS_ := s.time_, prevNumSamples_ := numOutputSamples }
      else t2
    -- make sure the frame is in the in/out interval:
    let tsec : ℚ := s.time_.toSeconds
    let dt : ℚ := (numOutputSamples : ℚ) / (t3.sampleRate_ : ℚ)
    if t3.playbackEnabled_ && (decide (tsec > t3.timeOut_) || decide (tsec + dt < t3.timeIn_)) then
      let t4 : AudioTrack :=
        if tsec > t3.timeOut_ then { t3 with discarded_ := t3.discarded_ + 1 } else t3
      (t4, { reset := reset, stamp := some s, pushed := false })
    else
      let t4 : AudioTrack := if t3.playbackEnabled_ then { t3 with discarded_ := 0 } else t3
      ({ t4 with frameQueue_ := t4.frameQueue_ ++ [af] },
       { reset := reset, stamp := some s, pushed := true })

/-- A run of `AudioTrack::decode` over a sequence of packets, each with what
the codec delivers for it; the ghost records of the calls, in order. -/
def AudioTrack.run (api : TTimeApi) :
    AudioTrack → List (AvPkt × AudioCodecOut) → List AudioResult
  | _, [] => []
  | t, (p, o) :: rest =>
    let r := AudioTrack.decode api t p o
    r.2 :: AudioTrack.run api r.1 rest

/-- The track state after a run. -/
def AudioTrack.runState (api : TTimeApi) :
    AudioTrack → List (AvPkt × AudioCodecOut) → AudioTrack
  | t, [] => t
  | t, (p, o) :: rest => AudioTrack.runState api (AudioTrack.decode api t p o).1 rest

/-- The validated time stamps among the records of a run, in order. -/
def validatedPTS : List AudioResult → List TTime
  | [] => []
  | r :: rest =>
    match r.stamp with
    | some s => if s.gotPTS then s.time_ :: validatedPTS rest else validatedPTS rest
    | none => validatedPTS rest

/-- The time stamps of the frames pushed to the frame queue during a run. -/
def pushedPTS : List AudioResult → List TTime
  | [] => []
  | r :: rest =>
    match r.stamp with
    | some s => if r.pushed then s.time_ :: pushedPTS rest else pushedPTS rest
    | none => pushedPTS rest

/-- The candidates of the fallback chain in their fixed order, as the spec
lists them: packet PTS, packet DTS, decoded-sample count offset by the start
time, previous PTS plus previous sample count, previous PTS plus one tick.
A candidate that is unknown is `none`. -/
def AudioTrack.ptsCandidates (api : TTimeApi) (t : AudioTrack) (packet : AvPkt)
    (numOutputSamples : Nat) : List (Option TTime) :=
  let den : Nat := toUInt64 t.time_base_den
  [ if packet.pts ≠ AV_NOPTS_VALUE then some ⟨t.time_base_num * packet.pts, den⟩ else none,
    if packet.dts ≠ AV_NOPTS_VALUE then some ⟨t.time_base_num * packet.dts, den⟩ else none,
    some (api.add ⟨((t.samplesDecoded_ - numOutputSamples : Nat) : Int), t.sampleRate_⟩
      ⟨t.startTime_, den⟩),
    if t.hasPrevPTS_ then
      some (api.add t.prevPTS_ ⟨(t.prevNumSamples_ : Int), t.sampleRate_⟩) else none,
    if t.hasPrevPTS_ then some ⟨t.prevPTS_.time_ + 1, t.prevPTS_.base_⟩ else none ]

/-- The first candidate of a list that is known and passes `verify_pts`
against the previous PTS: the chain as the spec words it. -/
def firstValidated (api : TTimeApi) (hasPrev : Bool) (prev : TTime) :
    List (Option TTime) → Option TTime
  | [] => none
  | none :: rest => firstValidated api hasPrev prev rest
  | some c :: rest =>
    if verify_pts api hasPrev prev c true then some c
    else firstValidated api hasPrev prev rest

/-- The order that `verify_pts` enforces between a previous and a next PTS. -/
def ptsBefore (api : TTimeApi) (a b : TTime) : Prop := verify_pts api true a b true = true

instance (api : TTimeApi) (a b : TTime) : Decidable (ptsBefore api a b) := by
  unfold ptsBefore; infer_instance

/-- An audio track as `AudioTrack::decoderStartup` leaves it: time base
1/1000, 48000 samples per second, no previous PTS, playback interval off. -/
def audioTrack0 : AudioTrack :=
  { time_base_num := 1, time_base_den := 1000, sampleRate_ := 48000, startTime_ := 0,
    hasPrevPTS_ := false, prevPTS_ := ⟨0, 1001⟩, prevNumSamples_ := 0, samplesDecoded_ := 0,
    playbackEnabled_ := false, timeIn_ := 0, timeOut_ := 0, discarded_ := 0,
    frameQueue_ := [] }

/-- Two packets with increasing DTS (0, 40) whose PTS goes back from 1000 to
500; the codec hands out one frame of 1024 samples per packet and stamps it
with the packet PTS. -/
def audioJumpBack : List (AvPkt × AudioCodecOut) :=
  [ ({ data := 1, size := 100, flags := 0, pts := 1000, dts := 0 },
     { framePts := [1000], returned := false, numOutputSamples := 1024 }),
    ({ data := 2, size := 100, flags := 0, pts := 500, dts := 40 },
     { framePts := [500], returned := false, numOutputSamples := 1024 }) ]

/-- Two packets with increasing DTS and PTS (0, 40); the codec stamps each
frame with the packet PTS. -/
def audioSteady : List (AvPkt × AudioCodecOut) :=
  [ ({ data := 1, size := 100, flags := 0, pts := 0, dts := 0 },
     { framePts := [0], returned := false, numOutputSamples := 1024 }),
    ({ data := 2, size := 100, flags := 0, pts := 40, dts := 40 },
     { framePts := [40], returned := false, numOutputSamples := 1024 }) ]

/-! ## Track: decoder failover (yae_track.cpp) -/

/-- A decoded frame as `Track::decoderPull` hands it to `handle`. -/
structure AvFrm where
  best_effort_timestamp : Int
  pts : Int
  deriving DecidableEq, Repr

/-- What a codec does during one `Track::decode(ctx, pkt)`: the result of
`avcodec_send_packet`, the result of the second `avcodec_send_packet` (made
after `avcodec_flush_buffers` when the first one returned `AVERROR_EOF`), the
frames that `avcodec_receive_frame` hands out, and the negative result of
`avcodec_receive_frame` that ends the pull. -/
structure CodecAnswer where
  errSend : Int
  errResend : Int
  frames : List AvFrm
  errRecv : Int
  errRecv_neg : errRecv < 0

/-- An open codec context.  `name` is `ctx->codec->name`.  The internal state of
the codec is the list `sent` of the packets passed to `avcodec_send_packet` so
far, oldest first; `behave` gives the answer of the codec to the next packet
in that state, so that every deterministic codec is covered. -/
structure AVCodecContext where
  name : Nat
  sent : List AvPkt
  behave : List AvPkt → AvPkt → CodecAnswer

/-- The field of `AVStream` that `Track::open` reads. -/
structure AVStream where
  codec_id : Nat
  deriving DecidableEq, Repr

/-- Undefined behaviour of the C++ code: `avcodec_send_packet` on a null codec
context, `pop_front` on an empty list. -/
inductive Fault where
  | nullCodecContext
  | popFrontEmpty
  deriving DecidableEq, Repr

/-- The state of `Track`.  `handled_` (the frames passed to `handle`, oldest
first) and `switches_` (the number of `switchDecoder` calls) are ghost fields. -/
structure Track where
  stream_ : Option AVStream
  codecContext_ : Option AVCodecContext
  candidates_ : List AVCodecContext
  recommended_ : List AVCodecContext
  switchDecoderToRecommended_ : Bool
  sent_ : Nat
  received_ : Nat
  errors_ : Nat
  packets_ : List AvPkt
  handled_ : List AvFrm
  switches_ : Nat

/-- The function `find_best_decoder_for`.  `found` is the list that
`get_decoders().find(params, untried, preferSoftwareDecoder)` yields for the
stream of the track: the decoders that open for its codec parameters. -/
def find_best_decoder_for (found : List AVCodecContext) (untried : List AVCodecContext) :
    Option AVCodecContext × List AVCodecContext :=
  let untried := if untried.isEmpty then found else untried
  match untried with
  | [] => (none, [])
  | ctx :: rest => (some ctx, rest)

/-- The function `Track::open`; the second component is the returned pointer. -/
def Track.open (found : List AVCodecContext) (t : Track) : Track × Option AVCodecContext :=
  match t.codecContext_ with
  | some c => (t, some c)
  | none =>
    match t.stream_ with
    | none => (t, none)
    | some stream =>
      let r := find_best_decoder_for found t.candidates_
      let t1 := { t with codecContext_ := r.1, candidates_ := r.2 }
      if r.1.isNone && decide (stream.codec_id ≠ AV_CODEC_ID_TEXT) then
        -- unsupported codec:
        (t1, none)
      else
        ({ t1 with sent_ := 0, received_ := 0, errors_ := 0 }, r.1)

/-- The function `Track::close`. -/
def Track.close (t : Track) : Track :=
  if t.stream_.isSome && t.codecContext_.isSome then { t with codecContext_ := none } else t

/-- The function `Track::decoderPull`: the frames received are counted and
handled, the failure that ends the loop is counted unless it is `EAGAIN` or
`AVERROR_EOF`, and is returned. -/
def Track.decoderPull (t : Track) : List AvFrm → Int → Track × Int
  | [], err =>
    (if err ≠ AVERROR_EAGAIN ∧ err ≠ AVERROR_EOF then { t with errors_ := t.errors_ + 1 } else t,
     err)
  | frm :: rest, err =>
    Track.decoderPull
      { t with received_ := t.received_ + 1,
               handled_ := t.handled_ ++ [{ frm with pts := frm.best_effort_timestamp }] }
      rest err

/-- The function `Track::decode(AVCodecContext *, const AvPkt &)` on the codec
context of the track (both callers pass `codecContext_.get()`, which is null
when the track has none).  `decoderPull` returns a negative value only, so the
`while (errSend == AVERROR(EAGAIN))` loop ends with its first pass. -/
def Track.decodePkt (t : Track) (pkt : AvPkt) : Except Fault (Track × Int) :=
  match t.codecContext_ with
  | none => .error Fault.nullCodecContext
  | some ctx =>
    let a := ctx.behave ctx.sent pkt
    let ctx1 := { ctx with sent := ctx.sent ++ [pkt] }
    let ctx2 := if a.errSend = AVERROR_EOF then { ctx1 with sent := ctx1.sent ++ [pkt] } else ctx1
    let errSend := if a.errSend = AVERROR_EOF then a.errResend else a.errSend
    let t1 := { t with codecContext_ := some ctx2 }
    if errSend < 0 ∧ errSend ≠ AVERROR_EAGAIN ∧ errSend ≠ AVERROR_EOF then
      .ok ({ t1 with errors_ := t1.errors_ + 1 }, errSend)
    else
      let t2 := if errSend ≥ 0 then { t1 with sent_ := t1.sent_ + 1 } else t1
      .ok (t2.decoderPull a.frames a.errRecv)

/-- The function `Track::flush`. -/
def Track.flush (t : Track) : Except Fault Track :=
  match t.codecContext_ with
  | none => .ok t
  | some _ =>
    match t.decodePkt AvPkt.empty with
    | .error e => .error e
    | .ok r => .ok r.1

/-- The loop of `Track::switchDecoder` over the retained packets: it stops
after the first packet whose decode returns an error other than `EAGAIN`. -/
def Track.replay (t : Track) : List AvPkt → Except Fault Track
  | [] => .ok t
  | pkt :: rest =>
    match t.decodePkt pkt with
    | .error e => .error e
    | .ok r =>
      if r.2 < 0 ∧ r.2 ≠ AVERROR_EAGAIN then .ok r.1 else Track.replay r.1 rest

/-- The function `Track::switchDecoder`.  The `err` tested after the loop is
the outer variable, which the loop never assigns: the result is `false`. -/
def Track.switchDecoder (found : List AVCodecContext) (t : Track) : Except Fault (Track × Bool) :=
  let t0 := { t with switches_ := t.switches_ + 1 }
  let t1 := (Track.open found { t0 with codecContext_ := none }).1
  match t1.replay t1.packets_ with
  | .error e => .error e
  | .ok t2 => .ok (t2, false)

/-- Lines 762-773 of `Track::decode(const TPacketPtr &)`: a pending decoder
recommendation is taken up at a key frame; the candidates are replaced by the
recommended list, the codec is flushed and closed. -/
def Track.applyRecommended (t : Track) (pkt : AvPkt) : Except Fault Track :=
  if t.switchDecoderToRecommended_ && decide (pkt.flags &&& AV_PKT_FLAG_KEY ≠ 0) then
    let t1 := { t with candidates_ := t.recommended_, recommended_ := [],
                       switchDecoderToRecommended_ := false }
    -- flush any buffered frames, close the codec:
    match t1.flush with
    | .error e => .error e
    | .ok t2 => .ok { t2 with codecContext_ := none }
  else .ok t

/-- Lines 782-786 of `Track::decode(const TPacketPtr &)`: the packet joins the
retained history, whose front is dropped when more than 60 packets were sent. -/
def Track.retain (t : Track) (pkt : AvPkt) : Except Fault Track :=
  if t.sent_ > 60 then
    match t.packets_ with
    | [] => .error Fault.popFrontEmpty
    | _ :: rest => .ok { t with packets_ := rest ++ [pkt] }
  else .ok { t with packets_ := t.packets_ ++ [pkt] }

/-- The first part of `Track::decode(const TPacketPtr &)` for a packet, up to
`int err = decode(ctx, pkt)`.  The result holds the track and, unless the
function returned because the codec is not supported, `receivedPrior` and
`err`. -/
def Track.decodeHead (found : List AVCodecContext) (t : Track) (pkt : AvPkt) :
    Except Fault (Track × Option (Nat × Int)) :=
  match t.applyRecommended pkt with
  | .error e => .error e
  | .ok t2 =>
    match Track.open found t2 with
    | (t3, none) => .ok (t3, none)
    | (t3, some _) =>
      match t3.retain pkt with
      | .error e => .error e
      | .ok t5 =>
        match t5.decodePkt pkt with
        | .error e => .error e
        | .ok r6 => .ok (r6.1, some (t5.received_, r6.2))

/-- The end of `Track::decode(const TPacketPtr &)`: the history is cleared when
a frame was received, the decoder is switched on a failure other than `EAGAIN`
when no frame was ever received or six errors were counted. -/
def Track.decodeTail (found : List AVCodecContext) (t : Track) (receivedPrior : Nat)
    (err : Int) : Except Fault Track :=
  if t.received_ > receivedPrior then
    .ok { t with packets_ := [], sent_ := 0, errors_ := 0 }
  else if err < 0 ∧ err ≠ AVERROR_EAGAIN ∧ (t.received_ = 0 ∨ t.errors_ ≥ 6) then
    match t.switchDecoder found with
    | .error e => .error e
    | .ok r => .ok r.1
  else .ok t

/-- The function `Track::decode(const TPacketPtr &)`; `none` is the flush
request. -/
def Track.decode (found : List AVCodecContext) (t : Track) (packetPtr : Option AvPkt) :
    Except Fault Track :=
  match packetPtr with
  | none => t.flush
  | some pkt =>
    match Track.decodeHead found t pkt with
    | .error e => .error e
    | .ok (t1, none) => .ok t1
    | .ok (t1, some (receivedPrior, err)) => Track.decodeTail found t1 receivedPrior err

/-- A sequence of `Track::decode` calls, as `Track::threadLoop` makes them. -/
def Track.run (found : List AVCodecContext) : Track → List (Option AvPkt) → Except Fault Track
  | t, [] => .ok t
  | t, p :: rest =>
    match Track.decode found t p with
    | .error e => .error e
    | .ok t1 => Track.run found t1 rest

/-- A track as the constructor leaves it, for a stream of codec id `codec_id`. -/
def Track.init (codec_id : Nat) : Track :=
  { stream_ := some { codec_id := codec_id }, codecContext_ := none, candidates_ := [],
    recommended_ := [], switchDecoderToRecommended_ := false, sent_ := 0, received_ := 0,
    errors_ := 0, packets_ := [], handled_ := [], switches_ := 0 }

/-- A codec that rejects every packet with `AVERROR_INVALIDDATA`. -/
def rejectAll (name : Nat) : AVCodecContext :=
  { name := name, sent := [],
    behave := fun _ _ =>
      { errSend := AVERROR_INVALIDDATA, errResend := AVERROR_INVALIDDATA, frames := [],
        errRecv := AVERROR_EAGAIN, errRecv_neg := by decide } }

/-- A codec that accepts every packet and asks for more input. -/
def acceptAll (name : Nat) : AVCodecContext :=
  { name := name, sent := [],
    behave := fun _ _ =>
      { errSend := 0, errResend := 0, frames := [],
        errRecv := AVERROR_EAGAIN, errRecv_neg := by decide } }

/-- A codec that accepts every packet and then fails to decode it:
`avcodec_receive_frame` returns `AVERROR_INVALIDDATA`. -/
def acceptThenFail (name : Nat) : AVCodecContext :=
  { name := name, sent := [],
    behave := fun _ _ =>
      { errSend := 0, errResend := 0, frames := [],
        errRecv := AVERROR_INVALIDDATA, errRecv_neg := by decide } }

/-- The packet number `i` of a stream: payload `i + 1`, DTS and PTS `i`. -/
def pktN (i : Nat) : AvPkt :=
  { data := i + 1, size := 1, flags := 0, pts := i, dts := i }

/-- The name of the active codec of a track and the packets sent to it. -/
def Track.activeCodec (t : Track) : Option (Nat × List AvPkt) :=
  t.codecContext_.map (fun c => (c.name, c.sent))

/-- The track of a result; the initial track stands for a fault. -/
def Track.ofResult (r : Except Fault Track) : Track :=
  match r with
  | .ok t => t
  | .error _ => Track.init 0

/-- A codec that accepts its first packet, asking for more input, and rejects
every later packet with `AVERROR_INVALIDDATA`. -/
def acceptOnce (name : Nat) : AVCodecContext :=
  { name := name, sent := [],
    behave := fun h _ =>
      if h.isEmpty then
        { errSend := 0, errResend := 0, frames := [],
          errRecv := AVERROR_EAGAIN, errRecv_neg := by decide }
      else
        { errSend := AVERROR_INVALIDDATA, errResend := AVERROR_INVALIDDATA, frames := [],
          errRecv := AVERROR_EAGAIN, errRecv_neg := by decide } }

/-- A track at the moment `Track::decode` decides to switch: codec 1 accepted
packet 0 and rejected packet 1, both packets are retained, and the next
candidate is codec 2, which accepts every packet. -/
def trackTwoRetained : Track :=
  { Track.init 27 with
    codecContext_ := some { acceptOnce 1 with sent := [pktN 0, pktN 1] },
    candidates_ := [acceptAll 2], packets_ := [pktN 0, pktN 1], sent_ := 1, errors_ := 1 }

/-- The same track, the next candidate being a codec that accepts every packet
but fails to decode it. -/
def trackTwoRetainedFailing : Track :=
  { trackTwoRetained with candidates_ := [acceptThenFail 2] }

/-- A track whose only decoder, codec 1, was opened and has just rejected its
first packet: no untried candidate is left. -/
def trackNoneUntried : Track :=
  { Track.init 27 with
    codecContext_ := some { rejectAll 1 with sent := [pktN 0] },
    candidates_ := [], packets_ := [pktN 0], errors_ := 1 }

/-- A track that has opened codec 1, with codec 2 as the untried candidate, and
has not decoded anything yet. -/
def trackOpened : Track :=
  { Track.init 27 with codecContext_ := some (rejectAll 1), candidates_ := [acceptAll 2] }

/-! ## ParallelDemuxer (declared in yae_demuxer.h) -/

/-- Modelled from the spec: the bodies of `ParallelDemuxer::peek`,
`DemuxerInterface::pop` and `DemuxerInterface::get` (`yae_demuxer.cpp`) are
missing from the sources.  A `ParallelDemuxer` holds its child demuxers in
registration order, the primary resource first; a child is the sequence of
packets it has yet to yield, front first.  Decode timestamps are compared as
the spec states them, as times on one scale (`AvPkt.dts`). -/
structure ParallelDemuxer where
  src_ : List (List AvPkt)

/-- Modelled from the spec: `peek` of `ParallelDemuxer` is missing from the
sources; it peeks all children and selects the packet of minimum DTS, ties
broken by child registration order (the earlier child wins). -/
def peekChildren : List (List AvPkt) → Option AvPkt
  | [] => none
  | c :: cs =>
    match c.head?, peekChildren cs with
    | none, r => r
    | some p, none => some p
    | some p, some q => if q.dts < p.dts then some q else some p

/-- Modelled from the spec: `pop` of `DemuxerInterface` is missing from the
sources; it removes the packet only if it is still the front packet, here the
front packet of the first child that has it in front. -/
def popChildren (pkt : AvPkt) : List (List AvPkt) → Bool × List (List AvPkt)
  | [] => (false, [])
  | [] :: cs => ((popChildren pkt cs).1, [] :: (popChildren pkt cs).2)
  | (p :: ps) :: cs =>
    if p = pkt then (true, ps :: cs)
    else ((popChildren pkt cs).1, (p :: ps) :: (popChildren pkt cs).2)

/-- Modelled from the spec: see `peekChildren`. -/
def ParallelDemuxer.peek (d : ParallelDemuxer) : Option AvPkt := peekChildren d.src_

/-- Modelled from the spec: see `popChildren`. -/
def ParallelDemuxer.pop (d : ParallelDemuxer) (pkt : AvPkt) : Bool × ParallelDemuxer :=
  ((popChildren pkt d.src_).1, { src_ := (popChildren pkt d.src_).2 })

/-- Modelled from the spec: `get` of `DemuxerInterface` is missing from the
sources; it is `peek` followed by `pop`. -/
def ParallelDemuxer.get (d : ParallelDemuxer) : Option AvPkt × ParallelDemuxer :=
  match d.peek with
  | none => (none, d)
  | some pkt => (some pkt, (d.pop pkt).2)

/-- The packets returned by successive `get` calls, as the replay loop of
`yaeReplay.cpp` makes them, until `get` returns no packet or `fuel` calls were
made; the second component is the demuxer left behind. -/
def ParallelDemuxer.drain : Nat → ParallelDemuxer → List AvPkt × ParallelDemuxer
  | 0, d => ([], d)
  | fuel + 1, d =>
    match d.get with
    | (none, d1) => ([], d1)
    | (some pkt, d1) => (pkt :: (ParallelDemuxer.drain fuel d1).1, (ParallelDemuxer.drain fuel d1).2)

/-- The number of packets the children of a demuxer have yet to yield. -/
def ParallelDemuxer.size (d : ParallelDemuxer) : Nat := d.src_.flatten.length

/-- A sequence of packets in non-decreasing DTS order. -/
def dtsSorted (l : List AvPkt) : Prop := l.Pairwise (fun a b => a.dts ≤ b.dts)

/-- A primary source with DTS 0, 2, 4 and an auxiliary source with DTS 1, 2, 5. -/
def twoSources : ParallelDemuxer :=
  { src_ := [[pktN 0, pktN 2, pktN 4], [pktN 1, { pktN 2 with data := 9 }, pktN 5]] }

/-! ## Timeline spans (used by yae_timeline_tests.cpp) -/

/-- Modelled from the spec: exact difference of two timestamps (the body of
`TTime` arithmetic is missing from the sources, see `TTime.exactLt`). -/
def TTime.exactSub (a b : TTime) : TTime :=
  if a.base_ = b.base_ then ⟨a.time_ - b.time_, a.base_⟩
  else ⟨a.time_ * (b.base_ : Int) - b.time_ * (a.base_ : Int), a.base_ * b.base_⟩

/-- Modelled from the spec: the negated timestamp, `operator -`. -/
def TTime.exactNeg (a : TTime) : TTime := ⟨-a.time_, a.base_⟩

/-- Modelled from the spec: the earlier of two timestamps. -/
def TTime.exactMin (a b : TTime) : TTime := if TTime.exactLt b a then b else a

/-- Modelled from the spec: the later of two timestamps. -/
def TTime.exactMax (a b : TTime) : TTime := if TTime.exactLt a b then b else a

/-- The interval `Timespan` from `t0_` to `t1_`. -/
structure Timespan where
  t0_ : TTime
  t1_ : TTime
  deriving DecidableEq, Repr

/-- The time from the end of the span `last` to the start of the span `s`. -/
def Timespan.gap (last s : Timespan) : TTime := TTime.exactSub s.t0_ last.t1_

/-- The start of `s` is within `tolerance` of the end of `last`. -/
def withinTolerance (tolerance : TTime) (last s : Timespan) : Bool :=
  !TTime.exactLt tolerance (last.gap s) && !TTime.exactLt (last.gap s) tolerance.exactNeg

/-- The span `s` starts before the end of `last` by more than `tolerance`:
time does not increase monotonically. -/
def startsBefore (tolerance : TTime) (last s : Timespan) : Bool :=
  TTime.exactLt (last.gap s) tolerance.exactNeg

/-- Modelled from the spec: the forced merge of `extend`, whose body is missing
from the sources; every span that `s` overlaps is merged with `s` into one
span covering their union, the spans before and after it are kept. -/
def mergeOverlapping (track : List Timespan) (s : Timespan) : List Timespan :=
  let before := track.filter (fun x => TTime.exactLt x.t1_ s.t0_)
  let after := track.filter (fun x => TTime.exactLt s.t1_ x.t0_)
  let over := track.filter
    (fun x => !TTime.exactLt x.t1_ s.t0_ && !TTime.exactLt s.t1_ x.t0_)
  let merged : Timespan :=
    over.foldl (fun m x => ⟨TTime.exactMin m.t0_ x.t0_, TTime.exactMax m.t1_ x.t1_⟩) s
  before ++ [merged] ++ after

/-- Modelled from the spec: `extend(track, s, tolerance, forceMerge)` is called
by the tests but its body is missing from the sources.  On an empty track the
span is stored.  If the start of the span is within `tolerance` of the end of
the last span, the last span is extended in place to the end of the new span.
If the span starts before the end of the last span by more than `tolerance`,
the call is refused (`false`, track unchanged) unless merging is forced.
Otherwise the span lies after a gap and is appended, as the test of the
repository expects.  The result is the returned flag and the new track.
(The test passes the last argument of the C++ function positionally, where
`false` forces the merge.) -/
def extend (track : List Timespan) (s : Timespan) (tolerance : TTime) (forceMerge : Bool) :
    Bool × List Timespan :=
  match track.getLast? with
  | none => (true, [s])
  | some last =>
    if withinTolerance tolerance last s then
      (true, track.dropLast ++ [{ t0_ := last.t0_, t1_ := s.t1_ }])
    else if startsBefore tolerance last s then
      if forceMerge then (true, mergeOverlapping track s) else (false, track)
    else (true, track ++ [s])

/-- The default tolerance of `extend`, `0.0` seconds. -/
def defaultTolerance : TTime := ⟨0, 1⟩

/-- The spans of the test `yae_timeline`: `s12`, `s23`, `s46`, `s25`. -/
def s12 : Timespan := ⟨⟨100, 1000⟩, ⟨200, 1000⟩⟩

/-- The span from `t2` to `t3` of the test. -/
def s23 : Timespan := ⟨⟨200, 1000⟩, ⟨300, 1000⟩⟩

/-- The span from `t4` to `t6` of the test. -/
def s46 : Timespan := ⟨⟨400, 1000⟩, ⟨600, 1000⟩⟩

/-- The span from `t2` to `t5` of the test. -/
def s25 : Timespan := ⟨⟨200, 1000⟩, ⟨500, 1000⟩⟩

/-- The span `s` starts after the end of `last` by more than `tolerance`: the
two spans are separated by a gap. -/
def startsAfter (tolerance : TTime) (last s : Timespan) : Bool :=
  TTime.exactLt tolerance (last.gap s)

/-- The span `x` and the span `s` overlap: neither ends before the other
starts (the test of `mergeOverlapping`). -/
def Timespan.overlaps (x s : Timespan) : Bool :=
  !TTime.exactLt x.t1_ s.t0_ && !TTime.exactLt s.t1_ x.t0_

/-- The span `m` covers the span `x`: it starts no later and ends no earlier. -/
def Timespan.covers (m x : Timespan) : Prop :=
  TTime.exactLt x.t0_ m.t0_ = false ∧ TTime.exactLt m.t1_ x.t1_ = false

/-- Both ends of a span have a non-zero time base. -/
def Timespan.wellFormed (x : Timespan) : Prop := 0 < x.t0_.base_ ∧ 0 < x.t1_.base_

/-- Modelled from the spec: `bbox(track)` is called by the tests but its body is
missing from the sources; the bounding box of the track spans runs from the
start of the first span to the end of the last span (none for an empty track). -/
def bbox (track : List Timespan) : Option Timespan :=
  match track.head?, track.getLast? with
  | some first, some last => some { t0_ := first.t0_, t1_ := last.t1_ }
  | _, _ => none

/-! ## Track: open, decoder recommendation (yae_track.cpp) -/

/-- The loop of `Track::tryToSwitchDecoder` over the candidates: a candidate
whose codec name is `name` is pushed to the back of `a`, any other to the back
of `b`. -/
def splitByName (name : Nat) :
    List AVCodecContext → List AVCodecContext → List AVCodecContext →
      List AVCodecContext × List AVCodecContext
  | [], a, b => (a, b)
  | c :: cs, a, b =>
    if name = c.name then splitByName name cs (a ++ [c]) b
    else splitByName name cs a (b ++ [c])

/-- The function `Track::tryToSwitchDecoder`: the candidates that the registry
finds for the stream (`found`) are split by codec name, `b` is spliced to the
end of `a`, and the result becomes the recommended list.  The function reads
`stream_->codecpar` unchecked; on a track without stream there is no value. -/
def Track.tryToSwitchDecoder (found : List AVCodecContext) (name : Nat) (t : Track) :
    Option Track :=
  match t.stream_ with
  | none => none
  | some _ =>
    let r := splitByName name found [] []
    some { t with recommended_ := r.1 ++ r.2, switchDecoderToRecommended_ := true }

/-- A number of decoder switches in a row. -/
def Track.switchTimes (found : List AVCodecContext) : Nat → Track → Except Fault Track
  | 0, t => .ok t
  | n + 1, t =>
    match t.switchDecoder found with
    | .error e => .error e
    | .ok r => Track.switchTimes found n r.1

/-- The track `trackOpened` with a recommendation pending: codec 3 first. -/
def trackHinted : Track :=
  { trackOpened with recommended_ := [acceptAll 3, acceptAll 1],
                     switchDecoderToRecommended_ := true }

/-- A key frame packet: packet 0 with the flag `AV_PKT_FLAG_KEY`. -/
def pktKey : AvPkt := { pktN 0 with flags := AV_PKT_FLAG_KEY }

/-! ## The decoder registry: TDecoders::find (yae_track.cpp) -/

/-- The capability flag `AV_CODEC_CAP_EXPERIMENTAL`, `1 << 9`. -/
def AV_CODEC_CAP_EXPERIMENTAL : Nat := 512

/-- The pixel format `AV_PIX_FMT_YUV420P`. -/
def AV_PIX_FMT_YUV420P : Int := 0

/-- The codec id `AV_CODEC_ID_MJPEG`. -/
def AV_CODEC_ID_MJPEG : Nat := 7

/-- The fields of `AVCodec` that `TDecoders::find` reads. -/
structure AVCodec where
  id : Nat
  name : String
  capabilities : Nat
  deriving DecidableEq, Repr

/-- The fields of `AVCodecParameters` that `TDecoders::find` reads. -/
structure AVCodecParameters where
  codec_id : Nat
  format : Int
  deriving DecidableEq, Repr

/-- The three local lists of `TDecoders::find`. -/
structure FoundDecoders where
  hardware : List AVCodecContext
  software : List AVCodecContext
  experimental : List AVCodecContext

/-- The decoder is flagged experimental. -/
def AVCodec.isExperimental (c : AVCodec) : Bool :=
  decide (c.capabilities &&& AV_CODEC_CAP_EXPERIMENTAL ≠ 0)

/-- The name of the decoder ends with `_cuvid`. -/
def AVCodec.isCuvid (c : AVCodec) : Bool := c.name.endsWith "_cuvid"

/-- The name of the decoder ends with `_qsv`, `_v4l2m2m`, `_vda` or `_vdpau`. -/
def AVCodec.isOtherHardware (c : AVCodec) : Bool :=
  c.name.endsWith "_qsv" || c.name.endsWith "_v4l2m2m" || c.name.endsWith "_vda" ||
    c.name.endsWith "_vdpau"

/-- The loop of `TDecoders::find` over the decoders registered for the codec id,
in the iteration order of the set.  `tryToOpen c` is `tryToOpen(c, &params)`,
the context if `avcodec_open2` succeeds. -/
def TDecoders.findLoop (tryToOpen : AVCodec → Option AVCodecContext)
    (params : AVCodecParameters) : List AVCodec → FoundDecoders → FoundDecoders
  | [], acc => acc
  | c :: cs, acc =>
    if c.isExperimental then
      match tryToOpen c with
      | some ctx =>
        TDecoders.findLoop tryToOpen params cs
          { acc with experimental := acc.experimental ++ [ctx] }
      | none => TDecoders.findLoop tryToOpen params cs acc
    else if c.isCuvid then
      if params.format ≠ AV_PIX_FMT_YUV420P ∧ params.codec_id ≠ AV_CODEC_ID_MJPEG then
        -- 4:2:0 is the only one that works with h264_cuvid and mpeg2_cuvid
        TDecoders.findLoop tryToOpen params cs acc
      else
        match tryToOpen c with
        | some ctx =>
          TDecoders.findLoop tryToOpen params cs { acc with hardware := ctx :: acc.hardware }
        | none => TDecoders.findLoop tryToOpen params cs acc
    else if c.isOtherHardware then
      if c.name.endsWith "_vda" then
        -- explicitly disabled
        TDecoders.findLoop tryToOpen params cs acc
      else
        match tryToOpen c with
        | some ctx =>
          TDecoders.findLoop tryToOpen params cs { acc with hardware := acc.hardware ++ [ctx] }
        | none => TDecoders.findLoop tryToOpen params cs acc
    else
      match tryToOpen c with
      | some ctx =>
        TDecoders.findLoop tryToOpen params cs { acc with software := acc.software ++ [ctx] }
      | none => TDecoders.findLoop tryToOpen params cs acc

/-- The function `TDecoders::find`.  `decoders` lists the registered decoders,
those of one codec id in the iteration order of their set; a codec id without
decoder yields the empty list. -/
def TDecoders.find (decoders : List AVCodec) (tryToOpen : AVCodec → Option AVCodecContext)
    (params : AVCodecParameters) (preferSoftwareDecoder : Bool) : List AVCodecContext :=
  let codecs := decoders.filter (fun c => decide (c.id = params.codec_id))
  let r := TDecoders.findLoop tryToOpen params codecs
    { hardware := [], software := [], experimental := [] }
  if preferSoftwareDecoder then r.software ++ r.hardware ++ r.experimental
  else r.hardware ++ r.software ++ r.experimental

/-- The experimental group as the spec words it: the experimental decoders of
the codec id that open, in registry order. -/
def experimentalGroup (decoders : List AVCodec) (tryToOpen : AVCodec → Option AVCodecContext)
    (params : AVCodecParameters) : List AVCodecContext :=
  ((decoders.filter (fun c => decide (c.id = params.codec_id))).filter
    (fun c => c.isExperimental)).filterMap tryToOpen

/-- The software group as the spec words it: the decoders of the codec id that
are neither experimental nor hardware-accelerated and that open, in registry
order. -/
def softwareGroup (decoders : List AVCodec) (tryToOpen : AVCodec → Option AVCodecContext)
    (params : AVCodecParameters) : List AVCodecContext :=
  ((decoders.filter (fun c => decide (c.id = params.codec_id))).filter
    (fun c => !c.isExperimental && !c.isCuvid && !c.isOtherHardware)).filterMap tryToOpen

/-- The hardware group: the `_cuvid` decoders that open (only for 4:2:0 input
or MJPEG), latest first, then the `_qsv`, `_v4l2m2m` and `_vdpau` decoders
that open, in registry order; `_vda` decoders are left out. -/
def hardwareGroup (decoders : List AVCodec) (tryToOpen : AVCodec → Option AVCodecContext)
    (params : AVCodecParameters) : List AVCodecContext :=
  (((decoders.filter (fun c => decide (c.id = params.codec_id))).filter
      (fun c => !c.isExperimental && c.isCuvid &&
        !(decide (params.format ≠ AV_PIX_FMT_YUV420P) &&
          decide (params.codec_id ≠ AV_CODEC_ID_MJPEG)))).filterMap tryToOpen).reverse ++
  ((decoders.filter (fun c => decide (c.id = params.codec_id))).filter
      (fun c => !c.isExperimental && !c.isCuvid && c.isOtherHardware &&
        !c.name.endsWith "_vda")).filterMap tryToOpen

/-! ## AudioTrack: playback interval (yae_audio_track.cpp) -/

/-- The function `AudioTrack::setPlaybackInterval`. -/
def AudioTrack.setPlaybackInterval (t : AudioTrack) (timeIn timeOut : ℚ) (enabled : Bool) :
    AudioTrack :=
  { t with timeIn_ := timeIn, timeOut_ := timeOut, playbackEnabled_ := enabled, discarded_ := 0 }

/-- The test that ends the loop of `AudioTrack::getNextFrame`: the frame popped
from the frame queue is handed to the caller; a frame that fails it is an
outlier and is dropped. -/
def AudioTrack.getNextFrameKeeps (t : AudioTrack) (frame : TAudioFrame) : Bool :=
  let ts : ℚ := frame.time_.toSeconds
  let dt : ℚ := (frame.numSamples : ℚ) / (t.sampleRate_ : ℚ)
  (!t.playbackEnabled_ || decide (ts < t.timeOut_)) && decide (ts + dt > t.timeIn_)

/-- The audio track `audioTrack0` with the playback interval from 0 to 1
second enabled. -/
def audioTrackInterval : AudioTrack := audioTrack0.setPlaybackInterval 0 1 true

/-- A packet with PTS 1000 (one second in the time base 1/1000) that decodes to
one frame of 1024 samples. -/
def audioAtTimeOut : AvPkt × AudioCodecOut :=
  ({ data := 1, size := 100, flags := 0, pts := 1000, dts := 1000 },
   { framePts := [1000], returned := false, numOutputSamples := 1024 })

/-! ## ChannelGuide::Item (yae_mpeg_ts.h) -/

/-- The time members of `ChannelGuide::Item`: the start `t0_` (GPS time) and the
duration `dt_`, both in seconds and both `uint32_t`. -/
structure ChannelGuide.Item where
  t0_ : Nat
  dt_ : Nat
  deriving DecidableEq, Repr

/-- The function `Item::t1`: `t0_ + dt_` in 32-bit unsigned arithmetic. -/
def ChannelGuide.Item.t1 (a : ChannelGuide.Item) : Nat := (a.t0_ + a.dt_) % 2 ^ 32

/-- The function `Item::contains(const uint32_t &)`: whether `t` is contained
in `[t0, t1)`. -/
def ChannelGuide.Item.contains (a : ChannelGuide.Item) (t : Nat) : Bool :=
  decide (a.t0_ ≤ t) && decide (t < a.t1)

/-- The function `Item::contains(const Item &)`. -/
def ChannelGuide.Item.containsItem (a item : ChannelGuide.Item) : Bool :=
  decide (a.t0_ ≤ item.t0_) && decide (item.t1 ≤ a.t1)

/-- The function `Item::disjoint`. -/
def ChannelGuide.Item.disjoint (a item : ChannelGuide.Item) : Bool :=
  decide (a.t0_ > item.t1) || decide (item.t0_ > a.t1)

/-- The function `Item::overlaps`. -/
def ChannelGuide.Item.overlaps (a item : ChannelGuide.Item) : Bool := !a.disjoint item

/-! ## SubtitlesTrack (yae_subtitles_track.cpp) -/

/-- The time members of a subtitle frame `TSubsFrame`: the start `time_` and the
end `tEnd_`; `id` stands for the rest of the frame. -/
structure TSubsFrame where
  id : Nat
  time_ : TTime
  tEnd_ : TTime
  deriving DecidableEq, Repr

/-- The member `active_` of `SubtitlesTrack`: the active subtitle frames. -/
structure SubtitlesTrack where
  active_ : List TSubsFrame
  deriving DecidableEq, Repr

/-- The loop of `SubtitlesTrack::expungeOldSubs` over `active_`: a frame whose
end time is at most `v0` is erased.  `sec` is `TTime::sec` (`yae_time.h`,
outside the sources at hand), a parameter; the `double` values are read as
exact rationals. -/
def expungeLoop (sec : TTime → ℚ) (v0 : ℚ) : List TSubsFrame → List TSubsFrame
  | [] => []
  | sf :: rest =>
    if sec sf.tEnd_ ≤ v0 then expungeLoop sec v0 rest else sf :: expungeLoop sec v0 rest

/-- The function `SubtitlesTrack::expungeOldSubs`. -/
def SubtitlesTrack.expungeOldSubs (sec : TTime → ℚ) (t : SubtitlesTrack) (v0 : ℚ) :
    SubtitlesTrack :=
  { active_ := expungeLoop sec v0 t.active_ }

/-- The loop of `SubtitlesTrack::get` over `active_`: a frame with
`s0 < v1 && v0 < s1` is appended to `subs`. -/
def getLoop (sec : TTime → ℚ) (v0 v1 : ℚ) : List TSubsFrame → List TSubsFrame → List TSubsFrame
  | [], subs => subs
  | sf :: rest, subs =>
    if sec sf.time_ < v1 ∧ v0 < sec sf.tEnd_ then getLoop sec v0 v1 rest (subs ++ [sf])
    else getLoop sec v0 v1 rest subs

/-- The function `SubtitlesTrack::get`; the result is the list `subs` after the
call. -/
def SubtitlesTrack.get (sec : TTime → ℚ) (t : SubtitlesTrack) (v0 v1 : ℚ)
    (subs : List TSubsFrame) : List TSubsFrame :=
  getLoop sec v0 v1 t.active_ subs

/-- Three active subtitle frames, shown during seconds `[0, 2)`, `[1, 5)` and
`[4, 9)`. -/
def threeSubs : SubtitlesTrack :=
  { active_ := [⟨1, ⟨0, 1⟩, ⟨2, 1⟩⟩, ⟨2, ⟨1, 1⟩, ⟨5, 1⟩⟩, ⟨3, ⟨4, 1⟩, ⟨9, 1⟩⟩] }

/-! ## Track: flush requests and the retained history -/

/-- A codec that accepts every packet; it hands out one frame for a packet with
a payload and none for the empty packet of a flush request, which it answers
with `AVERROR_EOF` on receive. -/
def decodesEach (name : Nat) : AVCodecContext :=
  { name := name, sent := [],
    behave := fun _ pkt =>
      if pkt.size = 0 then
        { errSend := 0, errResend := 0, frames := [],
          errRecv := AVERROR_EOF, errRecv_neg := by decide }
      else
        { errSend := 0, errResend := 0, frames := [⟨pkt.pts, pkt.pts⟩],
          errRecv := AVERROR_EAGAIN, errRecv_neg := by decide } }

/-- One packet, then 61 flush requests. -/
def packetThenFlushes : List (Option AvPkt) := some (pktN 0) :: List.replicate 61 none

/-- The fault of a result, if any. -/
def faultOf (r : Except Fault Track) : Option Fault :=
  match r with
  | .ok _ => none
  | .error e => some e

/-! ## EBML integers (yamka/yamkaStdInt.cpp) -/

/-- The table `maxUInt`. -/
def maxUInt : List Nat :=
  [0x0, 0xFF, 0xFFFF, 0xFFFFFF, 0xFFFFFFFF, 0xFFFFFFFFFF, 0xFFFFFFFFFFFF, 0xFFFFFFFFFFFFFF,
   0xFFFFFFFFFFFFFFFF]

/-- The function `vsizeNumBytes`; the assertion `i < 0xFFFFFFFFFFFFFF` of its
last case is not checked in a release build. -/
def vsizeNumBytes (i : Nat) : Nat :=
  if i < 0x7F then 1
  else if i < 0x3FFF then 2
  else if i < 0x1FFFFF then 3
  else if i < 0xFFFFFFF then 4
  else if i < 0x7FFFFFFFF then 5
  else if i < 0x3FFFFFFFFFF then 6
  else if i < 0x1FFFFFFFFFFFF then 7
  else 8

/-- The enumerator `LeadingBits1`. -/
def LeadingBits1 : Nat := 1 <<< 7

/-- The enumerator `LeadingBits2`. -/
def LeadingBits2 : Nat := 1 <<< 6

/-- The enumerator `LeadingBits3`. -/
def LeadingBits3 : Nat := 1 <<< 5

/-- The enumerator `LeadingBits4`. -/
def LeadingBits4 : Nat := 1 <<< 4

/-- The enumerator `LeadingBits5`. -/
def LeadingBits5 : Nat := 1 <<< 3

/-- The enumerator `LeadingBits6`. -/
def LeadingBits6 : Nat := 1 <<< 2

/-- The enumerator `LeadingBits7`. -/
def LeadingBits7 : Nat := 1 <<< 1

/-- The enumerator `LeadingBits8`. -/
def LeadingBits8 : Nat := 1 <<< 0

/-- The shift `x << k` of a `uint64`. -/
def shl64 (x k : Nat) : Nat := (x <<< k) % 2 ^ 64

/-- The difference `a - b` of two `uint64` values. -/
def sub64 (a b : Nat) : Nat := (a % 2 ^ 64 + 2 ^ 64 - b % 2 ^ 64) % 2 ^ 64

/-- The function `vsizeDecodeBytes` on a vector of bytes.  The result is `none`
when a byte is read past the end of the vector or when the first byte has no
leading bit (the `assert(false)` of the last case). -/
def vsizeDecodeBytes (v : List Nat) : Option Nat := do
  let v0 ← v[0]?
  if v0 &&& LeadingBits1 ≠ 0 then
    -- 1 byte:
    pure (toUInt64 ((v0 : Int) - LeadingBits1))
  else if v0 &&& LeadingBits2 ≠ 0 then
    -- 2 bytes:
    let v1 ← v[1]?
    pure (shl64 (toUInt64 ((v0 : Int) - LeadingBits2)) 8 ||| v1)
  else if v0 &&& LeadingBits3 ≠ 0 then
    -- 3 bytes:
    let v1 ← v[1]?
    let v2 ← v[2]?
    pure (shl64 (toUInt64 ((v0 : Int) - LeadingBits3)) 16 ||| shl64 v1 8 ||| v2)
  else if v0 &&& LeadingBits4 ≠ 0 then
    -- 4 bytes:
    let v1 ← v[1]?
    let v2 ← v[2]?
    let v3 ← v[3]?
    pure (shl64 (toUInt64 ((v0 : Int) - LeadingBits4)) 24 ||| shl64 v1 16 ||| shl64 v2 8 ||| v3)
  else if v0 &&& LeadingBits5 ≠ 0 then
    -- 5 bytes:
    let v1 ← v[1]?
    let v2 ← v[2]?
    let v3 ← v[3]?
    let v4 ← v[4]?
    pure (shl64 (toUInt64 ((v0 : Int) - LeadingBits5)) 32 ||| shl64 v1 24 ||| shl64 v2 16 |||
      shl64 v3 8 ||| v4)
  else if v0 &&& LeadingBits6 ≠ 0 then
    -- 6 bytes:
    let v1 ← v[1]?
    let v2 ← v[2]?
    let v3 ← v[3]?
    let v4 ← v[4]?
    let v5 ← v[5]?
    pure (shl64 (toUInt64 ((v0 : Int) - LeadingBits6)) 40 ||| shl64 v1 32 ||| shl64 v2 24 |||
      shl64 v3 16 ||| shl64 v4 8 ||| v5)
  else if v0 &&& LeadingBits7 ≠ 0 then
    -- 7 bytes:
    let v1 ← v[1]?
    let v2 ← v[2]?
    let v3 ← v[3]?
    let v4 ← v[4]?
    let v5 ← v[5]?
    let v6 ← v[6]?
    pure (shl64 (toUInt64 ((v0 : Int) - LeadingBits7)) 48 ||| shl64 v1 40 ||| shl64 v2 32 |||
      shl64 v3 24 ||| shl64 v4 16 ||| shl64 v5 8 ||| v6)
  else if v0 &&& LeadingBits8 ≠ 0 then
    -- 8 bytes:
    let v1 ← v[1]?
    let v2 ← v[2]?
    let v3 ← v[3]?
    let v4 ← v[4]?
    let v5 ← v[5]?
    let v6 ← v[6]?
    let v7 ← v[7]?
    pure (shl64 v1 48 ||| shl64 v2 40 ||| shl64 v3 32 ||| shl64 v4 24 ||| shl64 v5 16 |||
      shl64 v6 8 ||| v7)
  else
    none

/-- The function `vsizeDecode(const TByteVec &)`. -/
def vsizeDecode (bytes : List Nat) : Option Nat := vsizeDecodeBytes bytes

/-- The function `vsizeEncode`: the low `nbytes` bytes of `vsize`, the most
significant one first, with the length marker set in the first byte. -/
def vsizeEncode (vsize : Nat) : List Nat :=
  let nbytes := vsizeNumBytes vsize
  let v := (List.range nbytes).foldl
    (fun v j => v.set (nbytes - j - 1) (0xFF &&& (vsize >>> (j * 8)))) (List.replicate nbytes 0)
  v.set 0 ((v.getD 0 0 ||| (1 <<< (8 - nbytes))) % 256)

/-- The number of bytes that `vsizeLoad` loads after the first byte: the number
of leading zero bits of the first byte, found by the loop over the masks
`1 << 7`, `1 << 6`, ...; `none` when the loop reaches `maxBytes` (the function
then returns `false`). -/
def vsizeLoadCount (firstByte maxBytes : Nat) : Option Nat :=
  ((List.range maxBytes).find? (fun n => decide (firstByte &&& ((1 <<< 7) >>> n) ≠ 0)))

/-- The function `uintDecode`; `none` when a byte is read past the end of the
vector. -/
def uintDecode (v : List Nat) (nbytes : Nat) : Option Nat :=
  (List.range nbytes).foldlM (fun ui j => (v[j]?).map (fun b => shl64 ui 8 ||| b)) 0

/-- The function `intDecode`; `none` when a byte is read past the end of the
vector or `nbytes` lies outside the table `maxUInt`. -/
def intDecode (v : List Nat) (nbytes : Nat) : Option Int := do
  let ui ← uintDecode v nbytes
  let mu ← maxUInt[nbytes]?
  let mi := mu >>> 1
  pure (if ui > mi then toInt64 (sub64 (sub64 ui mu) 1) else toInt64 ui)

/-- The function `intEncode(int64 si, unsigned int nbytes)`: `0xFF & si` is the
low byte of the two's complement of `si`, and `si >>= 8` the arithmetic shift. -/
def intEncodeBytes (si : Int) (nbytes : Nat) : List Nat :=
  ((List.range nbytes).foldl
    (fun (s : Int × List Nat) j => (s.1 >>> (8 : Nat), s.2.set (nbytes - 1 - j) (s.1 % 256).toNat))
    (si, List.replicate nbytes 0)).2

/-- The value of the expression `-0x80000000` where `int` has 32 bits: the
literal does not fit `int`, so it has the type `unsigned int`, and the negation
of an unsigned value is taken modulo `2 ^ 32`; the value is `2147483648`. -/
def negHex80000000 : Int := ((2 ^ 32 - 0x80000000 : Nat) : Int)

/-- The function `intNumBytes`. -/
def intNumBytes (si : Int) : Nat :=
  if si ≥ -0x80 ∧ si ≤ 0x7F then 1
  else if si ≥ -0x8000 ∧ si ≤ 0x7FFF then 2
  else if si ≥ -0x800000 ∧ si ≤ 0x7FFFFF then 3
  else if si ≥ negHex80000000 ∧ si ≤ 0x7FFFFFFF then 4
  else if si ≥ -0x8000000000 ∧ si ≤ 0x7FFFFFFFFF then 5
  else if si ≥ -0x800000000000 ∧ si ≤ 0x7FFFFFFFFFFF then 6
  else if si ≥ -0x80000000000000 ∧ si ≤ 0x7FFFFFFFFFFFFF then 7
  else 8

/-- The function `intEncode(int64 si)`. -/
def intEncode (si : Int) : List Nat := intEncodeBytes si (intNumBytes si)

/-- The value `si` fits the two's complement of `n` bytes:
`-2^(8n-1) ≤ si ≤ 2^(8n-1) - 1`. -/
def fitsWidth (si : Int) (n : Nat) : Prop :=
  -(2 : Int) ^ (8 * n - 1) ≤ si ∧ si ≤ (2 : Int) ^ (8 * n - 1) - 1

instance (si : Int) (n : Nat) : Decidable (fitsWidth si n) := by
  unfold fitsWidth; infer_instance

/-! ## Playlist::lookupGroup (apprenticevideo/yaePlaylist.cpp) -/

/-- The members of `PlaylistGroup` that `Playlist::lookupGroup` reads: the
offset of the group and the number of its items, `items_.size()`. -/
structure PlaylistGroup where
  offset_ : Nat
  numItems : Nat
  deriving DecidableEq, Repr

/-- The members of `Playlist` that `Playlist::lookupGroup` reads. -/
structure Playlist where
  groups_ : List PlaylistGroup
  numItems_ : Nat
  deriving DecidableEq, Repr

/-- The loop of `Playlist::updateOffsets`: every group gets the running offset,
which then grows by the size of the group. -/
def updateOffsetsLoop : Nat → List PlaylistGroup → List PlaylistGroup × Nat
  | offset, [] => ([], offset)
  | offset, group :: rest =>
    let r := updateOffsetsLoop (offset + group.numItems) rest
    ({ group with offset_ := offset } :: r.1, r.2)

/-- The function `Playlist::updateOffsets` (the counters of shown items and
groups are left out). -/
def Playlist.updateOffsets (p : Playlist) : Playlist :=
  let r := updateOffsetsLoop 0 p.groups_
  { groups_ := r.1, numItems_ := r.2 }

/-- What `Playlist::lookupGroup` returns: `NULL`, the group at an index of
`groups_`, or, after the failed assertion at its end, the last group. -/
inductive LookupResult where
  | null
  | group (i : Nat)
  | lastGroup
  deriving DecidableEq, Repr

/-- The `while (i0 != i1)` loop of `Playlist::lookupGroup`; the result is `i0`
at the exit.  The first argument bounds the number of passes: `none` means that
the bound was reached or that `groups_[i]` lies outside the vector. -/
def lookupLoop (groups : List PlaylistGroup) (index : Nat) : Nat → Nat → Nat → Option Nat
  | 0, _, _ => none
  | fuel + 1, i0, i1 =>
    if i0 ≠ i1 then
      let i := i0 + (i1 - i0) / 2
      match groups[i]? with
      | none => none
      | some group =>
        let numItems := group.numItems
        let groupEnd := group.offset_ + numItems
        if index < groupEnd then lookupLoop groups index fuel i0 (min i (i1 - 1))
        else lookupLoop groups index fuel (max i (i0 + 1)) i1
    else some i0

/-- The function `Playlist::lookupGroup(std::size_t index)`; `none` when the
loop does not end within `numGroups + 1` passes. -/
def Playlist.lookupGroup (p : Playlist) (index : Nat) : Option LookupResult :=
  if p.groups_.isEmpty then some LookupResult.null
  else if index ≥ p.numItems_ then some LookupResult.null
  else
    let numGroups := p.groups_.length
    match lookupLoop p.groups_ index (numGroups + 1) 0 numGroups with
    | none => none
    | some i0 =>
      match p.groups_[i0]? with
      | some group =>
        if i0 < numGroups ∧ index < group.offset_ + group.numItems then
          some (LookupResult.group i0)
        else some LookupResult.lastGroup
      | none => some LookupResult.lastGroup

/-- The number of items in the first `i` groups. -/
def itemsBefore (groups : List PlaylistGroup) (i : Nat) : Nat :=
  ((groups.take i).map (fun g => g.numItems)).sum

/-- The offsets of a playlist are cumulative: the offset of every group is the
sum of the sizes of the groups before it, and `numItems_` is the sum of all
sizes. -/
def Playlist.cumulative (p : Playlist) : Prop :=
  (∀ i (h : i < p.groups_.length),
    (p.groups_.get ⟨i, h⟩).offset_ = itemsBefore p.groups_ i) ∧
  p.numItems_ = itemsBefore p.groups_ p.groups_.length

/-- A playlist of four groups of 3, 0, 2 and 4 items, before its offsets are
set. -/
def fourGroups : Playlist :=
  { groups_ := [⟨0, 3⟩, ⟨0, 0⟩, ⟨0, 2⟩, ⟨0, 4⟩], numItems_ := 0 }

/-! ## AudioTrack: traits, tempo and seek (yae_audio_track.cpp) -/

/-- The audio traits `AudioTraits`.  The enumerations of the sample format, the
channel format and the channel layout are declared in `yae_video.h`, outside
the sources at hand; their values are read as numbers. -/
structure AudioTraits where
  sampleRate_ : Nat
  sampleFormat_ : Nat
  channelFormat_ : Nat
  channelLayout_ : Nat
  deriving DecidableEq, Repr

/-- The enumerators that `AudioTrack::noteNativeTraitsChanged` compares the
output traits with.  Their values are set in `yae_video.h` and are parameters
of the embedding. -/
structure AudioEnums where
  kAudio8BitOffsetBinary : Nat
  kAudio16BitNative : Nat
  kAudio32BitNative : Nat
  kAudio32BitFloat : Nat
  kAudio64BitDouble : Nat
  kAudioChannelsPlanar : Nat
  kAudioMono : Nat

/-- The tempo filter classes `TAudioTempoFilterU8`, `TAudioTempoFilterI16`,
`TAudioTempoFilterI32`, `TAudioTempoFilterF32` and `TAudioTempoFilterF64`. -/
inductive TempoFilterKind where
  | U8
  | I16
  | I32
  | F32
  | F64
  deriving DecidableEq, Repr

/-- The operations of a tempo filter that `AudioTrack` calls; the filter
classes live in `yae_audio_tempo_filter.h`, outside the sources at hand, and
are parameters of the embedding.  `σ` is the state of a filter object;
`create k` is `new TAudioTempoFilter..()`, `reset` is `reset(sampleRate,
channels)`, `setTempo` returns the filter and its `bool` result, and `apply`
is the loop `while (src < srcEnd)` of `AudioTrack::decode` over one chunk: the
filter afterwards and the bytes it handed out, in order. -/
structure TempoFilterApi (σ : Type) where
  create : TempoFilterKind → σ
  reset : σ → Nat → Nat → σ
  setTempo : σ → ℚ → σ × Bool
  clear : σ → σ
  apply : σ → List Nat → σ × List Nat

/-- The payload of a decoded audio frame `TAudioFrame`: its traits, its tempo
tag and its sample buffer. -/
structure AudioPayload where
  traits_ : AudioTraits
  tempo_ : ℚ
  data_ : List Nat
  deriving DecidableEq, Repr

/-- The object `AudioTrack` with the members around its time-stamping state:
the inbound packet queue of the base `Track` (`none` is a flush request), the
traits override, the output and native traits, the tempo and its filter, and
whether the decoder thread runs (`thread_.isRunning()`).  `payload_` lists the
payload of the frames that `decode` pushed to `frameQueue_` and that were not
dropped since, oldest first. -/
structure AudioTrackFull (σ : Type) extends AudioTrack where
  packetQueue_ : List (Option AvPkt)
  override_ : AudioTraits
  output_ : AudioTraits
  native_ : AudioTraits
  outputChannels_ : Nat
  tempo_ : ℚ
  tempoFilter_ : Option σ
  isRunning : Bool
  payload_ : List AudioPayload

/-- The filter class that `AudioTrack::noteNativeTraitsChanged` picks for the
output traits: none for a planar output of more than one channel, and none for
a sample format other than the five it names. -/
def tempoFilterKind (e : AudioEnums) (output : AudioTraits) : Option TempoFilterKind :=
  if output.channelFormat_ ≠ e.kAudioChannelsPlanar ∨ output.channelLayout_ = e.kAudioMono then
    if output.sampleFormat_ = e.kAudio8BitOffsetBinary then some TempoFilterKind.U8
    else if output.sampleFormat_ = e.kAudio16BitNative then some TempoFilterKind.I16
    else if output.sampleFormat_ = e.kAudio32BitNative then some TempoFilterKind.I32
    else if output.sampleFormat_ = e.kAudio32BitFloat then some TempoFilterKind.F32
    else if output.sampleFormat_ = e.kAudio64BitDouble then some TempoFilterKind.F64
    else none
  else none

/-- The function `AudioTrack::noteNativeTraitsChanged`: the tempo filter is
deleted and, if there is a filter class for the output traits, created anew,
reset and set to the tempo of the track. -/
def AudioTrackFull.noteNativeTraitsChanged {σ : Type} (e : AudioEnums) (f : TempoFilterApi σ)
    (t : AudioTrackFull σ) : AudioTrackFull σ :=
  match tempoFilterKind e t.output_ with
  | some k =>
    let flt := f.reset (f.create k) t.output_.sampleRate_ t.outputChannels_
    { t with tempoFilter_ := some (f.setTempo flt t.tempo_).1 }
  | none => { t with tempoFilter_ := none }

/-- The function `AudioTrack::setTempo`. -/
def AudioTrackFull.setTempo {σ : Type} (f : TempoFilterApi σ) (t : AudioTrackFull σ)
    (tempo : ℚ) : AudioTrackFull σ × Bool :=
  let t1 := { t with tempo_ := tempo }
  match t1.tempoFilter_ with
  | none => (t1, true)
  | some flt =>
    let r := f.setTempo flt t1.tempo_
    if !r.2 then ({ t1 with tempoFilter_ := some r.1 }, false)
    else if t1.tempo_ = 1 then ({ t1 with tempoFilter_ := some (f.clear r.1) }, true)
    else ({ t1 with tempoFilter_ := some r.1 }, true)

/-- The function `AudioTrack::decoderStartup`.  `getNumberOfChannels` is the
helper of that name, `getTraits` gives what `getTraits(native_)` leaves in
`native_` and returns, and `start_time` is `stream_->start_time`.  The member
`sampleRate_` of the time-stamping state stands for `output_.sampleRate_` and
follows `output_`. -/
def AudioTrackFull.decoderStartup {σ : Type} (e : AudioEnums) (f : TempoFilterApi σ)
    (getNumberOfChannels : Nat → Nat) (getTraits : AudioTraits → AudioTraits × Bool)
    (start_time : Int) (t : AudioTrackFull σ) : AudioTrackFull σ × Bool :=
  let t1 := { t with output_ := t.override_, sampleRate_ := t.override_.sampleRate_ }
  let t2 := { t1 with outputChannels_ := getNumberOfChannels t1.output_.channelLayout_ }
  let r := getTraits t2.native_
  let t3 := { t2 with native_ := r.1 }
  if !r.2 then (t3, false)
  else
    let t4 := t3.noteNativeTraitsChanged e f
    let t5 := { t4 with startTime_ := if start_time = AV_NOPTS_VALUE then 0 else start_time }
    ({ t5 with hasPrevPTS_ := false, prevNumSamples_ := 0, samplesDecoded_ := 0 }, true)

/-- The chunks passed through the tempo filter, one after the other: the filter
afterwards and the bytes of the frame. -/
def passThrough {σ : Type} (f : TempoFilterApi σ) : σ → List (List Nat) → σ × List Nat
  | flt, [] => (flt, [])
  | flt, chunk :: rest =>
    let r := f.apply flt chunk
    let r2 := passThrough f r.1 rest
    (r2.1, r.2 ++ r2.2)

/-- Lines 284 and 380-444 of `AudioTrack::decode`: the traits, the tempo tag
and the sample buffer of the frame, from the chunks pulled out of the filter
graph; the first component is the tempo filter afterwards. -/
def AudioTrackFull.makePayload {σ : Type} (f : TempoFilterApi σ) (t : AudioTrackFull σ)
    (chunks : List (List Nat)) : Option σ × AudioPayload :=
  let shouldAdjustTempo : Bool := t.tempoFilter_.isSome && decide (t.tempo_ ≠ 1)
  let tempo : ℚ := if shouldAdjustTempo then t.tempo_ else 1
  match t.tempoFilter_, shouldAdjustTempo with
  | some flt, true =>
    -- pass source samples through the tempo filter:
    let r := passThrough f flt chunks
    (some r.1, { traits_ := t.output_, tempo_ := tempo, data_ := r.2 })
  | flt, _ =>
    -- concatenate chunks into a contiguous frame buffer:
    (flt, { traits_ := t.output_, tempo_ := tempo, data_ := chunks.flatten })

/-- Lines 242-253 of `AudioTrack::decode`: a received frame with
`frameTraitsChanged` set makes the track read its native traits again and call
`noteNativeTraitsChanged`.  `nativeChanged` holds the native traits after the
last `getTraits(native_)` of the loop, `none` when no frame had the flag set. -/
def AudioTrackFull.frameTraitsChanged {σ : Type} (e : AudioEnums) (f : TempoFilterApi σ)
    (t : AudioTrackFull σ) (nativeChanged : Option AudioTraits) : AudioTrackFull σ :=
  match nativeChanged with
  | some native => ({ t with native_ := native }).noteNativeTraitsChanged e f
  | none => t

/-- The function `AudioTrack::decode` with the payload of the frame; `chunks`
are the buffers pulled out of the filter graph. -/
def AudioTrackFull.decode {σ : Type} (api : TTimeApi) (e : AudioEnums) (f : TempoFilterApi σ)
    (t : AudioTrackFull σ) (packet : AvPkt) (o : AudioCodecOut)
    (nativeChanged : Option AudioTraits) (chunks : List (List Nat)) :
    AudioTrackFull σ × AudioResult :=
  let t0 : AudioTrackFull σ := t.frameTraitsChanged e f nativeChanged
  let r := AudioTrack.decode api t0.toAudioTrack packet o
  if r.2.pushed then
    let p := t0.makePayload f chunks
    ({ t0 with toAudioTrack := r.1, tempoFilter_ := p.1, payload_ := t0.payload_ ++ [p.2] }, r.2)
  else ({ t0 with toAudioTrack := r.1 }, r.2)

/-- The function `AudioTrack::setTraitsOverride`.  When the decoder thread
runs, it is stopped, the frame queue is cleared, and the thread is started
again, which begins with `decoderStartup`; `run` is the result of
`thread_.run()`. -/
def AudioTrackFull.setTraitsOverride {σ : Type} (e : AudioEnums) (f : TempoFilterApi σ)
    (getNumberOfChannels : Nat → Nat) (getTraits : AudioTraits → AudioTraits × Bool)
    (start_time : Int) (run : Bool) (t : AudioTrackFull σ) (override : AudioTraits) :
    AudioTrackFull σ × Bool :=
  if t.override_ = override then
    -- nothing changed:
    (t, true)
  else
    let alreadyDecoding := t.isRunning
    let t1 : AudioTrackFull σ :=
      if alreadyDecoding then { t with frameQueue_ := [], payload_ := [], isRunning := false }
      else t
    let t2 := { t1 with override_ := override }
    if alreadyDecoding then
      if run then
        let r := ({ t2 with isRunning := true }).decoderStartup e f getNumberOfChannels getTraits
          start_time
        ({ r.1 with isRunning := r.2 }, true)
      else (t2, false)
    else (t2, true)

/-- The function `AudioTrack::resetTimeCounters`.  The loop that clears the
frame queue until the decoder thread waits for a packet is taken to end;
`startNewSequence` is the helper of that name (declared with `Track`, outside
the sources at hand), and `reopen` is the result of `avcodec_open2` when the
track holds a stream and a codec context, `none` when it does not. -/
def AudioTrackFull.resetTimeCounters {σ : Type}
    (startNewSequence : List TAudioFrame → Bool → List TAudioFrame) (reopen : Option Int)
    (t : AudioTrackFull σ) (seekTime : ℚ) (dropPendingFrames : Bool) :
    AudioTrackFull σ × Int :=
  let t1 := { t with packetQueue_ := [] }
  let t2 : AudioTrackFull σ :=
    if dropPendingFrames then { t1 with frameQueue_ := [], payload_ := [] } else t1
  -- push a special frame into frame queue to resetTimeCounters down the line:
  let t3 := { t2 with frameQueue_ := startNewSequence t2.frameQueue_ dropPendingFrames }
  let err : Int := match reopen with
    | some r => r
    | none => 0
  let t4 := { t3 with
    toAudioTrack := t3.toAudioTrack.setPlaybackInterval seekTime t3.timeOut_ t3.playbackEnabled_ }
  ({ t4 with hasPrevPTS_ := false, prevNumSamples_ := 0, startTime_ := 0, samplesDecoded_ := 0 },
   err)

/-- What one `AudioTrack::decode` call is given: the packet, what the codec
delivers for it, the native traits if a frame had `frameTraitsChanged` set, and
the chunks pulled out of the filter graph. -/
structure AudioInput where
  packet : AvPkt
  out : AudioCodecOut
  nativeChanged : Option AudioTraits
  chunks : List (List Nat)
  deriving DecidableEq, Repr

/-- A sequence of `AudioTrack::decode` calls, as `AudioTrack::threadLoop` makes
them; the track afterwards. -/
def AudioTrackFull.run {σ : Type} (api : TTimeApi) (e : AudioEnums) (f : TempoFilterApi σ) :
    AudioTrackFull σ → List AudioInput → AudioTrackFull σ
  | t, [] => t
  | t, i :: rest =>
    AudioTrackFull.run api e f (t.decode api e f i.packet i.out i.nativeChanged i.chunks).1 rest

/-- Every frame of the queue carries the output traits of the track. -/
def AudioTrackFull.framesMatchOutput {σ : Type} (t : AudioTrackFull σ) : Prop :=
  ∀ p ∈ t.payload_, p.traits_ = t.output_

/-- Values for the enumerators, for the examples: sample formats 1 to 5,
planar channels 1, mono 1. -/
def demoEnums : AudioEnums :=
  { kAudio8BitOffsetBinary := 1, kAudio16BitNative := 2, kAudio32BitNative := 3,
    kAudio32BitFloat := 4, kAudio64BitDouble := 5, kAudioChannelsPlanar := 1, kAudioMono := 1 }

/-- A tempo filter for the examples: it has no state and hands out the bytes of
a chunk in reverse order. -/
def reverseFilter : TempoFilterApi Unit :=
  { create := fun _ => (), reset := fun s _ _ => s, setTempo := fun s _ => (s, true),
    clear := fun s => s, apply := fun s chunk => (s, chunk.reverse) }

/-- An audio track before its decoder starts, with the traits override
`override`: time base 1/1000, tempo 1, nothing queued. -/
def audioFull0 (override : AudioTraits) : AudioTrackFull Unit :=
  { toAudioTrack := audioTrack0, packetQueue_ := [], override_ := override,
    output_ := ⟨0, 0, 0, 0⟩, native_ := ⟨0, 0, 0, 0⟩, outputChannels_ := 0, tempo_ := 1,
    tempoFilter_ := none, isRunning := false, payload_ := [] }

/-- The track `audioFull0` after `decoderStartup`, for a stereo source of 16-bit
samples at 48 kHz. -/
def audioStarted (override : AudioTraits) : AudioTrackFull Unit :=
  ((audioFull0 override).decoderStartup demoEnums reverseFilter (fun layout => layout)
    (fun _ => (⟨48000, 2, 0, 2⟩, true)) 0).1

/-- Interleaved stereo output of 16-bit native samples at 48 kHz. -/
def packedStereo : AudioTraits :=
  { sampleRate_ := 48000, sampleFormat_ := 2, channelFormat_ := 0, channelLayout_ := 2 }

/-- Planar stereo output of 16-bit native samples at 48 kHz. -/
def planarStereo : AudioTraits :=
  { sampleRate_ := 48000, sampleFormat_ := 2, channelFormat_ := 1, channelLayout_ := 2 }

/-- A packet with PTS 0 that decodes to one frame of 2 samples. -/
def audioOnePacket : AvPkt × AudioCodecOut :=
  ({ data := 1, size := 100, flags := 0, pts := 0, dts := 0 },
   { framePts := [0], returned := false, numOutputSamples := 2 })

/-! ## AudioTrack::decode: the reach of the PTS fallback chain -/

/-- A timestamp within the 64-bit range of its fields: `time_` is an `int64_t`
other than `AV_NOPTS_VALUE`, and `base_` is below `2 ^ 63`. -/
def TTime.fits64 (x : TTime) : Prop :=
  -(2 : Int) ^ 63 < x.time_ ∧ x.time_ < (2 : Int) ^ 63 ∧ x.base_ < 2 ^ 63

instance (x : TTime) : Decidable x.fits64 := by
  unfold TTime.fits64; infer_instance

/-- The state in which `AudioTrack::decode` keeps its PTS repair: the output
sample rate and the denominator of the stream time base are not zero, and a
recorded previous PTS has a base other than zero and comes with a sample count
other than zero. -/
def AudioTrack.ptsStateOk (t : AudioTrack) : Prop :=
  0 < t.sampleRate_ ∧ toUInt64 t.time_base_den ≠ 0 ∧
  (t.hasPrevPTS_ = true → 0 < t.prevNumSamples_ ∧ t.prevPTS_.base_ ≠ 0)

instance (t : AudioTrack) : Decidable t.ptsStateOk := by
  unfold AudioTrack.ptsStateOk; infer_instance

/-- The track at line 280 of `AudioTrack::decode`, where the time-stamping
starts: after the frame checks of the loop and `samplesDecoded_ +=
numOutputSamples`. -/
def AudioTrack.atStamping (api : TTimeApi) (t : AudioTrack) (o : AudioCodecOut) : AudioTrack :=
  { AudioTrack.checkFrames api t o.framePts with
    samplesDecoded_ := (AudioTrack.checkFrames api t o.framePts).samplesDecoded_ +
      o.numOutputSamples }

/-- A track with a previous PTS of 1000 ms and 1024 samples, and a packet
without timestamps. -/
def audioWithPrev : AudioTrack × AvPkt × AudioCodecOut :=
  ({ audioTrack0 with hasPrevPTS_ := true, prevPTS_ := ⟨1000, 1000⟩, prevNumSamples_ := 1024,
                      samplesDecoded_ := 1024 },
   { data := 2, size := 100, flags := 0, pts := AV_NOPTS_VALUE, dts := AV_NOPTS_VALUE },
   { framePts := [], returned := false, numOutputSamples := 1024 })

/-- Modelled from the spec: a reading of `TTime::operator +=` (its body is in
`yae_time.h`, missing from the sources) in which the sum keeps the base of its
left operand: a term of another base is converted to that base, rounding toward
zero.  The spec keeps the step "previous PTS + 1 tick" for the case that all
else fails, and the repository test checks `t1 <= t1 + TTime(1, 1001)` for
`t1 = TTime(100, 1000)`, not `t1 < t1 + TTime(1, 1001)`. -/
def TTime.keepBaseAdd (a b : TTime) : TTime :=
  if a.base_ = b.base_ then ⟨a.time_ + b.time_, a.base_⟩
  else ⟨a.time_ + Int.tdiv (b.time_ * (a.base_ : Int)) (b.base_ : Int), a.base_⟩

/-- Modelled from the spec: the `TTime` operations with exact comparison and
the sum `TTime.keepBaseAdd`. -/
def TTime.keepBaseApi : TTimeApi :=
  { lt := TTime.exactLt, add := TTime.keepBaseAdd, secLt := TTime.exactLt }

/-- Lines 307-309: the candidate of the third step, the samples decoded before
this frame offset by the start time of the stream.  `t` is the track after
`samplesDecoded_ += numOutputSamples`. -/
def AudioTrack.sampleCountPTS (api : TTimeApi) (t : AudioTrack) (numOutputSamples : Nat) :
    TTime :=
  api.add ⟨((t.samplesDecoded_ - numOutputSamples : Nat) : Int), t.sampleRate_⟩
    ⟨t.startTime_, toUInt64 t.time_base_den⟩

/-- Lines 316-317: the candidate of the fourth step, the previous PTS plus the
previous number of samples. -/
def AudioTrack.extrapolatedPTS (api : TTimeApi) (t : AudioTrack) : TTime :=
  api.add t.prevPTS_ ⟨(t.prevNumSamples_ : Int), t.sampleRate_⟩

/-- Lines 325-326: the candidate of the fifth step, the previous PTS plus one
tick. -/
def AudioTrack.nextTickPTS (t : AudioTrack) : TTime :=
  ⟨t.prevPTS_.time_ + 1, t.prevPTS_.base_⟩

/-- The validated PTS, if any, that the first `k` steps of the fallback chain
reach: the first of the first `k` candidates that is known and passes
`verify_pts`. -/
def AudioTrack.stampedBy (api : TTimeApi) (t : AudioTrack) (packet : AvPkt)
    (numOutputSamples k : Nat) : Option TTime :=
  firstValidated api t.hasPrevPTS_ t.prevPTS_
    ((t.ptsCandidates api packet numOutputSamples).take k)

/-- A packet with PTS 1000 ms that decodes to one frame of 10 samples, then
the flush request, which has no timestamps and drains one more frame of 10
samples without a timestamp of its own.  At 48 kHz a frame of 10 samples is
shorter than one tick of the time base 1/1000. -/
def audioShortFrames : List (AvPkt × AudioCodecOut) :=
  [ ({ data := 1, size := 100, flags := 0, pts := 1000, dts := 1000 },
     { framePts := [1000], returned := false, numOutputSamples := 10 }),
    (AvPkt.empty,
     { framePts := [AV_NOPTS_VALUE], returned := false, numOutputSamples := 10 }) ]

/-- The track after the first packet of `audioShortFrames`, with the sum that
keeps the base of its left operand. -/
def audioAfterShortFrame : AudioTrack :=
  (AudioTrack.decode TTime.keepBaseApi audioTrack0
    { data := 1, size := 100, flags := 0, pts := 1000, dts := 1000 }
    { framePts := [1000], returned := false, numOutputSamples := 10 }).1

/-- The second entry of `audioShortFrames`: the flush request and what the
codec delivers for it. -/
def audioDrained : AvPkt × AudioCodecOut :=
  (AvPkt.empty, { framePts := [AV_NOPTS_VALUE], returned := false, numOutputSamples := 10 })

end yae

namespace yae

/-! ## Theorems -/

/-- C8. For timestamps of one time base, `verify_pts` accepts `next` exactly
when `next` is known (its time and its base differ from the no-PTS value and
its base is not zero) and either there is no previous PTS or
`prev.time_ < next.time_`; a timestamp equal to the previous one is
rejected. -/
theorem verify_pts_same_base (api : TTimeApi) (hasPrev : Bool) (prev next : TTime)
    (stream : Bool) (hbase : prev.base_ = next.base_) :
    (verify_pts api hasPrev prev next stream = true ↔
      (next.time_ ≠ AV_NOPTS_VALUE ∧ toInt64 next.base_ ≠ AV_NOPTS_VALUE ∧
        next.base_ ≠ 0 ∧ (hasPrev = false ∨ prev.time_ < next.time_))) ∧
    verify_pts api true next next stream = false := by
  constructor
  · cases hasPrev <;> cases stream <;> simp [verify_pts, hbase]
  · cases stream <;> simp [verify_pts]

/-- Witness for C8: base 1000, previous time 100, next time 200. -/
theorem verify_pts_same_base_witness :
    (verify_pts TTime.exactApi true ⟨100, 1000⟩ ⟨200, 1000⟩ true = true ↔
      ((200 : Int) ≠ AV_NOPTS_VALUE ∧ toInt64 1000 ≠ AV_NOPTS_VALUE ∧
        (1000 : Nat) ≠ 0 ∧ (true = false ∨ (100 : Int) < 200))) ∧
    verify_pts TTime.exactApi true ⟨200, 1000⟩ ⟨200, 1000⟩ true = false :=
  verify_pts_same_base TTime.exactApi true ⟨100, 1000⟩ ⟨200, 1000⟩ true rfl

/-! ### AudioTrack: the PTS fallback chain -/

/-- A time stamp flagged `gotPTS` passed `verify_pts` against the previous PTS. -/
theorem stampPTS_valid (api : TTimeApi) (t : AudioTrack) (p : AvPkt) (n : Nat)
    (h : (t.stampPTS api p n).gotPTS = true) :
    verify_pts api t.hasPrevPTS_ t.prevPTS_ (t.stampPTS api p n).time_ true = true := by
  unfold AudioTrack.stampPTS at h ⊢
  simp only [] at h ⊢
  split_ifs at h ⊢ <;> simp_all

/-- The frame check never changes `prevPTS_`. -/
theorem checkFrame_prevPTS (api : TTimeApi) (t : AudioTrack) (pts : Int) :
    (t.checkFrame api pts).prevPTS_ = t.prevPTS_ := by
  unfold AudioTrack.checkFrame
  simp only []
  split_ifs <;> rfl

/-- The frame check never sets `hasPrevPTS_`. -/
theorem checkFrame_hasPrev_false (api : TTimeApi) (t : AudioTrack) (pts : Int)
    (h : t.hasPrevPTS_ = false) : (t.checkFrame api pts).hasPrevPTS_ = false := by
  simp [AudioTrack.checkFrame, h]

/-- The frame checks of a loop never change `prevPTS_`. -/
theorem checkFrames_prevPTS (api : TTimeApi) (l : List Int) :
    ∀ t : AudioTrack, (AudioTrack.checkFrames api t l).prevPTS_ = t.prevPTS_ := by
  induction l with
  | nil => intro t; rfl
  | cons x xs ih => intro t; simp [AudioTrack.checkFrames, ih, checkFrame_prevPTS]

/-- The frame checks of a loop never set `hasPrevPTS_`. -/
theorem checkFrames_hasPrev_false (api : TTimeApi) (l : List Int) :
    ∀ t : AudioTrack, t.hasPrevPTS_ = false →
      (AudioTrack.checkFrames api t l).hasPrevPTS_ = false := by
  induction l with
  | nil => intro t h; exact h
  | cons x xs ih =>
    intro t h
    exact ih _ (checkFrame_hasPrev_false api t x h)

/-- The three outcomes of `AudioTrack::decode` for the previous-PTS cell: no
frame stamped, a frame with a validated stamp, a frame with an unvalidated one. -/
theorem decode_cases (api : TTimeApi) (t : AudioTrack) (p : AvPkt) (o : AudioCodecOut) :
    (AudioTrack.decode api t p o).2.reset =
        (t.hasPrevPTS_ && !(AudioTrack.checkFrames api t o.framePts).hasPrevPTS_) ∧
    (((AudioTrack.decode api t p o).2.stamp = none ∧
        (AudioTrack.decode api t p o).1.hasPrevPTS_ =
          (AudioTrack.checkFrames api t o.framePts).hasPrevPTS_ ∧
        (AudioTrack.decode api t p o).1.prevPTS_ = t.prevPTS_) ∨
     (∃ s, (AudioTrack.decode api t p o).2.stamp = some s ∧ s.gotPTS = true ∧
        verify_pts api (AudioTrack.checkFrames api t o.framePts).hasPrevPTS_ t.prevPTS_
          s.time_ true = true ∧
        (AudioTrack.decode api t p o).1.hasPrevPTS_ = true ∧
        (AudioTrack.decode api t p o).1.prevPTS_ = s.time_) ∨
     (∃ s, (AudioTrack.decode api t p o).2.stamp = some s ∧ s.gotPTS = false ∧
        (AudioTrack.decode api t p o).1.hasPrevPTS_ =
          (AudioTrack.checkFrames api t o.framePts).hasPrevPTS_ ∧
        (AudioTrack.decode api t p o).1.prevPTS_ = t.prevPTS_)) := by
  have hv := stampPTS_valid api
    { AudioTrack.checkFrames api t o.framePts with
      samplesDecoded_ := (AudioTrack.checkFrames api t o.framePts).samplesDecoded_ +
        o.numOutputSamples } p o.numOutputSamples
  have hp := checkFrames_prevPTS api o.framePts t
  simp only [hp] at hv
  unfold AudioTrack.decode
  simp only []
  split_ifs <;> simp_all


/-- Without a reset, the validated stamps of a run form a chain in the order of
`verify_pts`, starting from the previous PTS when there is one. -/
theorem run_chain (api : TTimeApi) (ins : List (AvPkt × AudioCodecOut)) :
    ∀ t : AudioTrack, (∀ r ∈ AudioTrack.run api t ins, r.reset = false) →
      (t.hasPrevPTS_ = true →
        List.Chain (ptsBefore api) t.prevPTS_ (validatedPTS (AudioTrack.run api t ins))) ∧
      (t.hasPrevPTS_ = false →
        List.Chain' (ptsBefore api) (validatedPTS (AudioTrack.run api t ins))) := by
  induction ins with
  | nil => intro t _; simp [AudioTrack.run, validatedPTS]
  | cons x xs ih =>
    intro t h
    obtain ⟨p, o⟩ := x
    obtain ⟨hreset, hcases⟩ := decode_cases api t p o
    simp only [AudioTrack.run] at h ⊢
    have hr := h _ (List.mem_cons_self _ _)
    have ih' := ih (AudioTrack.decode api t p o).1
      (fun r hr => h r (List.mem_cons_of_mem _ hr))
    rw [hreset] at hr
    have hfalse := checkFrames_hasPrev_false api o.framePts t
    rcases hcases with ⟨hs, hh, hp⟩ | ⟨s, hs, hg, hv, hh, hp⟩ | ⟨s, hs, hg, hh, hp⟩
    · simp only [validatedPTS, hs]
      rw [hh, hp] at ih'
      constructor
      · intro ht
        apply ih'.1
        simpa [ht] using hr
      · intro ht
        exact ih'.2 (hfalse ht)
    · simp only [validatedPTS, hs, hg, if_true]
      rw [hp] at ih'
      constructor
      · intro ht
        have h1 : (AudioTrack.checkFrames api t o.framePts).hasPrevPTS_ = true := by
          simpa [ht] using hr
        rw [h1] at hv
        exact List.Chain.cons hv (ih'.1 hh)
      · intro _
        exact ih'.1 hh
    · simp only [validatedPTS, hs, hg]
      rw [hh, hp] at ih'
      constructor
      · intro ht
        apply ih'.1
        simpa [ht] using hr
      · intro ht
        exact ih'.2 (hfalse ht)

/-- C7. The PTS that `AudioTrack::decode` assigns to a frame is the first
candidate, in the order packet PTS, packet DTS, decoded-sample count offset by
the start time, previous PTS plus previous sample count, previous PTS plus one
tick, that is known and passes `verify_pts` against the previous PTS; `gotPTS`
holds exactly when there is such a candidate. -/
theorem pts_fallback_chain_first_validated (api : TTimeApi) (t : AudioTrack) (p : AvPkt) (n : Nat) :
    firstValidated api t.hasPrevPTS_ t.prevPTS_ (t.ptsCandidates api p n) =
      if (t.stampPTS api p n).gotPTS then some (t.stampPTS api p n).time_ else none := by
  obtain ⟨num, den, sr, st, hp, prev, pns, sd, pe, ti, tout, di, fq⟩ := t
  generalize hv1 : verify_pts api hp prev ⟨num * p.pts, toUInt64 den⟩ true = v1
  generalize hv2 : verify_pts api hp prev ⟨num * p.dts, toUInt64 den⟩ true = v2
  generalize hv3 : verify_pts api hp prev
      (api.add ⟨((sd - n : Nat) : Int), sr⟩ ⟨st, toUInt64 den⟩) true = v3
  generalize hv4 : verify_pts api hp prev (api.add prev ⟨(pns : Int), sr⟩) true = v4
  generalize hv5 : verify_pts api hp prev ⟨prev.time_ + 1, prev.base_⟩ true = v5
  by_cases h1 : p.pts = AV_NOPTS_VALUE <;> by_cases h2 : p.dts = AV_NOPTS_VALUE <;>
  cases hp <;> cases v1 <;> cases v2 <;> cases v3 <;> cases v4 <;> cases v5 <;>
  simp [AudioTrack.stampPTS, AudioTrack.ptsCandidates, firstValidated, hv1, hv2, hv3, hv4, hv5,
    h1, h2]


/-- The frame checks leave `playbackEnabled_` alone. -/
theorem checkFrames_playback (api : TTimeApi) (l : List Int) :
    ∀ t : AudioTrack, (AudioTrack.checkFrames api t l).playbackEnabled_ = t.playbackEnabled_ := by
  induction l with
  | nil => intro t; rfl
  | cons x xs ih =>
    intro t
    simp only [AudioTrack.checkFrames, ih]
    unfold AudioTrack.checkFrame
    simp only []
    split_ifs <;> rfl

/-- With the playback interval off, every stamped frame is pushed. -/
theorem decode_playback_off (api : TTimeApi) (t : AudioTrack) (p : AvPkt) (o : AudioCodecOut)
    (h : t.playbackEnabled_ = false) :
    (AudioTrack.decode api t p o).1.playbackEnabled_ = false ∧
    ∀ s, (AudioTrack.decode api t p o).2.stamp = some s →
      (AudioTrack.decode api t p o).2.pushed = true := by
  have hp := checkFrames_playback api o.framePts t
  rw [h] at hp
  unfold AudioTrack.decode
  simp only []
  split_ifs <;> simp_all

/-- With the playback interval off and every stamp validated, the pushed time
stamps are the validated ones. -/
theorem pushed_eq_validated (api : TTimeApi) (ins : List (AvPkt × AudioCodecOut)) :
    ∀ t : AudioTrack, t.playbackEnabled_ = false →
      (∀ r ∈ AudioTrack.run api t ins, ∀ s, r.stamp = some s → s.gotPTS = true) →
      pushedPTS (AudioTrack.run api t ins) = validatedPTS (AudioTrack.run api t ins) := by
  induction ins with
  | nil => intro t _ _; rfl
  | cons x xs ih =>
    intro t hoff hall
    obtain ⟨p, o⟩ := x
    obtain ⟨h1, h2⟩ := decode_playback_off api t p o hoff
    simp only [AudioTrack.run] at hall ⊢
    have ih' := ih (AudioTrack.decode api t p o).1 h1
      (fun r hr => hall r (List.mem_cons_of_mem _ hr))
    have hhead := hall _ (List.mem_cons_self _ _)
    cases hs : (AudioTrack.decode api t p o).2.stamp with
    | none => simp only [pushedPTS, validatedPTS, hs, ih']
    | some s =>
      simp only [pushedPTS, validatedPTS, hs, ih', h2 s hs, hhead s hs, if_true]

/-- The value returned by `decoderPull` is the failure that ended the loop. -/
theorem decoderPull_snd (fr : List AvFrm) (err : Int) :
    ∀ t : Track, (t.decoderPull fr err).2 = err := by
  induction fr with
  | nil => intro t; rfl
  | cons f fs ih => intro t; simp [Track.decoderPull, ih]

/-- The members that `decoderPull` leaves alone, and its count of frames. -/
theorem decoderPull_fields (fr : List AvFrm) (err : Int) :
    ∀ t : Track,
      (t.decoderPull fr err).1.stream_ = t.stream_ ∧
      (t.decoderPull fr err).1.codecContext_ = t.codecContext_ ∧
      (t.decoderPull fr err).1.candidates_ = t.candidates_ ∧
      (t.decoderPull fr err).1.recommended_ = t.recommended_ ∧
      (t.decoderPull fr err).1.switchDecoderToRecommended_ = t.switchDecoderToRecommended_ ∧
      (t.decoderPull fr err).1.sent_ = t.sent_ ∧
      (t.decoderPull fr err).1.packets_ = t.packets_ ∧
      (t.decoderPull fr err).1.switches_ = t.switches_ ∧
      (t.decoderPull fr err).1.received_ = t.received_ + fr.length := by
  induction fr with
  | nil =>
    intro t
    simp only [Track.decoderPull]
    split_ifs <;> simp
  | cons f fs ih =>
    intro t
    simp only [Track.decoderPull]
    have h := ih { t with received_ := t.received_ + 1,
                          handled_ := t.handled_ ++ [{ f with pts := f.best_effort_timestamp }] }
    simp only [] at h
    obtain ⟨h1, h2, h3, h4, h5, h6, h7, h8, h9⟩ := h
    refine ⟨h1, h2, h3, h4, h5, h6, h7, h8, ?_⟩
    rw [h9, List.length_cons]; omega

/-- The effect of one decode round on a track with an active codec context. -/
theorem decodePkt_some (t : Track) (ctx : AVCodecContext) (pkt : AvPkt)
    (h : t.codecContext_ = some ctx) :
    ∃ t1 err, t.decodePkt pkt = .ok (t1, err) ∧
      (∃ more, t1.codecContext_ =
        some { ctx with sent := ctx.sent ++ pkt :: more }) ∧
      t1.stream_ = t.stream_ ∧ t1.candidates_ = t.candidates_ ∧
      t1.recommended_ = t.recommended_ ∧
      t1.switchDecoderToRecommended_ = t.switchDecoderToRecommended_ ∧
      t1.packets_ = t.packets_ ∧ t1.switches_ = t.switches_ := by
  unfold Track.decodePkt
  rw [h]
  simp only []
  by_cases h1 : (ctx.behave ctx.sent pkt).errSend = AVERROR_EOF
  · simp only [h1, if_true]
    by_cases h2 : (ctx.behave ctx.sent pkt).errResend < 0 ∧
        (ctx.behave ctx.sent pkt).errResend ≠ AVERROR_EAGAIN ∧
        (ctx.behave ctx.sent pkt).errResend ≠ AVERROR_EOF
    · rw [if_pos h2]
      exact ⟨_, _, rfl, ⟨[pkt], by simp⟩, rfl, rfl, rfl, rfl, rfl, rfl⟩
    · rw [if_neg h2]
      refine ⟨_, _, rfl, ?_⟩
      obtain ⟨g1, g2, g3, g4, g5, _, g7, g8, _⟩ := decoderPull_fields
        (ctx.behave ctx.sent pkt).frames (ctx.behave ctx.sent pkt).errRecv
        (if (ctx.behave ctx.sent pkt).errResend ≥ 0 then
          { ({ t with codecContext_ := some { ctx with sent := ctx.sent ++ [pkt] ++ [pkt] } } : Track)
            with sent_ := t.sent_ + 1 }
         else { t with codecContext_ := some { ctx with sent := ctx.sent ++ [pkt] ++ [pkt] } })
      rw [g1, g2, g3, g4, g5, g7, g8]
      split_ifs <;> exact ⟨⟨[pkt], by simp⟩, rfl, rfl, rfl, rfl, rfl, rfl⟩
  · simp only [h1, if_false]
    by_cases h2 : (ctx.behave ctx.sent pkt).errSend < 0 ∧
        (ctx.behave ctx.sent pkt).errSend ≠ AVERROR_EAGAIN ∧
        (ctx.behave ctx.sent pkt).errSend ≠ AVERROR_EOF
    · rw [if_pos h2]
      exact ⟨_, _, rfl, ⟨[], by simp⟩, rfl, rfl, rfl, rfl, rfl, rfl⟩
    · rw [if_neg h2]
      refine ⟨_, _, rfl, ?_⟩
      obtain ⟨g1, g2, g3, g4, g5, _, g7, g8, _⟩ := decoderPull_fields
        (ctx.behave ctx.sent pkt).frames (ctx.behave ctx.sent pkt).errRecv
        (if (ctx.behave ctx.sent pkt).errSend ≥ 0 then
          { ({ t with codecContext_ := some { ctx with sent := ctx.sent ++ [pkt] } } : Track)
            with sent_ := t.sent_ + 1 }
         else { t with codecContext_ := some { ctx with sent := ctx.sent ++ [pkt] } })
      rw [g1, g2, g3, g4, g5, g7, g8]
      split_ifs <;> exact ⟨⟨[], by simp⟩, rfl, rfl, rfl, rfl, rfl, rfl⟩


/-- The error `AVERROR_EOF` is negative. -/
theorem AVERROR_EOF_neg : AVERROR_EOF < 0 := by decide

/-- One decode round on a codec that accepts the packet and then asks for more
input. -/
theorem decodePkt_accept (t : Track) (ctx : AVCodecContext) (pkt : AvPkt)
    (h : t.codecContext_ = some ctx)
    (hs : 0 ≤ (ctx.behave ctx.sent pkt).errSend)
    (hr : (ctx.behave ctx.sent pkt).errRecv = AVERROR_EAGAIN) :
    ∃ t1, t.decodePkt pkt = .ok (t1, AVERROR_EAGAIN) ∧
      t1.codecContext_ = some { ctx with sent := ctx.sent ++ [pkt] } ∧
      t1.stream_ = t.stream_ ∧ t1.candidates_ = t.candidates_ ∧
      t1.packets_ = t.packets_ ∧ t1.switches_ = t.switches_ ∧
      t1.sent_ = t.sent_ + 1 := by
  have h1 : ¬ (ctx.behave ctx.sent pkt).errSend = AVERROR_EOF := by
    intro h; rw [h] at hs; exact absurd hs (by decide)
  have h2 : ¬ ((ctx.behave ctx.sent pkt).errSend < 0 ∧
      (ctx.behave ctx.sent pkt).errSend ≠ AVERROR_EAGAIN ∧
      (ctx.behave ctx.sent pkt).errSend ≠ AVERROR_EOF) := by
    intro h; omega
  unfold Track.decodePkt
  rw [h]
  simp only [h1, if_false]
  rw [if_neg h2, if_pos (ge_iff_le.mpr hs)]
  obtain ⟨g1, g2, g3, _, _, g6, g7, g8, _⟩ := decoderPull_fields
    (ctx.behave ctx.sent pkt).frames (ctx.behave ctx.sent pkt).errRecv
    { ({ t with codecContext_ := some { ctx with sent := ctx.sent ++ [pkt] } } : Track)
      with sent_ := t.sent_ + 1 }
  have g0 := decoderPull_snd (ctx.behave ctx.sent pkt).frames (ctx.behave ctx.sent pkt).errRecv
    { ({ t with codecContext_ := some { ctx with sent := ctx.sent ++ [pkt] } } : Track)
      with sent_ := t.sent_ + 1 }
  rw [hr] at g0
  refine ⟨_, ?_, g2, g1, g3, g7, g8, g6⟩
  rw [← g0, hr]

/-- The replay loop on a codec that accepts every packet and asks for more
input after each: every packet is sent, once, in order. -/
theorem replay_accept (pkts : List AvPkt) :
    ∀ (t : Track) (ctx : AVCodecContext), t.codecContext_ = some ctx →
      (∀ h p, 0 ≤ (ctx.behave h p).errSend ∧ (ctx.behave h p).errRecv = AVERROR_EAGAIN) →
      ∃ t1, t.replay pkts = .ok t1 ∧
        t1.codecContext_ = some { ctx with sent := ctx.sent ++ pkts } ∧
        t1.stream_ = t.stream_ ∧ t1.candidates_ = t.candidates_ ∧
        t1.packets_ = t.packets_ ∧ t1.switches_ = t.switches_ ∧
        t1.sent_ = t.sent_ + pkts.length := by
  induction pkts with
  | nil =>
    intro t ctx h _
    exact ⟨t, rfl, by simpa using h, rfl, rfl, rfl, rfl, rfl⟩
  | cons p ps ih =>
    intro t ctx h hacc
    obtain ⟨t1, e1, c1, s1, k1, p1, w1, n1⟩ :=
      decodePkt_accept t ctx p h (hacc _ _).1 (hacc _ _).2
    obtain ⟨t2, e2, c2, s2, k2, p2, w2, n2⟩ :=
      ih t1 { ctx with sent := ctx.sent ++ [p] } c1 hacc
    refine ⟨t2, ?_, ?_, s2.trans s1, k2.trans k1, p2.trans p1, w2.trans w1, ?_⟩
    · simp only [Track.replay, e1]
      rw [if_neg (by decide)]
      exact e2
    · simpa using c2
    · rw [n2, n1, List.length_cons]; omega

/-- The replay loop on a track with an active codec context never faults; the
codec stays the same context, the packets sent to it start with the first
retained packet. -/
theorem replay_some (pkts : List AvPkt) :
    ∀ (t : Track) (ctx : AVCodecContext), t.codecContext_ = some ctx →
      ∃ t1 more, t.replay pkts = .ok t1 ∧
        t1.codecContext_ = some { ctx with sent := ctx.sent ++ more } ∧
        (∀ p ps, pkts = p :: ps → ∃ tl, more = p :: tl) ∧
        t1.stream_ = t.stream_ ∧ t1.candidates_ = t.candidates_ ∧
        t1.packets_ = t.packets_ ∧ t1.switches_ = t.switches_ := by
  induction pkts with
  | nil =>
    intro t ctx h
    exact ⟨t, [], rfl, by simpa using h, by simp, rfl, rfl, rfl, rfl⟩
  | cons p ps ih =>
    intro t ctx h
    obtain ⟨t1, err, e1, ⟨more, c1⟩, s1, k1, _, _, p1, w1⟩ := decodePkt_some t ctx p h
    simp only [Track.replay, e1]
    split_ifs with hbrk
    · exact ⟨t1, p :: more, rfl, c1, fun q qs hq => ⟨more, by simp_all⟩, s1, k1, p1, w1⟩
    · obtain ⟨t2, more2, e2, c2, _, s2, k2, p2, w2⟩ :=
        ih t1 { ctx with sent := ctx.sent ++ p :: more } c1
      refine ⟨t2, p :: (more ++ more2), e2, ?_, fun q qs hq => ⟨more ++ more2, by simp_all⟩,
        s2.trans s1, k2.trans k1, p2.trans p1, w2.trans w1⟩
      simpa using c2


/-- The function `Track::open` on a track without codec context whose candidate
list (refilled from the registry when empty) starts with `c`. -/
theorem open_of_candidate (found : List AVCodecContext) (t : Track) (st : AVStream)
    (c : AVCodecContext) (rest : List AVCodecContext)
    (hstream : t.stream_ = some st) (hctx : t.codecContext_ = none)
    (hcand : (if t.candidates_.isEmpty then found else t.candidates_) = c :: rest) :
    Track.open found t =
      ({ t with codecContext_ := some c, candidates_ := rest,
                sent_ := 0, received_ := 0, errors_ := 0 }, some c) := by
  unfold Track.open find_best_decoder_for
  rw [hctx, hstream]
  simp only [hcand]
  simp

/-- C3 (amended). On a track with a stream whose next candidate accepts every
packet and ends every receive round with `EAGAIN`, `Track::switchDecoder`
replaces the codec context by that candidate and sends it every retained
packet exactly once, in the order of the history; the history is kept. -/
theorem switchDecoder_replays_history (found : List AVCodecContext) (t : Track)
    (st : AVStream) (c : AVCodecContext) (rest : List AVCodecContext)
    (hstream : t.stream_ = some st) (hcand : t.candidates_ = c :: rest)
    (haccept : ∀ h p, 0 ≤ (c.behave h p).errSend ∧ (c.behave h p).errRecv = AVERROR_EAGAIN) :
    ∃ t', t.switchDecoder found = .ok (t', false) ∧
      t'.codecContext_ = some { c with sent := c.sent ++ t.packets_ } ∧
      t'.candidates_ = rest ∧ t'.packets_ = t.packets_ ∧
      t'.sent_ = t.packets_.length ∧ t'.switches_ = t.switches_ + 1 := by
  have ho := open_of_candidate found
    { t with switches_ := t.switches_ + 1, codecContext_ := none } st c rest hstream rfl
    (by simp [hcand])
  obtain ⟨t2, e2, c2, _, k2, p2, w2, n2⟩ := replay_accept t.packets_
    { t with switches_ := t.switches_ + 1, codecContext_ := some c, candidates_ := rest,
             sent_ := 0, received_ := 0, errors_ := 0 } c rfl haccept
  refine ⟨t2, ?_, c2, k2, p2, by simpa using n2, w2⟩
  unfold Track.switchDecoder
  simp only [ho]
  rw [e2]

/-- The function `Track::open` when neither the track nor the registry has a
candidate: no codec context. -/
theorem open_of_none (t : Track) (hctx : t.codecContext_ = none)
    (hcand : t.candidates_ = []) :
    ∃ t1, Track.open [] t = (t1, none) ∧ t1.handled_ = t.handled_ ∧
      t1.codecContext_ = none := by
  unfold Track.open find_best_decoder_for
  rw [hctx]
  cases hst : t.stream_ with
  | none => exact ⟨t, rfl, rfl, hctx⟩
  | some s =>
    simp only [hcand, List.isEmpty_nil, if_true, Option.isNone_none, Bool.true_and]
    split_ifs
    · exact ⟨_, rfl, rfl, rfl⟩
    · exact ⟨_, rfl, rfl, rfl⟩

/-- C4 (amended). When the decoder is switched with no untried candidate left,
`Track::open` refills the list from the decoder registry: if the registry
yields a decoder, the first one becomes the active codec context, the others
stay untried and the replay starts by sending it the oldest retained packet.
Only if the registry yields none does `Track::open` return no codec context;
a track without codec context, candidates and pending recommendation then
handles no frame in `decode(packet)`. -/
theorem switchDecoder_refills_untried (found : List AVCodecContext) (t : Track)
    (st : AVStream) (hstream : t.stream_ = some st) (hempty : t.candidates_ = []) :
    (∀ c rest, found = c :: rest →
      ∃ t' c', t.switchDecoder found = .ok (t', false) ∧ t'.codecContext_ = some c' ∧
        c'.name = c.name ∧ t'.candidates_ = rest ∧
        (∀ p ps, t.packets_ = p :: ps → ∃ tl, c'.sent = c.sent ++ p :: tl)) ∧
    (found = [] →
      (Track.open found { t with codecContext_ := none }).2 = none ∧
      (Track.open found { t with codecContext_ := none }).1.codecContext_ = none ∧
      ∀ (u : Track) (pkt : AvPkt), u.codecContext_ = none → u.candidates_ = [] →
        u.switchDecoderToRecommended_ = false →
        ∃ u', Track.decode found u (some pkt) = .ok u' ∧ u'.handled_ = u.handled_ ∧
          u'.codecContext_ = none) := by
  constructor
  · intro c rest hfound
    have ho := open_of_candidate found
      { t with switches_ := t.switches_ + 1, codecContext_ := none } st c rest hstream rfl
      (by simp [hempty, hfound])
    obtain ⟨t2, more, e2, c2, hm, _, k2, _, _⟩ := replay_some t.packets_
      { t with switches_ := t.switches_ + 1, codecContext_ := some c, candidates_ := rest,
               sent_ := 0, received_ := 0, errors_ := 0 } c rfl
    refine ⟨t2, _, ?_, c2, rfl, k2, ?_⟩
    · unfold Track.switchDecoder
      simp only [ho]
      rw [e2]
    · intro p ps hp
      obtain ⟨tl, htl⟩ := hm p ps hp
      exact ⟨tl, by simp [htl]⟩
  · intro hfound
    subst hfound
    obtain ⟨t1, e1, _, c1⟩ := open_of_none { t with codecContext_ := none } rfl hempty
    refine ⟨by rw [e1], by rw [e1]; exact c1, ?_⟩
    intro u pkt hu hc hs
    obtain ⟨u1, f1, g1, d1⟩ := open_of_none u hu hc
    refine ⟨u1, ?_, g1, d1⟩
    simp only [Track.decode, Track.decodeHead, Track.applyRecommended, hs, Bool.false_and]
    simp [f1]


/-- The function `Track::open` does not call `switchDecoder`. -/
theorem open_switches (found : List AVCodecContext) (t : Track) :
    (Track.open found t).1.switches_ = t.switches_ := by
  unfold Track.open
  split
  · rfl
  · split
    · rfl
    · simp only []
      split_ifs <;> rfl

/-- The function `Track::flush` does not call `switchDecoder`. -/
theorem flush_switches (t t1 : Track) (h : t.flush = .ok t1) : t1.switches_ = t.switches_ := by
  unfold Track.flush at h
  cases hc : t.codecContext_ with
  | none =>
    rw [hc] at h
    simp only [Except.ok.injEq] at h
    rw [← h]
  | some ctx =>
    obtain ⟨t2, err, e, _, _, _, _, _, _, w⟩ := decodePkt_some t ctx AvPkt.empty hc
    rw [hc] at h
    simp only [e, Except.ok.injEq] at h
    rw [← h]; exact w

/-- The replay loop does not call `switchDecoder`. -/
theorem replay_switches (pkts : List AvPkt) (t t1 : Track) (h : t.replay pkts = .ok t1) :
    t1.switches_ = t.switches_ := by
  cases hc : t.codecContext_ with
  | none =>
    cases pkts with
    | nil => simp only [Track.replay, Except.ok.injEq] at h; rw [← h]
    | cons p ps => simp [Track.replay, Track.decodePkt, hc] at h
  | some ctx =>
    obtain ⟨t2, more, e, _, _, _, _, _, w⟩ := replay_some pkts t ctx hc
    rw [e] at h
    simp only [Except.ok.injEq] at h
    rw [← h]; exact w

/-- A call of `switchDecoder` counts once. -/
theorem switchDecoder_switches (found : List AVCodecContext) (t : Track) (r : Track × Bool)
    (h : t.switchDecoder found = .ok r) : r.1.switches_ = t.switches_ + 1 := by
  unfold Track.switchDecoder at h
  simp only [] at h
  split at h
  · simp at h
  · rename_i t2 e
    simp only [Except.ok.injEq] at h
    rw [← h]
    rw [replay_switches _ _ _ e, open_switches]

/-- Taking up a recommendation does not call `switchDecoder`. -/
theorem applyRecommended_switches (t t1 : Track) (pkt : AvPkt)
    (h : t.applyRecommended pkt = .ok t1) : t1.switches_ = t.switches_ := by
  unfold Track.applyRecommended at h
  split_ifs at h
  · simp only [] at h
    split at h
    · simp at h
    · rename_i t2 e
      simp only [Except.ok.injEq] at h
      rw [← h]
      exact (flush_switches _ _ e).trans rfl
  · simp only [Except.ok.injEq] at h
    rw [← h]

/-- Retaining a packet changes the history only. -/
theorem retain_fields (t t1 : Track) (pkt : AvPkt) (h : t.retain pkt = .ok t1) :
    t1.switches_ = t.switches_ ∧ t1.codecContext_ = t.codecContext_ ∧
    t1.received_ = t.received_ ∧ t1.candidates_ = t.candidates_ := by
  unfold Track.retain at h
  split_ifs at h
  · split at h
    · simp at h
    · simp only [Except.ok.injEq] at h
      rw [← h]; exact ⟨rfl, rfl, rfl, rfl⟩
  · simp only [Except.ok.injEq] at h
    rw [← h]; exact ⟨rfl, rfl, rfl, rfl⟩

/-- The first part of `Track::decode` does not call `switchDecoder`. -/
theorem decodeHead_switches (found : List AVCodecContext) (t : Track) (pkt : AvPkt)
    (t1 : Track) (res : Option (Nat × Int))
    (h : Track.decodeHead found t pkt = .ok (t1, res)) : t1.switches_ = t.switches_ := by
  unfold Track.decodeHead at h
  split at h
  · simp at h
  · rename_i t2 e2
    have w2 := applyRecommended_switches _ _ _ e2
    have w3 := open_switches found t2
    split at h
    · rename_i t3 e3
      simp only [Except.ok.injEq, Prod.mk.injEq] at h
      rw [e3] at w3
      rw [← h.1, ← w2]; exact w3
    · rename_i t3 c e3
      rw [e3] at w3
      split at h
      · simp at h
      · rename_i t5 e5
        have w5 := (retain_fields _ _ _ e5).1
        split at h
        · simp at h
        · rename_i r6 e6
          simp only [Except.ok.injEq, Prod.mk.injEq] at h
          cases hc : t5.codecContext_ with
          | none => simp [Track.decodePkt, hc] at e6
          | some ctx =>
            obtain ⟨t6, err, e, _, _, _, _, _, _, w⟩ := decodePkt_some t5 ctx pkt hc
            rw [e] at e6
            simp only [Except.ok.injEq] at e6
            rw [← h.1, ← e6]
            simp only []
            rw [w, w5, ← w2]; exact w3


/-- Without a recommendation to take up, the first part of `Track::decode`
keeps the active codec context and sends it the packet. -/
theorem decodeHead_codec (found : List AVCodecContext) (t : Track) (pkt : AvPkt)
    (t1 : Track) (res : Option (Nat × Int)) (c : AVCodecContext)
    (h : Track.decodeHead found t pkt = .ok (t1, res))
    (hc : t.codecContext_ = some c)
    (hk : (t.switchDecoderToRecommended_ && decide (pkt.flags &&& AV_PKT_FLAG_KEY ≠ 0)) = false) :
    ∃ more, t1.codecContext_ = some { c with sent := c.sent ++ pkt :: more } := by
  have ha : t.applyRecommended pkt = .ok t := by
    unfold Track.applyRecommended
    rw [hk]; rfl
  have ho : Track.open found t = (t, some c) := by
    unfold Track.open
    rw [hc]
  unfold Track.decodeHead at h
  rw [ha] at h
  simp only [ho] at h
  split at h
  · simp at h
  · rename_i t5 e5
    obtain ⟨_, k5, _, _⟩ := retain_fields _ _ _ e5
    obtain ⟨t6, err, e, hm, _⟩ := decodePkt_some t5 c pkt (k5.trans hc)
    rw [e] at h
    simp only [Except.ok.injEq, Prod.mk.injEq] at h
    rw [← h.1]
    exact hm

/-- C6 (amended). `Track::decode(packet)` calls `switchDecoder` only if the call
received no frame, the decode round returned an error other than `EAGAIN`, and
either the codec has received no frame since it was opened or six errors were
counted.  Once the codec has received a frame, fewer than six errors leave the
codec context of the decode round in place, and without a recommendation to
take up that context is the one that was active before the call. -/
theorem decode_switch_condition (found : List AVCodecContext) (t : Track) (pkt : AvPkt)
    (t' : Track) (h : Track.decode found t (some pkt) = .ok t') :
    ∃ t1 res, Track.decodeHead found t pkt = .ok (t1, res) ∧
      (t'.switches_ ≠ t.switches_ →
        ∃ prior err, res = some (prior, err) ∧ ¬ prior < t1.received_ ∧ err < 0 ∧
          err ≠ AVERROR_EAGAIN ∧ (t1.received_ = 0 ∨ 6 ≤ t1.errors_)) ∧
      (t1.received_ ≠ 0 → t1.errors_ < 6 →
        t'.switches_ = t.switches_ ∧ t'.codecContext_ = t1.codecContext_) ∧
      (∀ c, t.codecContext_ = some c →
        (t.switchDecoderToRecommended_ && decide (pkt.flags &&& AV_PKT_FLAG_KEY ≠ 0)) = false →
        ∃ more, t1.codecContext_ = some { c with sent := c.sent ++ pkt :: more }) := by
  unfold Track.decode at h
  simp only [] at h
  cases hh : Track.decodeHead found t pkt with
  | error e => rw [hh] at h; simp at h
  | ok r =>
    obtain ⟨t1, res⟩ := r
    have hw := decodeHead_switches found t pkt t1 res hh
    refine ⟨t1, res, rfl, ?_, ?_, fun c hc hk => decodeHead_codec found t pkt t1 res c hh hc hk⟩
    · intro hne
      rw [hh] at h
      cases res with
      | none =>
        simp only [Except.ok.injEq] at h
        rw [← h] at hne
        exact absurd hw hne
      | some pe =>
        obtain ⟨prior, err⟩ := pe
        simp only [Track.decodeTail] at h
        refine ⟨prior, err, rfl, ?_⟩
        split_ifs at h with h1 h2
        · simp only [Except.ok.injEq] at h
          rw [← h] at hne
          exact absurd hw hne
        · exact ⟨by omega, h2.1, h2.2.1, by omega⟩
        · simp only [Except.ok.injEq] at h
          rw [← h] at hne
          exact absurd hw hne
    · intro hr he
      rw [hh] at h
      cases res with
      | none =>
        simp only [Except.ok.injEq] at h
        rw [← h]; exact ⟨hw, rfl⟩
      | some pe =>
        obtain ⟨prior, err⟩ := pe
        simp only [Track.decodeTail] at h
        split_ifs at h with h1 h2
        · simp only [Except.ok.injEq] at h
          rw [← h]; exact ⟨hw, rfl⟩
        · omega
        · simp only [Except.ok.injEq] at h
          rw [← h]; exact ⟨hw, rfl⟩

/-- Witness for C3 (amended): two retained packets, candidate `acceptAll 2`. -/
theorem switchDecoder_replays_history_witness :
    ∃ t', trackTwoRetained.switchDecoder [] = .ok (t', false) ∧
      t'.codecContext_ = some { acceptAll 2 with sent := (acceptAll 2).sent ++ trackTwoRetained.packets_ } ∧
      t'.candidates_ = [] ∧ t'.packets_ = trackTwoRetained.packets_ ∧
      t'.sent_ = trackTwoRetained.packets_.length ∧
      t'.switches_ = trackTwoRetained.switches_ + 1 :=
  switchDecoder_replays_history [] trackTwoRetained ⟨27⟩ (acceptAll 2) [] rfl rfl
    (fun _ _ => ⟨le_refl _, rfl⟩)

/-- C3 (counterexample). The candidate accepts every packet
(`avcodec_send_packet` returns 0) but `avcodec_receive_frame` reports invalid
data: of the two retained packets only the first is sent to it.  The last
part reaches the same outcome by two `Track::decode` calls from a new track. -/
theorem switchDecoder_skips_after_receive_error :
    (∀ h p, ((acceptThenFail 2).behave h p).errSend = 0) ∧
    trackTwoRetainedFailing.packets_ = [pktN 0, pktN 1] ∧
    (trackTwoRetainedFailing.switchDecoder []).toOption.bind (fun r => r.1.activeCodec) =
      some (2, [pktN 0]) ∧
    (Track.run [acceptOnce 1, acceptThenFail 2] (Track.init 27)
      [some (pktN 0), some (pktN 1)]).toOption.map
        (fun t => (t.packets_, t.switches_, t.activeCodec)) =
      some ([pktN 0, pktN 1], 1, some (2, [pktN 0])) :=
  ⟨fun _ _ => rfl, by decide, by decide, by decide⟩

/-- Witness for C4 (amended): the registry holds the one decoder of the stream. -/
theorem switchDecoder_refills_untried_witness :
    (∀ c rest, [rejectAll 1] = c :: rest →
      ∃ t' c', trackNoneUntried.switchDecoder [rejectAll 1] = .ok (t', false) ∧
        t'.codecContext_ = some c' ∧
        c'.name = c.name ∧ t'.candidates_ = rest ∧
        (∀ p ps, trackNoneUntried.packets_ = p :: ps → ∃ tl, c'.sent = c.sent ++ p :: tl)) ∧
    ([rejectAll 1] = [] →
      (Track.open [rejectAll 1] { trackNoneUntried with codecContext_ := none }).2 = none ∧
      (Track.open [rejectAll 1] { trackNoneUntried with codecContext_ := none }).1.codecContext_ =
        none ∧
      ∀ (u : Track) (pkt : AvPkt), u.codecContext_ = none → u.candidates_ = [] →
        u.switchDecoderToRecommended_ = false →
        ∃ u', Track.decode [rejectAll 1] u (some pkt) = .ok u' ∧ u'.handled_ = u.handled_ ∧
          u'.codecContext_ = none) :=
  switchDecoder_refills_untried [rejectAll 1] trackNoneUntried ⟨27⟩ rfl rfl

/-- C4 (counterexample). The untried list is empty when the decoder is switched,
yet afterwards the track has an active codec context (the decoder found again
in the registry) and the retained packet was sent to it.  The last part
reaches the same outcome by one `Track::decode` call from a new track. -/
theorem switchDecoder_reopens_from_registry :
    trackNoneUntried.candidates_.length = 0 ∧
    (trackNoneUntried.switchDecoder [rejectAll 1]).toOption.bind (fun r => r.1.activeCodec) =
      some (1, [pktN 0]) ∧
    (Track.decode [rejectAll 1] (Track.init 27) (some (pktN 0))).toOption.map
      (fun t => (t.candidates_.length, t.switches_, t.activeCodec)) =
      some (0, 1, some (1, [pktN 0])) := by
  decide

/-- C5 (code at the failing input). A decoder that rejects every packet: after
62 packets the retained history holds 62 packets and `sent_` is still 0, so
the guard `sent_ > 60` never drops the oldest packet. -/
theorem history_exceeds_bound :
    (Track.run [rejectAll 1] (Track.init 27)
      ((List.range 62).map (fun i => some (pktN i)))).toOption.map
        (fun t => (t.packets_.length, t.sent_)) = some (62, 0) := by
  decide

/-- Witness for C6 (amended): the first packet of `trackOpened`. -/
theorem decode_switch_condition_witness :
    ∃ t1 res, Track.decodeHead [] trackOpened (pktN 0) = .ok (t1, res) ∧
      ((Track.ofResult (Track.decode [] trackOpened (some (pktN 0)))).switches_ ≠
          trackOpened.switches_ →
        ∃ prior err, res = some (prior, err) ∧ ¬ prior < t1.received_ ∧ err < 0 ∧
          err ≠ AVERROR_EAGAIN ∧ (t1.received_ = 0 ∨ 6 ≤ t1.errors_)) ∧
      (t1.received_ ≠ 0 → t1.errors_ < 6 →
        (Track.ofResult (Track.decode [] trackOpened (some (pktN 0)))).switches_ =
          trackOpened.switches_ ∧
        (Track.ofResult (Track.decode [] trackOpened (some (pktN 0)))).codecContext_ =
          t1.codecContext_) ∧
      (∀ c, trackOpened.codecContext_ = some c →
        (trackOpened.switchDecoderToRecommended_ &&
          decide ((pktN 0).flags &&& AV_PKT_FLAG_KEY ≠ 0)) = false →
        ∃ more, t1.codecContext_ = some { c with sent := c.sent ++ pktN 0 :: more }) :=
  decode_switch_condition [] trackOpened (pktN 0)
    (Track.ofResult (Track.decode [] trackOpened (some (pktN 0)))) rfl

/-- C6 (counterexample). The codec is switched after a single error: the active
codec 1 rejects the first packet, the error counter is 1 when the decision is
taken, and the call ends with codec 2 active. -/
theorem decode_switches_below_threshold :
    trackOpened.activeCodec.map Prod.fst = some 1 ∧
    (Track.decodeHead [] trackOpened (pktN 0)).toOption.map
      (fun r => (r.1.errors_, r.1.switches_, r.1.activeCodec.map Prod.fst)) =
        some (1, 0, some 1) ∧
    (Track.decode [] trackOpened (some (pktN 0))).toOption.map
      (fun t => (t.switches_, t.activeCodec.map Prod.fst)) = some (1, some 2) ∧
    (1 : Nat) < 6 := by
  decide

/-! ### ParallelDemuxer: merge by decode timestamp -/

/-- The function `peek` returns no packet exactly when all children are empty. -/
theorem peekChildren_none (cs : List (List AvPkt)) :
    peekChildren cs = none ↔ cs.flatten = [] := by
  induction cs with
  | nil => simp [peekChildren]
  | cons c cs ih =>
    cases c with
    | nil => simp [peekChildren, ih]
    | cons p ps =>
      simp only [peekChildren, List.head?_cons, List.flatten_cons, List.cons_append]
      cases peekChildren cs with
      | none => simp
      | some q => simp only []; split_ifs <;> simp

/-- The packet that `peek` selects is the front packet of a child. -/
theorem peekChildren_front (cs : List (List AvPkt)) (p : AvPkt)
    (h : peekChildren cs = some p) : ∃ c ∈ cs, c.head? = some p := by
  induction cs with
  | nil => simp [peekChildren] at h
  | cons c cs ih =>
    cases c with
    | nil =>
      simp only [peekChildren, List.head?_nil] at h
      obtain ⟨c', hc, hp⟩ := ih h
      exact ⟨c', List.mem_cons_of_mem _ hc, hp⟩
    | cons q qs =>
      simp only [peekChildren, List.head?_cons] at h
      cases hr : peekChildren cs with
      | none =>
        rw [hr] at h
        simp only [Option.some.injEq] at h
        exact ⟨q :: qs, List.mem_cons_self _ _, by simp [h]⟩
      | some r =>
        rw [hr] at h
        simp only [] at h
        split_ifs at h
        · simp only [Option.some.injEq] at h
          obtain ⟨c', hc, hp⟩ := ih (by rw [hr, h])
          exact ⟨c', List.mem_cons_of_mem _ hc, hp⟩
        · simp only [Option.some.injEq] at h
          exact ⟨q :: qs, List.mem_cons_self _ _, by simp [h]⟩

/-- The packet that `peek` selects is a minimum of the front packets. -/
theorem peekChildren_le (cs : List (List AvPkt)) (p : AvPkt)
    (h : peekChildren cs = some p) : ∀ c ∈ cs, ∀ q, c.head? = some q → p.dts ≤ q.dts := by
  induction cs generalizing p with
  | nil => simp
  | cons c cs ih =>
    intro c' hc' q hq
    cases c with
    | nil =>
      simp only [peekChildren, List.head?_nil] at h
      rcases List.mem_cons.mp hc' with rfl | hm
      · simp at hq
      · exact ih p h c' hm q hq
    | cons f fs =>
      simp only [peekChildren, List.head?_cons] at h
      cases hr : peekChildren cs with
      | none =>
        rw [hr] at h
        simp only [Option.some.injEq] at h
        rcases List.mem_cons.mp hc' with rfl | hm
        · simp only [List.head?_cons, Option.some.injEq] at hq
          rw [← hq, h]
        · have := (peekChildren_none cs).mp hr
          have hnil : c' = [] := by
            rw [List.flatten_eq_nil_iff] at this
            exact this c' hm
          rw [hnil] at hq; simp at hq
      | some r =>
        rw [hr] at h
        simp only [] at h
        have ihr := ih r hr
        split_ifs at h with hlt
        · simp only [Option.some.injEq] at h
          subst h
          rcases List.mem_cons.mp hc' with rfl | hm
          · simp only [List.head?_cons, Option.some.injEq] at hq
            rw [← hq]; omega
          · exact ihr c' hm q hq
        · simp only [Option.some.injEq] at h
          subst h
          rcases List.mem_cons.mp hc' with rfl | hm
          · simp only [List.head?_cons, Option.some.injEq] at hq
            rw [← hq]
          · have := ihr c' hm q hq
            omega

/-- Popping the front packet of a child removes that one packet. -/
theorem popChildren_perm (p : AvPkt) (cs : List (List AvPkt))
    (h : ∃ c ∈ cs, c.head? = some p) :
    (popChildren p cs).1 = true ∧ cs.flatten.Perm (p :: (popChildren p cs).2.flatten) := by
  induction cs with
  | nil => simp at h
  | cons c cs ih =>
    cases c with
    | nil =>
      obtain ⟨c', hc, hp⟩ := h
      have h' : ∃ c ∈ cs, c.head? = some p := by
        rcases List.mem_cons.mp hc with rfl | hm
        · simp at hp
        · exact ⟨c', hm, hp⟩
      simpa [popChildren] using ih h'
    | cons q qs =>
      by_cases hq : q = p
      · subst hq
        simp [popChildren]
      · obtain ⟨c', hc, hp⟩ := h
        have h' : ∃ c ∈ cs, c.head? = some p := by
          rcases List.mem_cons.mp hc with rfl | hm
          · simp at hp; exact absurd hp hq
          · exact ⟨c', hm, hp⟩
        obtain ⟨h1, h2⟩ := ih h'
        simp only [popChildren, hq, if_false, List.flatten_cons, List.cons_append]
        refine ⟨h1, ?_⟩
        have h3 : (q :: (qs ++ cs.flatten)).Perm (q :: (qs ++ p :: (popChildren p cs).2.flatten)) :=
          List.Perm.cons q (List.Perm.append_left qs h2)
        exact h3.trans (by
          have := @List.perm_middle _ p (q :: qs) (popChildren p cs).2.flatten
          simpa using this)

/-- Popping a packet keeps every child in DTS order. -/
theorem popChildren_sorted (p : AvPkt) (cs : List (List AvPkt))
    (h : ∀ c ∈ cs, dtsSorted c) : ∀ c ∈ (popChildren p cs).2, dtsSorted c := by
  induction cs with
  | nil => simp [popChildren]
  | cons c cs ih =>
    have ih' := ih (fun c hc => h c (List.mem_cons_of_mem _ hc))
    cases c with
    | nil =>
      intro c' hc'
      simp only [popChildren, List.mem_cons] at hc'
      rcases hc' with rfl | hm
      · exact List.Pairwise.nil
      · exact ih' c' hm
    | cons q qs =>
      have hq := h (q :: qs) (List.mem_cons_self _ _)
      intro c' hc'
      simp only [popChildren] at hc'
      split_ifs at hc'
      · simp only [List.mem_cons] at hc'
        rcases hc' with rfl | hm
        · exact (List.pairwise_cons.mp hq).2
        · exact h c' (List.mem_cons_of_mem _ hm)
      · simp only [List.mem_cons] at hc'
        rcases hc' with rfl | hm
        · exact hq
        · exact ih' c' hm

/-- The packet selected by `peek` is a minimum of all packets yet to come. -/
theorem peekChildren_min (cs : List (List AvPkt)) (p : AvPkt)
    (hs : ∀ c ∈ cs, dtsSorted c) (h : peekChildren cs = some p) :
    ∀ q ∈ cs.flatten, p.dts ≤ q.dts := by
  intro q hq
  obtain ⟨c, hc, hqc⟩ := List.mem_flatten.mp hq
  cases c with
  | nil => simp at hqc
  | cons f fs =>
    have hf := peekChildren_le cs p h (f :: fs) hc f rfl
    rcases List.mem_cons.mp hqc with rfl | hm
    · exact hf
    · have := (List.pairwise_cons.mp (hs _ hc)).1 q hm
      omega

/-- C2. For children that each yield their packets in non-decreasing DTS order,
the packets returned by successive `get` calls have non-decreasing DTS over
the whole sequence and are, with multiplicity, exactly the packets of all
children; after as many calls as there are packets `get` returns no packet. -/
theorem drain_sorted_perm (fuel : Nat) :
    ∀ d : ParallelDemuxer, d.size ≤ fuel → (∀ c ∈ d.src_, dtsSorted c) →
      dtsSorted (d.drain fuel).1 ∧ (d.drain fuel).1.Perm d.src_.flatten ∧
      (d.drain fuel).2.get.1 = none := by
  induction fuel with
  | zero =>
    intro d hsz _
    have hnil : d.src_.flatten = [] := List.length_eq_zero.mp (Nat.le_zero.mp hsz)
    have hp := (peekChildren_none d.src_).mpr hnil
    simp [ParallelDemuxer.drain, dtsSorted, hnil, ParallelDemuxer.get, ParallelDemuxer.peek, hp]
  | succ n ih =>
    intro d hsz hs
    cases hp : peekChildren d.src_ with
    | none =>
      have hnil := (peekChildren_none d.src_).mp hp
      simp [ParallelDemuxer.drain, dtsSorted, hnil, ParallelDemuxer.get, ParallelDemuxer.peek, hp]
    | some p =>
      obtain ⟨_, hperm⟩ := popChildren_perm p d.src_ (peekChildren_front d.src_ p hp)
      have hmin := peekChildren_min d.src_ p hs hp
      have hs' := popChildren_sorted p d.src_ hs
      have hlen : (popChildren p d.src_).2.flatten.length ≤ n := by
        have := hperm.length_eq
        simp only [List.length_cons] at this
        simp only [ParallelDemuxer.size] at hsz
        omega
      obtain ⟨i1, i2, i3⟩ := ih { src_ := (popChildren p d.src_).2 } hlen hs'
      have hd : d.drain (n + 1) =
          (p :: (ParallelDemuxer.drain n { src_ := (popChildren p d.src_).2 }).1,
           (ParallelDemuxer.drain n { src_ := (popChildren p d.src_).2 }).2) := by
        simp [ParallelDemuxer.drain, ParallelDemuxer.get, ParallelDemuxer.peek, hp,
          ParallelDemuxer.pop]
      rw [hd]
      refine ⟨?_, ?_, i3⟩
      · refine List.pairwise_cons.mpr ⟨?_, i1⟩
        intro q hq
        exact hmin q (hperm.symm.subset (List.mem_cons_of_mem _ (i2.subset hq)))
      · exact (List.Perm.cons p i2).trans hperm.symm

/-- Witness for C2: the two sources of `twoSources`, six packets. -/
theorem drain_sorted_perm_witness :
    dtsSorted (twoSources.drain 6).1 ∧ (twoSources.drain 6).1.Perm twoSources.src_.flatten ∧
      (twoSources.drain 6).2.get.1 = none :=
  drain_sorted_perm 6 twoSources (by decide) (by
    intro c hc
    simp only [twoSources, List.mem_cons, List.mem_singleton, List.not_mem_nil, or_false] at hc
    rcases hc with rfl | rfl <;> simp [dtsSorted, pktN])

/-! ### Timeline spans -/

/-- The model of `extend` passes the checks of the test `yae_timeline`. -/
theorem extend_passes_timeline_test :
    extend [] s12 defaultTolerance false = (true, [s12]) ∧
    extend [s12] s23 defaultTolerance false = (true, [⟨⟨100, 1000⟩, ⟨300, 1000⟩⟩]) ∧
    extend [⟨⟨100, 1000⟩, ⟨300, 1000⟩⟩] s46 defaultTolerance false =
      (true, [⟨⟨100, 1000⟩, ⟨300, 1000⟩⟩, s46]) ∧
    extend [⟨⟨100, 1000⟩, ⟨300, 1000⟩⟩, s46] s25 defaultTolerance false =
      (false, [⟨⟨100, 1000⟩, ⟨300, 1000⟩⟩, s46]) ∧
    extend [⟨⟨100, 1000⟩, ⟨300, 1000⟩⟩, s46] s25 defaultTolerance true =
      (true, [⟨⟨100, 1000⟩, ⟨600, 1000⟩⟩]) := by
  decide

/-- C9. If the start of `B` is within the tolerance of the end of the last span
`A` of the track, `extend` returns true, keeps the number of spans and the
spans before the last, and the last span becomes `[A.t0_, B.t1_]`; from an
empty track, `extend` of `A` and then of `B` yields the one span
`[A.t0_, B.t1_]`. -/
theorem extend_within_tolerance (track : List Timespan) (A B : Timespan) (tolerance : TTime)
    (forceMerge : Bool) (hlast : track.getLast? = some A)
    (hwithin : withinTolerance tolerance A B = true) :
    (extend track B tolerance forceMerge).1 = true ∧
    (extend track B tolerance forceMerge).2.length = track.length ∧
    (extend track B tolerance forceMerge).2.getLast? = some ⟨A.t0_, B.t1_⟩ ∧
    (extend track B tolerance forceMerge).2.dropLast = track.dropLast ∧
    extend [] A tolerance forceMerge = (true, [A]) ∧
    extend (extend [] A tolerance forceMerge).2 B tolerance forceMerge =
      (true, [⟨A.t0_, B.t1_⟩]) := by
  have hne : track ≠ [] := by
    intro h; rw [h] at hlast; simp at hlast
  have hlen : 0 < track.length := List.length_pos.mpr hne
  refine ⟨?_, ?_, ?_, ?_, ?_, ?_⟩
  · simp [extend, hlast, hwithin]
  · simp only [extend, hlast, hwithin, if_true, List.length_append, List.length_dropLast,
      List.length_singleton]
    omega
  · simp [extend, hlast, hwithin]
  · simp [extend, hlast, hwithin]
  · simp [extend]
  · simp [extend, hwithin]

/-- Witness for C9: the spans `s12` and `s23` of the test. -/
theorem extend_within_tolerance_witness :
    (extend [s12] s23 defaultTolerance false).1 = true ∧
    (extend [s12] s23 defaultTolerance false).2.length = [s12].length ∧
    (extend [s12] s23 defaultTolerance false).2.getLast? = some ⟨s12.t0_, s23.t1_⟩ ∧
    (extend [s12] s23 defaultTolerance false).2.dropLast = [s12].dropLast ∧
    extend [] s12 defaultTolerance false = (true, [s12]) ∧
    extend (extend [] s12 defaultTolerance false).2 s23 defaultTolerance false =
      (true, [⟨s12.t0_, s23.t1_⟩]) :=
  extend_within_tolerance [s12] s12 s23 defaultTolerance false (by decide) (by decide)

/-- C10. If the span `B` starts before the end of the last span `A` of the
track by more than the tolerance, `extend` without forced merging returns
false and leaves the track, hence its number of spans, unchanged. -/
theorem extend_refuses_non_monotonic (track : List Timespan) (A B : Timespan)
    (tolerance : TTime) (hlast : track.getLast? = some A)
    (hbefore : startsBefore tolerance A B = true) :
    (extend track B tolerance false).1 = false ∧
    (extend track B tolerance false).2 = track ∧
    (extend track B tolerance false).2.length = track.length := by
  have hnot : withinTolerance tolerance A B = false := by
    unfold withinTolerance
    unfold startsBefore at hbefore
    rw [hbefore]; simp
  simp [extend, hlast, hnot, hbefore]

/-- Witness for C10: the span `s25` on the track of the test. -/
theorem extend_refuses_non_monotonic_witness :
    (extend [⟨⟨100, 1000⟩, ⟨300, 1000⟩⟩, s46] s25 defaultTolerance false).1 = false ∧
    (extend [⟨⟨100, 1000⟩, ⟨300, 1000⟩⟩, s46] s25 defaultTolerance false).2 =
      [⟨⟨100, 1000⟩, ⟨300, 1000⟩⟩, s46] ∧
    (extend [⟨⟨100, 1000⟩, ⟨300, 1000⟩⟩, s46] s25 defaultTolerance false).2.length =
      [⟨⟨100, 1000⟩, ⟨300, 1000⟩⟩, s46].length :=
  extend_refuses_non_monotonic [⟨⟨100, 1000⟩, ⟨300, 1000⟩⟩, s46] s46 s25 defaultTolerance
    (by decide) (by decide)

/-! ### Timeline spans: forced merge, gaps, bounding box -/

/-- Exact comparison of timestamps with non-zero bases is transitive
(in the form "not later than"). -/
theorem exactLt_false_trans (a b c : TTime) (hb : 0 < b.base_)
    (hab : TTime.exactLt b a = false) (hbc : TTime.exactLt c b = false) (ha : 0 < a.base_)
    (hc : 0 < c.base_) : TTime.exactLt c a = false := by
  simp only [TTime.exactLt, decide_eq_false_iff_not, not_lt] at hab hbc ⊢
  have hb' : (0 : Int) < (b.base_ : Int) := by exact_mod_cast hb
  have ha' : (0 : Int) ≤ (a.base_ : Int) := by positivity
  have hc' : (0 : Int) ≤ (c.base_ : Int) := by positivity
  have h1 := mul_le_mul_of_nonneg_right hab hc'
  have h2 := mul_le_mul_of_nonneg_right hbc ha'
  have h3 : a.time_ * (c.base_ : Int) * (b.base_ : Int) ≤
      c.time_ * (a.base_ : Int) * (b.base_ : Int) := by nlinarith
  exact le_of_mul_le_mul_right h3 hb'

/-- Exact comparison is irreflexive. -/
theorem exactLt_irrefl (a : TTime) : TTime.exactLt a a = false := by
  simp [TTime.exactLt]

/-- Exact comparison is asymmetric. -/
theorem exactLt_asymm (a b : TTime) (h : TTime.exactLt a b = true) :
    TTime.exactLt b a = false := by
  simp only [TTime.exactLt, decide_eq_true_eq, decide_eq_false_iff_not, not_lt] at h ⊢
  omega

/-- The earlier of two timestamps is one of them and is later than neither. -/
theorem exactMin_spec (a b : TTime) :
    (TTime.exactMin a b = a ∨ TTime.exactMin a b = b) ∧
    TTime.exactLt a (TTime.exactMin a b) = false ∧
    TTime.exactLt b (TTime.exactMin a b) = false := by
  unfold TTime.exactMin
  cases h : TTime.exactLt b a
  · simp [h, exactLt_irrefl]
  · simp [h, exactLt_irrefl, exactLt_asymm b a h]

/-- The later of two timestamps is one of them and is earlier than neither. -/
theorem exactMax_spec (a b : TTime) :
    (TTime.exactMax a b = a ∨ TTime.exactMax a b = b) ∧
    TTime.exactLt (TTime.exactMax a b) a = false ∧
    TTime.exactLt (TTime.exactMax a b) b = false := by
  unfold TTime.exactMax
  cases h : TTime.exactLt a b
  · simp [h, exactLt_irrefl]
  · simp [h, exactLt_irrefl, exactLt_asymm a b h]

/-- The span that the forced merge folds out of `s` and the overlapped spans
covers `s` and each of them, and its ends are ends of those spans. -/
theorem merge_fold_covers (over : List Timespan) :
    ∀ s : Timespan, s.wellFormed → (∀ x ∈ over, x.wellFormed) →
      (over.foldl (fun m x => ⟨TTime.exactMin m.t0_ x.t0_, TTime.exactMax m.t1_ x.t1_⟩)
          s).wellFormed ∧
      (over.foldl (fun m x => ⟨TTime.exactMin m.t0_ x.t0_, TTime.exactMax m.t1_ x.t1_⟩)
          s).covers s ∧
      (∀ x ∈ over,
        (over.foldl (fun m x => ⟨TTime.exactMin m.t0_ x.t0_, TTime.exactMax m.t1_ x.t1_⟩)
          s).covers x) ∧
      (over.foldl (fun m x => ⟨TTime.exactMin m.t0_ x.t0_, TTime.exactMax m.t1_ x.t1_⟩)
          s).t0_ ∈ s.t0_ :: over.map (fun x => x.t0_) ∧
      (over.foldl (fun m x => ⟨TTime.exactMin m.t0_ x.t0_, TTime.exactMax m.t1_ x.t1_⟩)
          s).t1_ ∈ s.t1_ :: over.map (fun x => x.t1_) := by
  induction over with
  | nil =>
    intro s hs _
    exact ⟨hs, ⟨exactLt_irrefl _, exactLt_irrefl _⟩, by simp, by simp, by simp⟩
  | cons x xs ih =>
    intro s hs hall
    have hx := hall x (List.mem_cons_self _ _)
    obtain ⟨hmin1, hmin2, hmin3⟩ := exactMin_spec s.t0_ x.t0_
    obtain ⟨hmax1, hmax2, hmax3⟩ := exactMax_spec s.t1_ x.t1_
    have hs' : Timespan.wellFormed ⟨TTime.exactMin s.t0_ x.t0_, TTime.exactMax s.t1_ x.t1_⟩ := by
      constructor
      · rcases hmin1 with h | h <;> simp only [h]
        · exact hs.1
        · exact hx.1
      · rcases hmax1 with h | h <;> simp only [h]
        · exact hs.2
        · exact hx.2
    obtain ⟨w, c, call, m0, m1⟩ :=
      ih ⟨TTime.exactMin s.t0_ x.t0_, TTime.exactMax s.t1_ x.t1_⟩ hs'
        (fun y hy => hall y (List.mem_cons_of_mem _ hy))
    simp only [List.foldl_cons]
    refine ⟨w, ⟨?_, ?_⟩, ?_, ?_, ?_⟩
    · exact exactLt_false_trans _ _ _ hs'.1 c.1 hmin2 w.1 hs.1
    · exact exactLt_false_trans _ _ _ hs'.2 hmax2 c.2 hs.2 w.2
    · intro y hy
      rcases List.mem_cons.mp hy with rfl | hy'
      · exact ⟨exactLt_false_trans _ _ _ hs'.1 c.1 hmin3 w.1 hx.1,
          exactLt_false_trans _ _ _ hs'.2 hmax3 c.2 hx.2 w.2⟩
      · exact call y hy'
    · simp only [List.map_cons, List.mem_cons] at m0 ⊢
      rcases m0 with h | h
      · rcases hmin1 with h' | h'
        · left; rw [h, h']
        · right; left; rw [h, h']
      · right; right; exact h
    · simp only [List.map_cons, List.mem_cons] at m1 ⊢
      rcases m1 with h | h
      · rcases hmax1 with h' | h'
        · left; rw [h, h']
        · right; left; rw [h, h']
      · right; right; exact h

/-- C11. With merging forced, `extend` accepts a span that starts before the
end of the last span by more than the tolerance: it returns true, and the
track becomes the spans that end before the new span, one span `m`, and the
spans that start after it.  The span `m` covers the new span and every span
of the track that the new span overlaps, and its two ends are ends of those
spans: it is their union.  On the track of the test, `[0.1s, 0.3s]` and
`[0.4s, 0.6s]` extended with `[0.2s, 0.5s]` become `[0.1s, 0.6s]`. -/
theorem extend_forced_merge (track : List Timespan) (A B : Timespan) (tolerance : TTime)
    (hlast : track.getLast? = some A) (hbefore : startsBefore tolerance A B = true)
    (hwf : ∀ x ∈ track, x.wellFormed) (hB : B.wellFormed) :
    (∃ m : Timespan,
      extend track B tolerance true =
        (true, track.filter (fun x => TTime.exactLt x.t1_ B.t0_) ++ [m] ++
          track.filter (fun x => TTime.exactLt B.t1_ x.t0_)) ∧
      m.covers B ∧ (∀ x ∈ track, x.overlaps B = true → m.covers x) ∧
      m.t0_ ∈ B.t0_ :: (track.filter (fun x => x.overlaps B)).map (fun x => x.t0_) ∧
      m.t1_ ∈ B.t1_ :: (track.filter (fun x => x.overlaps B)).map (fun x => x.t1_)) ∧
    extend [⟨⟨100, 1000⟩, ⟨300, 1000⟩⟩, ⟨⟨400, 1000⟩, ⟨600, 1000⟩⟩]
        ⟨⟨200, 1000⟩, ⟨500, 1000⟩⟩ defaultTolerance true =
      (true, [⟨⟨100, 1000⟩, ⟨600, 1000⟩⟩]) := by
  have hnot : withinTolerance tolerance A B = false := by
    unfold withinTolerance
    unfold startsBefore at hbefore
    rw [hbefore]; simp
  refine ⟨?_, by decide⟩
  obtain ⟨_, c, call, m0, m1⟩ := merge_fold_covers (track.filter (fun x => x.overlaps B)) B hB
    (fun x hx => hwf x (List.mem_filter.mp hx).1)
  refine ⟨_, ?_, c, ?_, m0, m1⟩
  · simp only [extend, hlast, hnot, hbefore, if_true, mergeOverlapping]
    rfl
  · intro x hx ho
    exact call x (List.mem_filter.mpr ⟨hx, ho⟩)

/-- Witness for C11: the track and the span of the test. -/
theorem extend_forced_merge_witness :
    (∃ m : Timespan,
      extend [⟨⟨100, 1000⟩, ⟨300, 1000⟩⟩, s46] s25 defaultTolerance true =
        (true, [⟨⟨100, 1000⟩, ⟨300, 1000⟩⟩, s46].filter (fun x => TTime.exactLt x.t1_ s25.t0_) ++
          [m] ++
          [⟨⟨100, 1000⟩, ⟨300, 1000⟩⟩, s46].filter (fun x => TTime.exactLt s25.t1_ x.t0_)) ∧
      m.covers s25 ∧
      (∀ x ∈ [⟨⟨100, 1000⟩, ⟨300, 1000⟩⟩, s46], x.overlaps s25 = true → m.covers x) ∧
      m.t0_ ∈ s25.t0_ ::
        ([⟨⟨100, 1000⟩, ⟨300, 1000⟩⟩, s46].filter (fun x => x.overlaps s25)).map
          (fun x => x.t0_) ∧
      m.t1_ ∈ s25.t1_ ::
        ([⟨⟨100, 1000⟩, ⟨300, 1000⟩⟩, s46].filter (fun x => x.overlaps s25)).map
          (fun x => x.t1_)) ∧
    extend [⟨⟨100, 1000⟩, ⟨300, 1000⟩⟩, ⟨⟨400, 1000⟩, ⟨600, 1000⟩⟩]
        ⟨⟨200, 1000⟩, ⟨500, 1000⟩⟩ defaultTolerance true =
      (true, [⟨⟨100, 1000⟩, ⟨600, 1000⟩⟩]) :=
  extend_forced_merge [⟨⟨100, 1000⟩, ⟨300, 1000⟩⟩, s46] s46 s25 defaultTolerance
    (by decide) (by decide)
    (by
      intro x hx
      simp only [List.mem_cons, List.mem_singleton, List.not_mem_nil, or_false] at hx
      rcases hx with rfl | rfl <;> exact ⟨by decide, by decide⟩)
    ⟨by decide, by decide⟩
/-- C12. For a non-negative tolerance, if the span `B` starts after the end of
the last span `A` of the track by more than the tolerance, `extend` returns
true and appends `B` as the new last span, the spans of the track being kept
as they are; the bounding box of the new track runs from the start of the
first span to the end of `B`.  The spans `(0.1s, 0.2s)` and `(0.4s, 0.6s)` on
an empty track give two spans with bounding box `[0.1s, 0.6s]`, with or
without forced merging. -/
theorem extend_appends_after_gap (track : List Timespan) (A B : Timespan) (tolerance : TTime)
    (forceMerge : Bool) (hlast : track.getLast? = some A) (htol : 0 ≤ tolerance.time_)
    (hafter : startsAfter tolerance A B = true) :
    extend track B tolerance forceMerge = (true, track ++ [B]) ∧
    (∃ first, track.head? = some first ∧
      bbox (extend track B tolerance forceMerge).2 = some ⟨first.t0_, B.t1_⟩) ∧
    extend (extend [] s12 defaultTolerance false).2 s46 defaultTolerance false =
      (true, [s12, s46]) ∧
    extend (extend [] s12 defaultTolerance false).2 s46 defaultTolerance true =
      (true, [s12, s46]) ∧
    bbox [s12, s46] = some ⟨⟨100, 1000⟩, ⟨600, 1000⟩⟩ := by
  have hnot : withinTolerance tolerance A B = false := by
    unfold withinTolerance
    unfold startsAfter at hafter
    rw [hafter]; simp
  have hnb : startsBefore tolerance A B = false := by
    unfold startsBefore
    unfold startsAfter at hafter
    simp only [TTime.exactLt, TTime.exactNeg, decide_eq_true_eq, decide_eq_false_iff_not,
      not_lt] at hafter ⊢
    have hg : (0 : Int) ≤ ((A.gap B).base_ : Int) := by positivity
    have : 0 ≤ tolerance.time_ * ((A.gap B).base_ : Int) := mul_nonneg htol hg
    nlinarith
  have he : extend track B tolerance forceMerge = (true, track ++ [B]) := by
    simp [extend, hlast, hnot, hnb]
  refine ⟨he, ?_, by decide, by decide, by decide⟩
  rw [he]
  cases track with
  | nil => simp at hlast
  | cons f fs =>
    refine ⟨f, rfl, ?_⟩
    have hl : (f :: (fs ++ [B])).getLast? = some B := by
      rw [← List.cons_append, List.getLast?_append]
      simp
    simp [bbox, hl]

/-- Witness for C12: the span `s46` after the span `s12`. -/
theorem extend_appends_after_gap_witness :
    extend [s12] s46 defaultTolerance false = (true, [s12] ++ [s46]) ∧
    (∃ first, [s12].head? = some first ∧
      bbox (extend [s12] s46 defaultTolerance false).2 = some ⟨first.t0_, s46.t1_⟩) ∧
    extend (extend [] s12 defaultTolerance false).2 s46 defaultTolerance false =
      (true, [s12, s46]) ∧
    extend (extend [] s12 defaultTolerance false).2 s46 defaultTolerance true =
      (true, [s12, s46]) ∧
    bbox [s12, s46] = some ⟨⟨100, 1000⟩, ⟨600, 1000⟩⟩ :=
  extend_appends_after_gap [s12] s12 s46 defaultTolerance false (by decide) (by decide)
    (by decide)

/-! ### Track: open, unsupported codec, candidate order -/

/-- C14. The function `Track::open` is idempotent: with an active codec context
it returns that context and leaves the track as it is, and for every track a
second call right after the first returns the same pointer and leaves the
same track as the first call did. -/
theorem open_idempotent (found : List AVCodecContext) (t : Track) :
    (∀ c, t.codecContext_ = some c → Track.open found t = (t, some c)) ∧
    Track.open found (Track.open found t).1 = Track.open found t := by
  have h1 : ∀ c, t.codecContext_ = some c → Track.open found t = (t, some c) := by
    intro c hc
    unfold Track.open
    rw [hc]
  refine ⟨h1, ?_⟩
  cases hc : t.codecContext_ with
  | some c => rw [h1 c hc]; exact h1 c hc
  | none =>
    cases hs : t.stream_ with
    | none =>
      have : Track.open found t = (t, none) := by
        unfold Track.open
        rw [hc, hs]
      rw [this]; exact this
    | some st =>
      cases hl : (if t.candidates_.isEmpty then found else t.candidates_) with
      | nil =>
        have hcand : t.candidates_ = [] := by
          cases hcs : t.candidates_ with
          | nil => rfl
          | cons x xs => rw [hcs] at hl; simp at hl
        have hfound : found = [] := by
          rw [hcand] at hl; simpa using hl
        subst hfound
        obtain ⟨ctx, sm, cd, rc, hn, se, re, er, pk, hd, sw⟩ := t
        simp only at hc hs hcand
        subst hc hs hcand
        by_cases htext : st.codec_id = AV_CODEC_ID_TEXT
        · simp [Track.open, find_best_decoder_for, htext]
        · simp [Track.open, find_best_decoder_for, htext]
      | cons c rest =>
        have ho := open_of_candidate found t st c rest hs hc hl
        rw [ho]
        unfold Track.open
        rfl

/-- The function `Track::open` on a track of a stream other than plain text for
which no decoder opens: null, and the track is left as it is. -/
theorem open_unsupported (st : AVStream) (hst : st.codec_id ≠ AV_CODEC_ID_TEXT)
    (t : Track) (hs : t.stream_ = some st) (hc : t.codecContext_ = none)
    (hcand : t.candidates_ = []) : Track.open [] t = (t, none) := by
  obtain ⟨sm, ctx, cd, rc, hn, se, re, er, pk, hd, sw⟩ := t
  simp only at hs hc hcand
  subst hs hc hcand
  simp [Track.open, find_best_decoder_for, hst]

/-- One `Track::decode(packet)` on a track for which no decoder opens: nothing
but the pending recommendation flag changes. -/
theorem decode_unsupported_step (st : AVStream) (hst : st.codec_id ≠ AV_CODEC_ID_TEXT)
    (t : Track) (hs : t.stream_ = some st) (hc : t.codecContext_ = none)
    (hcand : t.candidates_ = []) (hrec : t.recommended_ = []) (pkt : AvPkt) :
    ∃ t', Track.decode [] t (some pkt) = .ok t' ∧ t'.stream_ = some st ∧
      t'.codecContext_ = none ∧ t'.candidates_ = [] ∧ t'.recommended_ = [] ∧
      t'.handled_ = t.handled_ ∧ t'.packets_ = t.packets_ ∧ t'.sent_ = t.sent_ ∧
      t'.received_ = t.received_ ∧ t'.errors_ = t.errors_ := by
  have ha : ∃ t2, t.applyRecommended pkt = .ok t2 ∧ t2.stream_ = some st ∧
      t2.codecContext_ = none ∧ t2.candidates_ = [] ∧ t2.recommended_ = [] ∧
      t2.handled_ = t.handled_ ∧ t2.packets_ = t.packets_ ∧ t2.sent_ = t.sent_ ∧
      t2.received_ = t.received_ ∧ t2.errors_ = t.errors_ := by
    unfold Track.applyRecommended
    split_ifs
    · simp only [Track.flush, hc]
      exact ⟨_, rfl, hs, rfl, hrec, rfl, rfl, rfl, rfl, rfl, rfl⟩
    · exact ⟨t, rfl, hs, hc, hcand, hrec, rfl, rfl, rfl, rfl, rfl⟩
  obtain ⟨t2, e2, s2, c2, k2, r2, h2, p2, n2, v2, x2⟩ := ha
  have ho := open_unsupported st hst t2 s2 c2 k2
  refine ⟨t2, ?_, s2, c2, k2, r2, h2, p2, n2, v2, x2⟩
  simp only [Track.decode, Track.decodeHead, e2, ho]

/-- C15. For a stream other than plain text for which no decoder opens (the
registry finds none, the track holds no codec context and no candidate),
`Track::open` returns no codec context, and every sequence of
`Track::decode(packet)` calls returns normally, hands no frame to `handle`,
leaves the retained history as it is and leaves the sent, received and error
counters unchanged. -/
theorem decode_unsupported_noop (st : AVStream) (hst : st.codec_id ≠ AV_CODEC_ID_TEXT)
    (pkts : List AvPkt) (t : Track) (hs : t.stream_ = some st) (hc : t.codecContext_ = none)
    (hcand : t.candidates_ = []) (hrec : t.recommended_ = []) :
    (Track.open [] t).2 = none ∧
    ∃ t', Track.run [] t (pkts.map some) = .ok t' ∧ t'.codecContext_ = none ∧
      t'.handled_ = t.handled_ ∧ t'.packets_ = t.packets_ ∧ t'.sent_ = t.sent_ ∧
      t'.received_ = t.received_ ∧ t'.errors_ = t.errors_ := by
  constructor
  · obtain ⟨t1, e1, _, _⟩ := open_of_none t hc hcand
    rw [e1]
  · induction pkts generalizing t with
    | nil => exact ⟨t, rfl, hc, rfl, rfl, rfl, rfl, rfl⟩
    | cons p ps ih =>
      obtain ⟨t1, e1, s1, c1, k1, r1, h1, p1, n1, v1, x1⟩ :=
        decode_unsupported_step st hst t hs hc hcand hrec p
      obtain ⟨t2, e2, c2, h2, p2, n2, v2, x2⟩ := ih t1 s1 c1 k1 r1
      refine ⟨t2, ?_, c2, h2.trans h1, p2.trans p1, n2.trans n1, v2.trans v1, x2.trans x1⟩
      simp only [List.map_cons, Track.run, e1]
      exact e2

/-- Witness for C15: three packets on a new track of a stream without decoder. -/
theorem decode_unsupported_noop_witness :
    (Track.open [] (Track.init 27)).2 = none ∧
    ∃ t', Track.run [] (Track.init 27) ([pktN 0, pktKey, pktN 2].map some) = .ok t' ∧
      t'.codecContext_ = none ∧
      t'.handled_ = (Track.init 27).handled_ ∧ t'.packets_ = (Track.init 27).packets_ ∧
      t'.sent_ = (Track.init 27).sent_ ∧
      t'.received_ = (Track.init 27).received_ ∧ t'.errors_ = (Track.init 27).errors_ :=
  decode_unsupported_noop ⟨27⟩ (by decide) [pktN 0, pktKey, pktN 2] (Track.init 27) rfl rfl
    rfl rfl

/-- One decoder switch on a track with a stream whose candidate list starts
with `c`: the codec context becomes `c`, fed with some of the retained
packets, and the other candidates stay. -/
theorem switchDecoder_first (found : List AVCodecContext) (t : Track) (st : AVStream)
    (c : AVCodecContext) (rest : List AVCodecContext) (hs : t.stream_ = some st)
    (hcand : t.candidates_ = c :: rest) :
    ∃ t' more, t.switchDecoder found = .ok (t', false) ∧
      t'.codecContext_ = some { c with sent := c.sent ++ more } ∧
      t'.candidates_ = rest ∧ t'.stream_ = some st := by
  have ho := open_of_candidate found
    { t with switches_ := t.switches_ + 1, codecContext_ := none } st c rest hs rfl
    (by simp [hcand])
  obtain ⟨t2, more, e2, c2, _, s2, k2, _, _⟩ := replay_some t.packets_
    { t with switches_ := t.switches_ + 1, codecContext_ := some c, candidates_ := rest,
             sent_ := 0, received_ := 0, errors_ := 0 } c rfl
  refine ⟨t2, more, ?_, c2, k2, s2.trans hs⟩
  unfold Track.switchDecoder
  simp only [ho]
  rw [e2]

/-- C19. On a track with a stream, no active codec context and a non-empty
candidate list, `Track::open` makes the first candidate the active codec
context and leaves the other candidates, in their order, as the list; and
`k` decoder switches in a row, `k` at most the length of the list, leave the
`k`-th candidate active and the list without its first `k` candidates. -/
theorem open_takes_candidates_in_order (found : List AVCodecContext) (st : AVStream)
    (k : Nat) (t : Track) (c : AVCodecContext) (rest : List AVCodecContext)
    (hs : t.stream_ = some st) (hcand : t.candidates_ = c :: rest)
    (hk : k ≤ (c :: rest).length) :
    (t.codecContext_ = none →
      Track.open found t =
        ({ t with codecContext_ := some c, candidates_ := rest,
                  sent_ := 0, received_ := 0, errors_ := 0 }, some c)) ∧
    ∃ t', Track.switchTimes found k t = .ok t' ∧ t'.candidates_ = (c :: rest).drop k ∧
      ∀ j, k = j + 1 →
        ∃ cj more, (c :: rest)[j]? = some cj ∧
          t'.codecContext_ = some { cj with sent := cj.sent ++ more } := by
  constructor
  · intro hc
    exact open_of_candidate found t st c rest hs hc (by simp [hcand])
  · induction k generalizing t c rest with
    | zero => exact ⟨t, rfl, by simpa using hcand, by intro j hj; omega⟩
    | succ n ih =>
      obtain ⟨t1, more, e1, c1, k1, s1⟩ := switchDecoder_first found t st c rest hs hcand
      simp only [Track.switchTimes, e1]
      cases n with
      | zero =>
        refine ⟨t1, rfl, by simpa using k1, ?_⟩
        intro j hj
        have : j = 0 := by omega
        subst this
        exact ⟨c, more, by simp, c1⟩
      | succ m =>
        cases rest with
        | nil => simp at hk
        | cons c2 rest2 =>
          obtain ⟨t2, e2, d2, a2⟩ := ih t1 c2 rest2 s1 k1 (by simpa using hk)
          refine ⟨t2, e2, by simpa using d2, ?_⟩
          intro j hj
          obtain ⟨cj, mr, g1, g2⟩ := a2 m rfl
          have : j = m + 1 := by omega
          subst this
          exact ⟨cj, mr, by simpa using g1, g2⟩

/-- Witness for C19: two switches on a track with candidates 2, 3, 4. -/
theorem open_takes_candidates_in_order_witness :
    ({ trackOpened with candidates_ := [acceptAll 2, acceptAll 3, acceptAll 4] }.codecContext_ =
        none →
      Track.open [] { trackOpened with candidates_ := [acceptAll 2, acceptAll 3, acceptAll 4] } =
        ({ ({ trackOpened with
                candidates_ := [acceptAll 2, acceptAll 3, acceptAll 4] } : Track) with
              codecContext_ := some (acceptAll 2), candidates_ := [acceptAll 3, acceptAll 4],
              sent_ := 0, received_ := 0, errors_ := 0 }, some (acceptAll 2))) ∧
    ∃ t', Track.switchTimes [] 2
        { trackOpened with candidates_ := [acceptAll 2, acceptAll 3, acceptAll 4] } = .ok t' ∧
      t'.candidates_ = (acceptAll 2 :: [acceptAll 3, acceptAll 4]).drop 2 ∧
      ∀ j, 2 = j + 1 →
        ∃ cj more, (acceptAll 2 :: [acceptAll 3, acceptAll 4])[j]? = some cj ∧
          t'.codecContext_ = some { cj with sent := cj.sent ++ more } :=
  open_takes_candidates_in_order [] ⟨27⟩ 2
    { trackOpened with candidates_ := [acceptAll 2, acceptAll 3, acceptAll 4] }
    (acceptAll 2) [acceptAll 3, acceptAll 4] rfl rfl (by decide)

/-! ### Track: decoder recommendation -/

/-- The loop of `Track::tryToSwitchDecoder` is a stable partition: the
candidates of the given name follow `a` in their order, the others follow `b`
in theirs. -/
theorem splitByName_eq (name : Nat) (l : List AVCodecContext) :
    ∀ a b : List AVCodecContext,
      splitByName name l a b =
        (a ++ l.filter (fun c => decide (name = c.name)),
         b ++ l.filter (fun c => !decide (name = c.name))) := by
  induction l with
  | nil => intro a b; simp [splitByName]
  | cons c cs ih =>
    intro a b
    by_cases h : name = c.name
    · rw [splitByName, if_pos h, ih]
      simp [List.filter_cons, h]
    · rw [splitByName, if_neg h, ih]
      simp [List.filter_cons, h]

/-- C16. On a track with a stream, `Track::tryToSwitchDecoder(name)` sets the
recommendation flag and builds the recommended list as the candidates found
for the stream whose codec name is `name`, in their order, followed by the
other candidates, in their order: a stable partition, hence a permutation of
the candidates found; if no candidate has that name the order is unchanged. -/
theorem tryToSwitchDecoder_stable_partition (found : List AVCodecContext) (name : Nat)
    (t : Track) (st : AVStream) (hs : t.stream_ = some st) :
    ∃ t', Track.tryToSwitchDecoder found name t = some t' ∧
      t'.switchDecoderToRecommended_ = true ∧
      t'.recommended_ =
        found.filter (fun c => decide (name = c.name)) ++
          found.filter (fun c => !decide (name = c.name)) ∧
      t'.recommended_.Perm found ∧
      ((∀ c ∈ found, c.name ≠ name) → t'.recommended_ = found) := by
  have he := splitByName_eq name found [] []
  refine ⟨{ t with recommended_ := (splitByName name found [] []).1 ++
      (splitByName name found [] []).2, switchDecoderToRecommended_ := true },
    by simp only [Track.tryToSwitchDecoder, hs], rfl, ?_, ?_, ?_⟩
  · simp only [he, List.nil_append]
  · simp only [he, List.nil_append]
    exact List.filter_append_perm _ _
  · intro hno
    simp only [he, List.nil_append]
    have h1 : found.filter (fun c => decide (name = c.name)) = [] := by
      rw [List.filter_eq_nil_iff]
      intro c hc
      have := hno c hc
      simp only [decide_eq_true_eq]
      exact fun h => this h.symm
    have h2 : found.filter (fun c => !decide (name = c.name)) = found := by
      rw [List.filter_eq_self]
      intro c hc
      have := hno c hc
      simp only [Bool.not_eq_true', decide_eq_false_iff_not]
      exact fun h => this h.symm
    rw [h1, h2, List.nil_append]

/-- Witness for C16: codec 2 recommended among the candidates 1, 2, 3, 2. -/
theorem tryToSwitchDecoder_stable_partition_witness :
    ∃ t', Track.tryToSwitchDecoder [acceptAll 1, acceptAll 2, rejectAll 3, rejectAll 2] 2
        (Track.init 27) = some t' ∧
      t'.switchDecoderToRecommended_ = true ∧
      t'.recommended_ =
        [acceptAll 1, acceptAll 2, rejectAll 3, rejectAll 2].filter
            (fun c => decide (2 = c.name)) ++
          [acceptAll 1, acceptAll 2, rejectAll 3, rejectAll 2].filter
            (fun c => !decide (2 = c.name)) ∧
      t'.recommended_.Perm [acceptAll 1, acceptAll 2, rejectAll 3, rejectAll 2] ∧
      ((∀ c ∈ [acceptAll 1, acceptAll 2, rejectAll 3, rejectAll 2], c.name ≠ 2) →
        t'.recommended_ = [acceptAll 1, acceptAll 2, rejectAll 3, rejectAll 2]) :=
  tryToSwitchDecoder_stable_partition [acceptAll 1, acceptAll 2, rejectAll 3, rejectAll 2] 2
    (Track.init 27) ⟨27⟩ rfl

/-- The function `Track::open` leaves the recommendation alone. -/
theorem open_hint (found : List AVCodecContext) (t : Track) :
    (Track.open found t).1.recommended_ = t.recommended_ ∧
    (Track.open found t).1.switchDecoderToRecommended_ = t.switchDecoderToRecommended_ := by
  unfold Track.open
  split
  · exact ⟨rfl, rfl⟩
  · split
    · exact ⟨rfl, rfl⟩
    · simp only []
      split_ifs <;> exact ⟨rfl, rfl⟩

/-- The replay loop leaves the recommendation alone. -/
theorem replay_hint (pkts : List AvPkt) :
    ∀ t t1 : Track, t.replay pkts = .ok t1 →
      t1.recommended_ = t.recommended_ ∧
      t1.switchDecoderToRecommended_ = t.switchDecoderToRecommended_ := by
  induction pkts with
  | nil =>
    intro t t1 h
    simp only [Track.replay, Except.ok.injEq] at h
    rw [← h]; exact ⟨rfl, rfl⟩
  | cons p ps ih =>
    intro t t1 h
    cases hc : t.codecContext_ with
    | none => simp [Track.replay, Track.decodePkt, hc] at h
    | some ctx =>
      obtain ⟨t2, err, e, _, _, _, r2, s2, _, _⟩ := decodePkt_some t ctx p hc
      simp only [Track.replay, e] at h
      split_ifs at h
      · simp only [Except.ok.injEq] at h
        rw [← h]; exact ⟨r2, s2⟩
      · obtain ⟨r3, s3⟩ := ih t2 t1 h
        exact ⟨r3.trans r2, s3.trans s2⟩

/-- A decoder switch leaves the recommendation alone. -/
theorem switchDecoder_hint (found : List AVCodecContext) (t : Track) (r : Track × Bool)
    (h : t.switchDecoder found = .ok r) :
    r.1.recommended_ = t.recommended_ ∧
    r.1.switchDecoderToRecommended_ = t.switchDecoderToRecommended_ := by
  unfold Track.switchDecoder at h
  simp only [] at h
  split at h
  · simp at h
  · rename_i t2 e
    simp only [Except.ok.injEq] at h
    rw [← h]
    obtain ⟨r2, s2⟩ := replay_hint _ _ _ e
    obtain ⟨r1, s1⟩ := open_hint found
      { t with switches_ := t.switches_ + 1, codecContext_ := none }
    exact ⟨r2.trans r1, s2.trans s1⟩

/-- Retaining a packet leaves the recommendation and the counters alone. -/
theorem retain_hint (t t1 : Track) (pkt : AvPkt) (h : t.retain pkt = .ok t1) :
    t1.recommended_ = t.recommended_ ∧
    t1.switchDecoderToRecommended_ = t.switchDecoderToRecommended_ := by
  unfold Track.retain at h
  split_ifs at h
  · split at h
    · simp at h
    · simp only [Except.ok.injEq] at h
      rw [← h]; exact ⟨rfl, rfl⟩
  · simp only [Except.ok.injEq] at h
    rw [← h]; exact ⟨rfl, rfl⟩

/-- The function `Track::flush` never faults; it leaves the stream, the
candidates and the recommendation alone and sends the empty packet to the
active codec. -/
theorem flush_fields (t : Track) :
    ∃ tf, t.flush = .ok tf ∧ tf.stream_ = t.stream_ ∧ tf.candidates_ = t.candidates_ ∧
      tf.recommended_ = t.recommended_ ∧
      tf.switchDecoderToRecommended_ = t.switchDecoderToRecommended_ ∧
      (∀ c, t.codecContext_ = some c →
        ∃ m, tf.codecContext_ = some { c with sent := c.sent ++ AvPkt.empty :: m }) := by
  unfold Track.flush
  cases hc : t.codecContext_ with
  | none => exact ⟨t, rfl, rfl, rfl, rfl, rfl, by intro c h; simp at h⟩
  | some ctx =>
    obtain ⟨t2, err, e, hm, s2, k2, r2, h2, _, _⟩ := decodePkt_some t ctx AvPkt.empty hc
    simp only [e]
    refine ⟨t2, rfl, s2, k2, r2, h2, ?_⟩
    intro c h
    simp only [Option.some.injEq] at h
    subst h
    exact hm

/-- Without the key frame flag, or without a pending recommendation, the first
part of `Track::decode` leaves the recommendation alone, and with an active
codec context it leaves the candidates alone. -/
theorem decodeHead_no_key (found : List AVCodecContext) (t : Track) (pkt : AvPkt)
    (t1 : Track) (res : Option (Nat × Int))
    (hk : (t.switchDecoderToRecommended_ && decide (pkt.flags &&& AV_PKT_FLAG_KEY ≠ 0)) = false)
    (h : Track.decodeHead found t pkt = .ok (t1, res)) :
    t1.recommended_ = t.recommended_ ∧
    t1.switchDecoderToRecommended_ = t.switchDecoderToRecommended_ ∧
    (∀ c, t.codecContext_ = some c → t1.candidates_ = t.candidates_) := by
  have ha : t.applyRecommended pkt = .ok t := by
    unfold Track.applyRecommended
    rw [hk]; rfl
  unfold Track.decodeHead at h
  rw [ha] at h
  simp only [] at h
  obtain ⟨ro, so⟩ := open_hint found t
  split at h
  · rename_i t3 e3
    simp only [Except.ok.injEq, Prod.mk.injEq] at h
    rw [e3] at ro so
    rw [← h.1]
    refine ⟨ro, so, ?_⟩
    intro c hc
    have : Track.open found t = (t, some c) := by
      unfold Track.open
      rw [hc]
    rw [this] at e3
    simp at e3
  · rename_i t3 c3 e3
    rw [e3] at ro so
    split at h
    · simp at h
    · rename_i t5 e5
      obtain ⟨r5, s5⟩ := retain_hint _ _ _ e5
      obtain ⟨_, k5, _, d5⟩ := retain_fields _ _ _ e5
      split at h
      · simp at h
      · rename_i r6 e6
        simp only [Except.ok.injEq, Prod.mk.injEq] at h
        cases hc5 : t5.codecContext_ with
        | none => simp [Track.decodePkt, hc5] at e6
        | some ctx =>
          obtain ⟨t6, err, e, _, _, k6, r6', s6, _, _⟩ := decodePkt_some t5 ctx pkt hc5
          rw [e] at e6
          simp only [Except.ok.injEq] at e6
          rw [← h.1, ← e6]
          refine ⟨r6'.trans (r5.trans ro), s6.trans (s5.trans so), ?_⟩
          intro c hc
          have : Track.open found t = (t, some c) := by
            unfold Track.open
            rw [hc]
          rw [this] at e3
          simp only [Prod.mk.injEq] at e3
          rw [k6, d5, ← e3.1]

/-- C17 (amended). On a track with a stream: `Track::decode(packet)` on a packet
without the key frame flag leaves the pending recommendation and the
recommended list unchanged and, when the call does not switch decoders (the
failover on decode errors), leaves the candidate list unchanged and the
packet with the codec context that was active.  On a packet with the key
frame flag and a recommendation pending, the old codec is flushed with the
empty packet and closed, the recommended list (non-empty) replaces the
candidates, the flag is cleared, and the packet is sent to the first decoder
of the recommended list, the others being the candidates left. -/
theorem decode_recommendation (found : List AVCodecContext) (t : Track) (pkt : AvPkt)
    (st : AVStream) (hs : t.stream_ = some st) :
    (pkt.flags &&& AV_PKT_FLAG_KEY = 0 → ∀ t', Track.decode found t (some pkt) = .ok t' →
      t'.switchDecoderToRecommended_ = t.switchDecoderToRecommended_ ∧
      t'.recommended_ = t.recommended_ ∧
      (∀ c, t.codecContext_ = some c → t'.switches_ = t.switches_ →
        t'.candidates_ = t.candidates_ ∧
        ∃ more, t'.codecContext_ = some { c with sent := c.sent ++ pkt :: more })) ∧
    (pkt.flags &&& AV_PKT_FLAG_KEY ≠ 0 → t.switchDecoderToRecommended_ = true →
      ∀ r rs, t.recommended_ = r :: rs →
        ∃ tf t1 prior err more,
          Track.flush { t with candidates_ := r :: rs, recommended_ := [],
                               switchDecoderToRecommended_ := false } = .ok tf ∧
          (∀ c, t.codecContext_ = some c →
            ∃ m, tf.codecContext_ = some { c with sent := c.sent ++ AvPkt.empty :: m }) ∧
          Track.decodeHead found t pkt = .ok (t1, some (prior, err)) ∧
          t1.codecContext_ = some { r with sent := r.sent ++ pkt :: more } ∧
          t1.candidates_ = rs ∧ t1.switchDecoderToRecommended_ = false ∧
          t1.recommended_ = []) := by
  constructor
  · intro hnokey t' h
    have hk : (t.switchDecoderToRecommended_ &&
        decide (pkt.flags &&& AV_PKT_FLAG_KEY ≠ 0)) = false := by simp [hnokey]
    unfold Track.decode at h
    simp only [] at h
    cases hh : Track.decodeHead found t pkt with
    | error e => rw [hh] at h; simp at h
    | ok p =>
      obtain ⟨t1, res⟩ := p
      obtain ⟨r1, s1, k1⟩ := decodeHead_no_key found t pkt t1 res hk hh
      have w1 := decodeHead_switches found t pkt t1 res hh
      rw [hh] at h
      cases res with
      | none =>
        simp only [Except.ok.injEq] at h
        subst h
        refine ⟨s1, r1, fun c hc _ => ⟨k1 c hc, decodeHead_codec found t pkt _ _ c hh hc hk⟩⟩
      | some pe =>
        obtain ⟨prior, err⟩ := pe
        simp only [Track.decodeTail] at h
        split_ifs at h with h1 h2
        · simp only [Except.ok.injEq] at h
          subst h
          exact ⟨s1, r1, fun c hc _ => ⟨k1 c hc, decodeHead_codec found t pkt t1 _ c hh hc hk⟩⟩
        · cases hsw : t1.switchDecoder found with
          | error e => rw [hsw] at h; simp at h
          | ok r =>
            rw [hsw] at h
            simp only [Except.ok.injEq] at h
            subst h
            obtain ⟨r2, s2⟩ := switchDecoder_hint found t1 r hsw
            have w2 := switchDecoder_switches found t1 r hsw
            refine ⟨s2.trans s1, r2.trans r1, ?_⟩
            intro c _ hsame
            omega
        · simp only [Except.ok.injEq] at h
          subst h
          exact ⟨s1, r1, fun c hc _ => ⟨k1 c hc, decodeHead_codec found t pkt _ _ c hh hc hk⟩⟩
  · intro hkey hhint r rs hrec
    obtain ⟨tf, ef, sf, kf, rf, hf, cf⟩ := flush_fields
      { t with candidates_ := r :: rs, recommended_ := [], switchDecoderToRecommended_ := false }
    have ha : t.applyRecommended pkt = .ok { tf with codecContext_ := none } := by
      unfold Track.applyRecommended
      have : (t.switchDecoderToRecommended_ &&
          decide (pkt.flags &&& AV_PKT_FLAG_KEY ≠ 0)) = true := by simp [hhint, hkey]
      rw [if_pos this]
      simp only [hrec, ef]
    have ho := open_of_candidate found { tf with codecContext_ := none } st r rs
      (sf.trans hs) rfl (by simp [kf])
    have hr : Track.retain
        { ({ tf with codecContext_ := none } : Track) with
          codecContext_ := some r, candidates_ := rs, sent_ := 0, received_ := 0, errors_ := 0 }
        pkt =
        .ok { ({ tf with codecContext_ := none } : Track) with
          codecContext_ := some r, candidates_ := rs, sent_ := 0, received_ := 0, errors_ := 0,
          packets_ := tf.packets_ ++ [pkt] } := by
      simp [Track.retain]
    obtain ⟨t6, err, e6, ⟨more, c6⟩, _, k6, r6, h6, _, _⟩ := decodePkt_some
      { ({ tf with codecContext_ := none } : Track) with
          codecContext_ := some r, candidates_ := rs, sent_ := 0, received_ := 0, errors_ := 0,
          packets_ := tf.packets_ ++ [pkt] } r pkt rfl
    refine ⟨tf, t6, 0, err, more, ef, cf, ?_, c6, k6, h6.trans hf, r6.trans rf⟩
    unfold Track.decodeHead
    rw [ha]
    simp only [ho, hr, e6]

/-- Witness for C17 (amended): the track `trackHinted` and a key frame packet. -/
theorem decode_recommendation_witness :
    (pktKey.flags &&& AV_PKT_FLAG_KEY = 0 →
      ∀ t', Track.decode [] trackHinted (some pktKey) = .ok t' →
      t'.switchDecoderToRecommended_ = trackHinted.switchDecoderToRecommended_ ∧
      t'.recommended_ = trackHinted.recommended_ ∧
      (∀ c, trackHinted.codecContext_ = some c → t'.switches_ = trackHinted.switches_ →
        t'.candidates_ = trackHinted.candidates_ ∧
        ∃ more, t'.codecContext_ = some { c with sent := c.sent ++ pktKey :: more })) ∧
    (pktKey.flags &&& AV_PKT_FLAG_KEY ≠ 0 → trackHinted.switchDecoderToRecommended_ = true →
      ∀ r rs, trackHinted.recommended_ = r :: rs →
        ∃ tf t1 prior err more,
          Track.flush { trackHinted with candidates_ := r :: rs, recommended_ := [],
                                         switchDecoderToRecommended_ := false } = .ok tf ∧
          (∀ c, trackHinted.codecContext_ = some c →
            ∃ m, tf.codecContext_ = some { c with sent := c.sent ++ AvPkt.empty :: m }) ∧
          Track.decodeHead [] trackHinted pktKey = .ok (t1, some (prior, err)) ∧
          t1.codecContext_ = some { r with sent := r.sent ++ pktKey :: more } ∧
          t1.candidates_ = rs ∧ t1.switchDecoderToRecommended_ = false ∧
          t1.recommended_ = []) :=
  decode_recommendation [] trackHinted pktKey ⟨27⟩ rfl

/-- C17 (counterexample). A recommendation is pending and the packet has no key
frame flag, yet the call changes the active codec context and the candidate
list: codec 1 rejects the packet and the decoder is switched to candidate 2. -/
theorem decode_without_key_changes_codec :
    (pktN 0).flags &&& AV_PKT_FLAG_KEY = 0 ∧
    trackHinted.switchDecoderToRecommended_ = true ∧
    (trackHinted.activeCodec.map Prod.fst, trackHinted.candidates_.map (fun c => c.name)) =
      (some 1, [2]) ∧
    (Track.decode [] trackHinted (some (pktN 0))).toOption.map
      (fun t => (t.activeCodec.map Prod.fst, t.candidates_.map (fun c => c.name),
        t.switchDecoderToRecommended_)) = some (some 2, [], true) := by
  decide

/-! ### The decoder registry -/

/-- The loop of `TDecoders::find` adds to each list the decoders of its group
that open. -/
theorem findLoop_eq (tryToOpen : AVCodec → Option AVCodecContext) (params : AVCodecParameters)
    (cs : List AVCodec) :
    ∀ acc : FoundDecoders,
      (TDecoders.findLoop tryToOpen params cs acc).experimental =
        acc.experimental ++ (cs.filter (fun c => c.isExperimental)).filterMap tryToOpen ∧
      (TDecoders.findLoop tryToOpen params cs acc).software =
        acc.software ++
          (cs.filter (fun c => !c.isExperimental && !c.isCuvid && !c.isOtherHardware)).filterMap
            tryToOpen ∧
      (TDecoders.findLoop tryToOpen params cs acc).hardware =
        ((cs.filter (fun c => !c.isExperimental && c.isCuvid &&
            !(decide (params.format ≠ AV_PIX_FMT_YUV420P) &&
              decide (params.codec_id ≠ AV_CODEC_ID_MJPEG)))).filterMap tryToOpen).reverse ++
          acc.hardware ++
          (cs.filter (fun c => !c.isExperimental && !c.isCuvid && c.isOtherHardware &&
            !c.name.endsWith "_vda")).filterMap tryToOpen := by
  induction cs with
  | nil => intro acc; simp [TDecoders.findLoop]
  | cons c cs ih =>
    intro acc
    cases he : c.isExperimental <;> cases hc : c.isCuvid <;> cases ho : c.isOtherHardware <;>
      cases hv : c.name.endsWith "_vda" <;> cases ht : tryToOpen c <;>
      by_cases h1 : params.format = AV_PIX_FMT_YUV420P <;>
      by_cases h2 : params.codec_id = AV_CODEC_ID_MJPEG <;>
      simp [TDecoders.findLoop, he, hc, ho, hv, ht, h1, h2, ih, List.filter_cons,
        List.filterMap_cons]

/-- A context of a list `filterMap tryToOpen` over decoders of the codec id is
the opened context of such a decoder. -/
theorem mem_opened (decoders : List AVCodec) (tryToOpen : AVCodec → Option AVCodecContext)
    (params : AVCodecParameters) (p : AVCodec → Bool) (ctx : AVCodecContext)
    (h : ctx ∈ ((decoders.filter (fun c => decide (c.id = params.codec_id))).filter
      p).filterMap tryToOpen) :
    ∃ c ∈ decoders, c.id = params.codec_id ∧ tryToOpen c = some ctx := by
  obtain ⟨c, hc, ho⟩ := List.mem_filterMap.mp h
  have h1 := (List.mem_filter.mp hc).1
  have h2 := List.mem_filter.mp h1
  exact ⟨c, h2.1, by simpa using h2.2, ho⟩

/-- C18. The list that `TDecoders::find` produces is the software group, the
hardware group and the experimental group in this order when software is
preferred, and the hardware group, the software group and the experimental
group otherwise; the experimental group is last in both, the two lists hold
the same candidates, and each candidate is the context of a decoder of the
codec id that opened. -/
theorem find_concatenates_groups (decoders : List AVCodec)
    (tryToOpen : AVCodec → Option AVCodecContext) (params : AVCodecParameters) :
    TDecoders.find decoders tryToOpen params true =
      softwareGroup decoders tryToOpen params ++ hardwareGroup decoders tryToOpen params ++
        experimentalGroup decoders tryToOpen params ∧
    TDecoders.find decoders tryToOpen params false =
      hardwareGroup decoders tryToOpen params ++ softwareGroup decoders tryToOpen params ++
        experimentalGroup decoders tryToOpen params ∧
    (TDecoders.find decoders tryToOpen params true).Perm
      (TDecoders.find decoders tryToOpen params false) ∧
    ∀ (preferSoftwareDecoder : Bool),
      ∀ ctx ∈ TDecoders.find decoders tryToOpen params preferSoftwareDecoder,
        ∃ c ∈ decoders, c.id = params.codec_id ∧ tryToOpen c = some ctx := by
  obtain ⟨he, hs, hh⟩ := findLoop_eq tryToOpen params
    (decoders.filter (fun c => decide (c.id = params.codec_id)))
    { hardware := [], software := [], experimental := [] }
  simp only [List.nil_append, List.append_nil] at he hs hh
  have ht : TDecoders.find decoders tryToOpen params true =
      softwareGroup decoders tryToOpen params ++ hardwareGroup decoders tryToOpen params ++
        experimentalGroup decoders tryToOpen params := by
    simp only [TDecoders.find, if_true, he, hs, hh, softwareGroup, hardwareGroup,
      experimentalGroup]
  have hf : TDecoders.find decoders tryToOpen params false =
      hardwareGroup decoders tryToOpen params ++ softwareGroup decoders tryToOpen params ++
        experimentalGroup decoders tryToOpen params := by
    simp only [TDecoders.find, Bool.false_eq_true, if_false, he, hs, hh, softwareGroup,
      hardwareGroup, experimentalGroup]
  have hmem : ∀ ctx,
      ctx ∈ hardwareGroup decoders tryToOpen params ++ softwareGroup decoders tryToOpen params ++
        experimentalGroup decoders tryToOpen params →
      ∃ c ∈ decoders, c.id = params.codec_id ∧ tryToOpen c = some ctx := by
    intro ctx hctx
    simp only [List.mem_append, hardwareGroup, List.mem_reverse, softwareGroup,
      experimentalGroup] at hctx
    rcases hctx with ((h | h) | h) | h
    · exact mem_opened decoders tryToOpen params _ ctx h
    · exact mem_opened decoders tryToOpen params _ ctx h
    · exact mem_opened decoders tryToOpen params _ ctx h
    · exact mem_opened decoders tryToOpen params _ ctx h
  have hperm : (TDecoders.find decoders tryToOpen params true).Perm
      (TDecoders.find decoders tryToOpen params false) := by
    rw [ht, hf]
    exact List.Perm.append_right _ List.perm_append_comm
  refine ⟨ht, hf, hperm, ?_⟩
  intro prefer ctx hctx
  cases prefer
  · rw [hf] at hctx
    exact hmem ctx hctx
  · exact hmem ctx (by rw [← hf]; exact hperm.subset hctx)

/-! ### AudioTrack: playback interval -/

/-- One frame check leaves the playback interval and the sample rate alone. -/
theorem checkFrame_interval (api : TTimeApi) (t : AudioTrack) (pts : Int) :
    (t.checkFrame api pts).playbackEnabled_ = t.playbackEnabled_ ∧
    (t.checkFrame api pts).timeIn_ = t.timeIn_ ∧
    (t.checkFrame api pts).timeOut_ = t.timeOut_ ∧
    (t.checkFrame api pts).sampleRate_ = t.sampleRate_ := by
  unfold AudioTrack.checkFrame
  dsimp only
  split_ifs <;> simp

/-- The frame checks leave the playback interval and the sample rate alone. -/
theorem checkFrames_interval (api : TTimeApi) (l : List Int) :
    ∀ t : AudioTrack,
      (AudioTrack.checkFrames api t l).playbackEnabled_ = t.playbackEnabled_ ∧
      (AudioTrack.checkFrames api t l).timeIn_ = t.timeIn_ ∧
      (AudioTrack.checkFrames api t l).timeOut_ = t.timeOut_ ∧
      (AudioTrack.checkFrames api t l).sampleRate_ = t.sampleRate_ := by
  induction l with
  | nil => intro t; simp [AudioTrack.checkFrames]
  | cons p ps ih =>
    intro t
    obtain ⟨h1, h2, h3, h4⟩ := ih (t.checkFrame api p)
    obtain ⟨g1, g2, g3, g4⟩ := checkFrame_interval api t p
    simp only [AudioTrack.checkFrames]
    exact ⟨h1.trans g1, h2.trans g2, h3.trans g3, h4.trans g4⟩

/-- The interval test of `AudioTrack::decode` as written: a frame that the
codec delivered and that got the time stamp `s` is kept out of the frame queue
exactly when the playback interval is enabled and `t > timeOut_` or
`t + dt < timeIn_`, both comparisons strict. -/
theorem decode_discards_iff (api : TTimeApi) (t : AudioTrack) (packet : AvPkt)
    (o : AudioCodecOut) (s : Stamp)
    (hs : (AudioTrack.decode api t packet o).2.stamp = some s) :
    ((AudioTrack.decode api t packet o).2.pushed = false ↔
      t.playbackEnabled_ = true ∧
        (s.time_.toSeconds > t.timeOut_ ∨
          s.time_.toSeconds + (o.numOutputSamples : ℚ) / (t.sampleRate_ : ℚ) < t.timeIn_)) := by
  obtain ⟨h1, h2, h3, h4⟩ := checkFrames_interval api o.framePts t
  unfold AudioTrack.decode at hs ⊢
  dsimp only at hs ⊢
  generalize AudioTrack.checkFrames api t o.framePts = t1 at *
  generalize AudioTrack.stampPTS api _ packet o.numOutputSamples = s1 at *
  obtain ⟨tm, g⟩ := s1
  cases hr : (o.returned || decide (o.numOutputSamples = 0))
  · rw [hr] at hs
    simp only [Bool.false_eq_true, if_false] at hs ⊢
    have hp : ∀ x : AudioTrack, (if g = true then
        { t1 with samplesDecoded_ := t1.samplesDecoded_ + o.numOutputSamples,
                  hasPrevPTS_ := true, prevPTS_ := tm,
                  prevNumSamples_ := o.numOutputSamples }
        else { t1 with samplesDecoded_ := t1.samplesDecoded_ + o.numOutputSamples }) = x →
        x.playbackEnabled_ = t.playbackEnabled_ ∧ x.timeIn_ = t.timeIn_ ∧
        x.timeOut_ = t.timeOut_ ∧ x.sampleRate_ = t.sampleRate_ := by
      intro x hx
      subst hx
      cases g <;> simp [h1, h2, h3, h4]
    generalize hx : (if g = true then
        { t1 with samplesDecoded_ := t1.samplesDecoded_ + o.numOutputSamples,
                  hasPrevPTS_ := true, prevPTS_ := tm,
                  prevNumSamples_ := o.numOutputSamples }
        else ({ t1 with samplesDecoded_ := t1.samplesDecoded_ + o.numOutputSamples } :
          AudioTrack)) = x at hs ⊢
    obtain ⟨k1, k2, k3, k4⟩ := hp x hx
    by_cases hc : (x.playbackEnabled_ && (decide (tm.toSeconds > x.timeOut_) ||
        decide (tm.toSeconds + (o.numOutputSamples : ℚ) / (x.sampleRate_ : ℚ) < x.timeIn_))) = true
    · rw [if_pos hc] at hs ⊢
      simp only [Option.some.injEq] at hs
      subst hs
      rw [k1, k2, k3, k4] at hc
      simpa using hc
    · rw [if_neg hc] at hs ⊢
      simp only [Option.some.injEq] at hs
      subst hs
      rw [k1, k2, k3, k4] at hc
      simpa using hc
  · rw [hr] at hs
    simp at hs
/-- C20 (code at the failing input). The playback interval is `[0, 1)` seconds
and enabled; a frame that starts at exactly one second, `t = timeOut_`, is
pushed to the frame queue by `AudioTrack::decode` (its test is
`t > timeOut_`), although it lies outside the interval and
`AudioTrack::getNextFrame` drops it (its test is `t < timeOut_`). -/
theorem decode_pushes_frame_at_time_out :
    audioTrackInterval.playbackEnabled_ = true ∧ audioTrackInterval.timeOut_ = 1 ∧
    (AudioTrack.decode TTime.exactApi audioTrackInterval audioAtTimeOut.1
      audioAtTimeOut.2).2 = { reset := false, stamp := some ⟨⟨1000, 1000⟩, true⟩, pushed := true } ∧
    (AudioTrack.decode TTime.exactApi audioTrackInterval audioAtTimeOut.1
      audioAtTimeOut.2).1.frameQueue_ = [⟨⟨1000, 1000⟩, 1024⟩] ∧
    (⟨1000, 1000⟩ : TTime).toSeconds ≥ audioTrackInterval.timeOut_ ∧
    audioTrackInterval.getNextFrameKeeps ⟨⟨1000, 1000⟩, 1024⟩ = false := by
  have hc : AudioTrack.checkFrames TTime.exactApi audioTrackInterval [1000] =
      audioTrackInterval := rfl
  have hs : AudioTrack.stampPTS TTime.exactApi
      { audioTrackInterval with samplesDecoded_ := audioTrackInterval.samplesDecoded_ + 1024 }
      audioAtTimeOut.1 1024 = ⟨⟨1000, 1000⟩, true⟩ := by decide
  have hd : AudioTrack.decode TTime.exactApi audioTrackInterval audioAtTimeOut.1
      audioAtTimeOut.2 =
      ({ audioTrackInterval with
          samplesDecoded_ := 1024, hasPrevPTS_ := true, prevPTS_ := ⟨1000, 1000⟩,
          prevNumSamples_ := 1024, frameQueue_ := [⟨⟨1000, 1000⟩, 1024⟩] },
        { reset := false, stamp := some ⟨⟨1000, 1000⟩, true⟩, pushed := true }) := by
    have ho : audioAtTimeOut.2 =
        { framePts := [1000], returned := false, numOutputSamples := 1024 } := rfl
    rw [AudioTrack.decode, ho]
    simp only [hc, hs]
    simp [audioTrackInterval, AudioTrack.setPlaybackInterval, audioTrack0, TTime.toSeconds]
    norm_num
  refine ⟨rfl, rfl, ?_, ?_, ?_, ?_⟩
  · rw [hd]
  · rw [hd]
  · simp [TTime.toSeconds, audioTrackInterval, AudioTrack.setPlaybackInterval]
  · simp [AudioTrack.getNextFrameKeeps, TTime.toSeconds, audioTrackInterval,
      AudioTrack.setPlaybackInterval]

/-! ### ChannelGuide::Item -/

/-- The test of `Item::overlaps` spelled out: none of the two items starts after
the end of the other. -/
theorem overlaps_iff (a b : ChannelGuide.Item) :
    a.overlaps b = true ↔ a.t0_ ≤ b.t1 ∧ b.t0_ ≤ a.t1 := by
  simp [ChannelGuide.Item.overlaps, ChannelGuide.Item.disjoint]

/-- C30 (code at the failing input). `Item::overlaps` is symmetric, and two
items that share a time point overlap; but the item `[0, 10)` and the item
`[10, 20)`, the first ending exactly when the second starts, overlap according
to `Item::overlaps` although no time point is contained in both. -/
theorem overlaps_touching_items :
    (∀ a b : ChannelGuide.Item, a.overlaps b = b.overlaps a) ∧
    (∀ (a b : ChannelGuide.Item) (t : Nat),
      a.contains t = true → b.contains t = true → a.overlaps b = true) ∧
    (⟨0, 10⟩ : ChannelGuide.Item).t1 = 10 ∧ (⟨10, 10⟩ : ChannelGuide.Item).t0_ = 10 ∧
    (⟨0, 10⟩ : ChannelGuide.Item).overlaps ⟨10, 10⟩ = true ∧
    (⟨10, 10⟩ : ChannelGuide.Item).overlaps ⟨0, 10⟩ = true ∧
    ∀ t : Nat, ¬ ((⟨0, 10⟩ : ChannelGuide.Item).contains t = true ∧
      (⟨10, 10⟩ : ChannelGuide.Item).contains t = true) := by
  refine ⟨?_, ?_, by decide, rfl, by decide, by decide, ?_⟩
  · intro a b
    rw [Bool.eq_iff_iff, overlaps_iff, overlaps_iff]
    tauto
  · intro a b t ha hb
    rw [overlaps_iff]
    simp [ChannelGuide.Item.contains] at ha hb
    omega
  · intro t
    simp [ChannelGuide.Item.contains, ChannelGuide.Item.t1]
    omega

/-! ### SubtitlesTrack -/

/-- The loop of `expungeOldSubs` keeps the frames that end after `v0`, in their
order. -/
theorem expungeLoop_eq (sec : TTime → ℚ) (v0 : ℚ) (l : List TSubsFrame) :
    expungeLoop sec v0 l = l.filter (fun sf => !decide (sec sf.tEnd_ ≤ v0)) := by
  induction l with
  | nil => rfl
  | cons sf rest ih =>
    by_cases h : sec sf.tEnd_ ≤ v0
    · rw [expungeLoop, if_pos h, ih]; simp [List.filter_cons, h]
    · rw [expungeLoop, if_neg h, ih]; simp [List.filter_cons, h]

/-- The loop of `get` appends the frames with `s0 < v1` and `v0 < s1`, in their
order. -/
theorem getLoop_eq (sec : TTime → ℚ) (v0 v1 : ℚ) (l : List TSubsFrame) :
    ∀ subs, getLoop sec v0 v1 l subs =
      subs ++ l.filter (fun sf => decide (sec sf.time_ < v1) && decide (v0 < sec sf.tEnd_)) := by
  induction l with
  | nil => intro subs; simp [getLoop]
  | cons sf rest ih =>
    intro subs
    by_cases h : sec sf.time_ < v1 ∧ v0 < sec sf.tEnd_
    · rw [getLoop, if_pos h, ih]
      have h' : (decide (sec sf.time_ < v1) && decide (v0 < sec sf.tEnd_)) = true := by
        simpa using h
      simp [List.filter_cons, h']
    · rw [getLoop, if_neg h, ih]
      have h' : (decide (sec sf.time_ < v1) && decide (v0 < sec sf.tEnd_)) = false := by
        simpa using h
      simp [List.filter_cons, h']

/-- C29. `SubtitlesTrack::expungeOldSubs(v0)` removes exactly the active frames
whose end time is at most `v0` and keeps the others in their order;
`SubtitlesTrack::get(w0, w1)` appends exactly the active frames with start
before `w1` and end after `w0`, in their order; and for `v0 ≤ w0` the query
appends the same frames whether or not the old frames were expunged first. -/
theorem get_after_expunge (sec : TTime → ℚ) (t : SubtitlesTrack) (v0 w0 w1 : ℚ)
    (subs : List TSubsFrame) (h : v0 ≤ w0) :
    (t.expungeOldSubs sec v0).active_ =
      t.active_.filter (fun sf => !decide (sec sf.tEnd_ ≤ v0)) ∧
    t.get sec w0 w1 subs =
      subs ++ t.active_.filter
        (fun sf => decide (sec sf.time_ < w1) && decide (w0 < sec sf.tEnd_)) ∧
    (t.expungeOldSubs sec v0).get sec w0 w1 subs = t.get sec w0 w1 subs := by
  refine ⟨expungeLoop_eq sec v0 t.active_, getLoop_eq sec w0 w1 t.active_ subs, ?_⟩
  simp only [SubtitlesTrack.get, SubtitlesTrack.expungeOldSubs, getLoop_eq, expungeLoop_eq,
    List.filter_filter]
  congr 1
  apply List.filter_congr
  intro sf _
  by_cases h1 : sec sf.tEnd_ ≤ v0
  · have h2 : ¬ w0 < sec sf.tEnd_ := not_lt.mpr (le_trans h1 h)
    simp [h1, h2]
  · simp [h1]

/-- Witness for C29: three frames, the first one expunged at `v0 = 2`; the query
for `[3, 4.5)` yields the second and the third frame either way. -/
theorem get_after_expunge_witness :
    (2 : ℚ) ≤ 3 ∧
    (threeSubs.expungeOldSubs (fun x => (x.time_ : ℚ)) 2).active_ =
      threeSubs.active_.filter (fun sf => !decide (((sf.tEnd_.time_ : Int) : ℚ) ≤ 2)) ∧
    threeSubs.get (fun x => (x.time_ : ℚ)) 3 (9 / 2) [] =
      [] ++ threeSubs.active_.filter
        (fun sf => decide (((sf.time_.time_ : Int) : ℚ) < 9 / 2) &&
          decide ((3 : ℚ) < ((sf.tEnd_.time_ : Int) : ℚ))) ∧
    (threeSubs.expungeOldSubs (fun x => (x.time_ : ℚ)) 2).get (fun x => (x.time_ : ℚ)) 3 (9 / 2) [] =
      threeSubs.get (fun x => (x.time_ : ℚ)) 3 (9 / 2) [] :=
  ⟨by norm_num, get_after_expunge (fun x => (x.time_ : ℚ)) threeSubs 2 3 (9 / 2) [] (by norm_num)⟩

/-! ### Track: flush requests and the retained history -/

/-- C24 (code at the failing input). A decoder that accepts every packet and
hands out a frame for the first one: the history is cleared and `sent_` is
reset; 61 flush requests then raise `sent_` to 61 while the history stays
empty, and the next `Track::decode(packet)` finds `sent_ > 60` and calls
`pop_front` on the empty history. -/
theorem decode_pops_empty_history :
    (Track.run [decodesEach 1] (Track.init 27) packetThenFlushes).toOption.map
      (fun t => (t.sent_, t.packets_)) = some (61, []) ∧
    faultOf (Track.run [decodesEach 1] (Track.init 27)
      (packetThenFlushes ++ [some (pktN 1)])) = some Fault.popFrontEmpty := by
  decide

/-! ### EBML integers -/

/-- The mask `0xFF & y` keeps the low byte. -/
theorem and255 (y : Nat) : 255 &&& y = y % 256 := by
  rw [Nat.and_comm]
  exact Nat.and_pow_two_sub_one_eq_mod y 8

/-- Bitwise or of a multiple of `2 ^ k` and a value below `2 ^ k` is their sum. -/
theorem or_add (k x y : Nat) (hx : 2 ^ k ∣ x) (hy : y < 2 ^ k) : x ||| y = x + y := by
  obtain ⟨a, rfl⟩ := hx
  exact (Nat.mul_add_lt_is_or hy a).symm

/-- The lemma `or_add` for `2 ^ 8`. -/
theorem or_add8 (x y : Nat) (hx : 256 ∣ x) (hy : y < 256) : x ||| y = x + y :=
  or_add 8 x y hx hy

/-- The lemma `or_add` for `2 ^ 16`. -/
theorem or_add16 (x y : Nat) (hx : 65536 ∣ x) (hy : y < 65536) : x ||| y = x + y :=
  or_add 16 x y hx hy

/-- The lemma `or_add` for `2 ^ 24`. -/
theorem or_add24 (x y : Nat) (hx : 16777216 ∣ x) (hy : y < 16777216) : x ||| y = x + y :=
  or_add 24 x y hx hy

/-- The lemma `or_add` for `2 ^ 32`. -/
theorem or_add32 (x y : Nat) (hx : 4294967296 ∣ x) (hy : y < 4294967296) : x ||| y = x + y :=
  or_add 32 x y hx hy

/-- The lemma `or_add` for `2 ^ 40`. -/
theorem or_add40 (x y : Nat) (hx : 1099511627776 ∣ x) (hy : y < 1099511627776) : x ||| y = x + y :=
  or_add 40 x y hx hy

/-- The lemma `or_add` for `2 ^ 48`. -/
theorem or_add48 (x y : Nat) (hx : 281474976710656 ∣ x) (hy : y < 281474976710656) : x ||| y = x + y :=
  or_add 48 x y hx hy

/-- The lemma `or_add` for `2 ^ 56`. -/
theorem or_add56 (x y : Nat) (hx : 72057594037927936 ∣ x) (hy : y < 72057594037927936) : x ||| y = x + y :=
  or_add 56 x y hx hy

/-- The first byte of an encoding: the bits of `a` below the marker `2 ^ k`. -/
theorem first_byte (k a : Nat) (hk : k ≤ 7) (ha : a < 2 ^ k) :
    (a % 256 ||| 2 ^ k) % 256 = a + 2 ^ k := by
  have h2 : 2 ^ k ≤ 2 ^ 7 := Nat.pow_le_pow_right (by norm_num) hk
  have h3 : a % 256 = a := Nat.mod_eq_of_lt (by omega)
  rw [h3, Nat.or_comm, or_add k (2 ^ k) a dvd_rfl ha, Nat.add_comm]
  exact Nat.mod_eq_of_lt (by omega)

/-- The test of one bit. -/
theorem and_pow (v k : Nat) : v &&& 2 ^ k = 0 ↔ v / 2 ^ k % 2 = 0 := by
  rw [Nat.and_two_pow, Nat.testBit_to_div_mod]
  have hp : 0 < 2 ^ k := Nat.two_pow_pos k
  by_cases h : v / 2 ^ k % 2 = 1
  · simp [h]
  · have h0 : v / 2 ^ k % 2 = 0 := by omega
    simp [h0]

/-- The test of bit 0. -/
theorem and_bit0 (v : Nat) : v &&& 1 = 0 ↔ v / 1 % 2 = 0 := and_pow v 0

/-- The test of bit 1. -/
theorem and_bit1 (v : Nat) : v &&& 2 = 0 ↔ v / 2 % 2 = 0 := and_pow v 1

/-- The test of bit 2. -/
theorem and_bit2 (v : Nat) : v &&& 4 = 0 ↔ v / 4 % 2 = 0 := and_pow v 2

/-- The test of bit 3. -/
theorem and_bit3 (v : Nat) : v &&& 8 = 0 ↔ v / 8 % 2 = 0 := and_pow v 3

/-- The test of bit 4. -/
theorem and_bit4 (v : Nat) : v &&& 16 = 0 ↔ v / 16 % 2 = 0 := and_pow v 4

/-- The test of bit 5. -/
theorem and_bit5 (v : Nat) : v &&& 32 = 0 ↔ v / 32 % 2 = 0 := and_pow v 5

/-- The test of bit 6. -/
theorem and_bit6 (v : Nat) : v &&& 64 = 0 ↔ v / 64 % 2 = 0 := and_pow v 6

/-- The test of bit 7. -/
theorem and_bit7 (v : Nat) : v &&& 128 = 0 ↔ v / 128 % 2 = 0 := and_pow v 7

/-- A shift that does not overflow 64 bits is a product. -/
theorem shl64_eq (x k : Nat) (h : x * 2 ^ k < 2 ^ 64) : shl64 x k = x * 2 ^ k := by
  rw [shl64, Nat.shiftLeft_eq]
  exact Nat.mod_eq_of_lt h

/-- The first byte less its marker. -/
theorem toUInt64_sub (a m : Nat) (ha : a < 2 ^ 64) :
    toUInt64 (((a + m : Nat) : Int) - (m : Int)) = a := by
  unfold toUInt64
  have : ((a + m : Nat) : Int) - (m : Int) = (a : Int) := by push_cast; ring
  rw [this]
  omega

/-- The encoding of a value that takes 1 byte(s). -/
theorem vsizeEncode_1 (x : Nat) (h1 : 0 ≤ x) (h2 : x < 127) :
    vsizeNumBytes x = 1 ∧ vsizeEncode x = [x + 128] := by
  have hn : vsizeNumBytes x = 1 := by
    unfold vsizeNumBytes
    rw [if_pos (by omega)]
  refine ⟨hn, ?_⟩
  unfold vsizeEncode
  simp only [hn]
  simp [List.range, List.range.loop, and255, Nat.shiftRight_eq_div_pow]
  have hf := first_byte 7 x (by norm_num) (by omega)
  norm_num at hf
  omega

/-- The decoding of 1 byte(s). -/
theorem vsizeDecode_1 (a : Nat) (ha : a < 128) :
    vsizeDecodeBytes [a + 128] = some (a) := by
  have c1 : (a + 128) &&& LeadingBits1 ≠ 0 := by
    rw [show LeadingBits1 = 128 from rfl, Ne, and_bit7]; omega
  have e : toUInt64 (((a + 128 : Nat) : Int) - (LeadingBits1 : Int)) = a :=
    toUInt64_sub a 128 (by omega)
  simp only [vsizeDecodeBytes, List.getElem?_cons_zero, List.getElem?_cons_succ,
    Option.bind_eq_bind, Option.some_bind, if_pos c1, e, Option.pure_def]

/-- The leading zero bits of a first byte with the marker of 1 byte(s). -/
theorem vsizeLoadCount_1 (a : Nat) (ha : a < 128) :
    vsizeLoadCount (a + 128) 8 = some 0 := by
  simp only [vsizeLoadCount, List.range, List.range.loop, List.find?, Nat.reduceShiftLeft,
    Nat.reduceShiftRight, ne_eq, decide_not, and_bit0, and_bit1, and_bit2, and_bit3, and_bit4, and_bit5, and_bit6, and_bit7]
  have b7 : (a + 128) / 128 % 2 = 1 := by omega
  have b6 : (a + 128) / 64 % 2 = 0 ∨ 1 < 2 := by omega
  have b5 : (a + 128) / 32 % 2 = 0 ∨ 1 < 3 := by omega
  have b4 : (a + 128) / 16 % 2 = 0 ∨ 1 < 4 := by omega
  have b3 : (a + 128) / 8 % 2 = 0 ∨ 1 < 5 := by omega
  have b2 : (a + 128) / 4 % 2 = 0 ∨ 1 < 6 := by omega
  have b1 : (a + 128) / 2 % 2 = 0 ∨ 1 < 7 := by omega
  have b0 : (a + 128) / 1 % 2 = 0 ∨ 1 < 8 := by omega
  simp_all

/-- The encoding of a value that takes 2 byte(s). -/
theorem vsizeEncode_2 (x : Nat) (h1 : 127 ≤ x) (h2 : x < 16383) :
    vsizeNumBytes x = 2 ∧ vsizeEncode x = [x / 256 + 64, x % 256] := by
  have hn : vsizeNumBytes x = 2 := by
    unfold vsizeNumBytes
    split_ifs <;> omega
  refine ⟨hn, ?_⟩
  unfold vsizeEncode
  simp only [hn]
  simp [List.range, List.range.loop, and255, Nat.shiftRight_eq_div_pow]
  have hf := first_byte 6 (x / 256) (by norm_num) (by omega)
  norm_num at hf
  omega

/-- The decoding of 2 byte(s). -/
theorem vsizeDecode_2 (a v1 : Nat) (ha : a < 64) (h1 : v1 < 256) :
    vsizeDecodeBytes [a + 64, v1] = some (a * 256 + v1) := by
  have c1 : ¬ ((a + 64) &&& LeadingBits1 ≠ 0) := by
    rw [show LeadingBits1 = 128 from rfl, not_not, and_bit7]; omega
  have c2 : (a + 64) &&& LeadingBits2 ≠ 0 := by
    rw [show LeadingBits2 = 64 from rfl, Ne, and_bit6]; omega
  have e : toUInt64 (((a + 64 : Nat) : Int) - (LeadingBits2 : Int)) = a :=
    toUInt64_sub a 64 (by omega)
  simp only [vsizeDecodeBytes, List.getElem?_cons_zero, List.getElem?_cons_succ,
    Option.bind_eq_bind, Option.some_bind, if_neg c1, if_pos c2, e, Option.pure_def]
  rw [shl64_eq a 8 (by omega)]
  simp (disch := omega) only [or_add8]
  norm_num

/-- The leading zero bits of a first byte with the marker of 2 byte(s). -/
theorem vsizeLoadCount_2 (a : Nat) (ha : a < 64) :
    vsizeLoadCount (a + 64) 8 = some 1 := by
  simp only [vsizeLoadCount, List.range, List.range.loop, List.find?, Nat.reduceShiftLeft,
    Nat.reduceShiftRight, ne_eq, decide_not, and_bit0, and_bit1, and_bit2, and_bit3, and_bit4, and_bit5, and_bit6, and_bit7]
  have b7 : (a + 64) / 128 % 2 = 0 := by omega
  have b6 : (a + 64) / 64 % 2 = 1 ∨ 2 < 2 := by omega
  have b5 : (a + 64) / 32 % 2 = 0 ∨ 2 < 3 := by omega
  have b4 : (a + 64) / 16 % 2 = 0 ∨ 2 < 4 := by omega
  have b3 : (a + 64) / 8 % 2 = 0 ∨ 2 < 5 := by omega
  have b2 : (a + 64) / 4 % 2 = 0 ∨ 2 < 6 := by omega
  have b1 : (a + 64) / 2 % 2 = 0 ∨ 2 < 7 := by omega
  have b0 : (a + 64) / 1 % 2 = 0 ∨ 2 < 8 := by omega
  simp_all

/-- The encoding of a value that takes 3 byte(s). -/
theorem vsizeEncode_3 (x : Nat) (h1 : 16383 ≤ x) (h2 : x < 2097151) :
    vsizeNumBytes x = 3 ∧ vsizeEncode x = [x / 65536 + 32, x / 256 % 256, x % 256] := by
  have hn : vsizeNumBytes x = 3 := by
    unfold vsizeNumBytes
    split_ifs <;> omega
  refine ⟨hn, ?_⟩
  unfold vsizeEncode
  simp only [hn]
  simp [List.range, List.range.loop, and255, Nat.shiftRight_eq_div_pow]
  have hf := first_byte 5 (x / 65536) (by norm_num) (by omega)
  norm_num at hf
  omega

/-- The decoding of 3 byte(s). -/
theorem vsizeDecode_3 (a v1 v2 : Nat) (ha : a < 32) (h1 : v1 < 256) (h2 : v2 < 256) :
    vsizeDecodeBytes [a + 32, v1, v2] = some (a * 65536 + v1 * 256 + v2) := by
  have c1 : ¬ ((a + 32) &&& LeadingBits1 ≠ 0) := by
    rw [show LeadingBits1 = 128 from rfl, not_not, and_bit7]; omega
  have c2 : ¬ ((a + 32) &&& LeadingBits2 ≠ 0) := by
    rw [show LeadingBits2 = 64 from rfl, not_not, and_bit6]; omega
  have c3 : (a + 32) &&& LeadingBits3 ≠ 0 := by
    rw [show LeadingBits3 = 32 from rfl, Ne, and_bit5]; omega
  have e : toUInt64 (((a + 32 : Nat) : Int) - (LeadingBits3 : Int)) = a :=
    toUInt64_sub a 32 (by omega)
  simp only [vsizeDecodeBytes, List.getElem?_cons_zero, List.getElem?_cons_succ,
    Option.bind_eq_bind, Option.some_bind, if_neg c1, if_neg c2, if_pos c3, e, Option.pure_def]
  rw [shl64_eq a 16 (by omega), shl64_eq v1 8 (by omega)]
  simp (disch := omega) only [or_add8, or_add16]
  norm_num

/-- The leading zero bits of a first byte with the marker of 3 byte(s). -/
theorem vsizeLoadCount_3 (a : Nat) (ha : a < 32) :
    vsizeLoadCount (a + 32) 8 = some 2 := by
  simp only [vsizeLoadCount, List.range, List.range.loop, List.find?, Nat.reduceShiftLeft,
    Nat.reduceShiftRight, ne_eq, decide_not, and_bit0, and_bit1, and_bit2, and_bit3, and_bit4, and_bit5, and_bit6, and_bit7]
  have b7 : (a + 32) / 128 % 2 = 0 := by omega
  have b6 : (a + 32) / 64 % 2 = 0 ∨ 3 < 2 := by omega
  have b5 : (a + 32) / 32 % 2 = 1 ∨ 3 < 3 := by omega
  have b4 : (a + 32) / 16 % 2 = 0 ∨ 3 < 4 := by omega
  have b3 : (a + 32) / 8 % 2 = 0 ∨ 3 < 5 := by omega
  have b2 : (a + 32) / 4 % 2 = 0 ∨ 3 < 6 := by omega
  have b1 : (a + 32) / 2 % 2 = 0 ∨ 3 < 7 := by omega
  have b0 : (a + 32) / 1 % 2 = 0 ∨ 3 < 8 := by omega
  simp_all

/-- The encoding of a value that takes 4 byte(s). -/
theorem vsizeEncode_4 (x : Nat) (h1 : 2097151 ≤ x) (h2 : x < 268435455) :
    vsizeNumBytes x = 4 ∧ vsizeEncode x = [x / 16777216 + 16, x / 65536 % 256, x / 256 % 256, x % 256] := by
  have hn : vsizeNumBytes x = 4 := by
    unfold vsizeNumBytes
    split_ifs <;> omega
  refine ⟨hn, ?_⟩
  unfold vsizeEncode
  simp only [hn]
  simp [List.range, List.range.loop, and255, Nat.shiftRight_eq_div_pow]
  have hf := first_byte 4 (x / 16777216) (by norm_num) (by omega)
  norm_num at hf
  omega

/-- The decoding of 4 byte(s). -/
theorem vsizeDecode_4 (a v1 v2 v3 : Nat) (ha : a < 16) (h1 : v1 < 256) (h2 : v2 < 256) (h3 : v3 < 256) :
    vsizeDecodeBytes [a + 16, v1, v2, v3] = some (a * 16777216 + v1 * 65536 + v2 * 256 + v3) := by
  have c1 : ¬ ((a + 16) &&& LeadingBits1 ≠ 0) := by
    rw [show LeadingBits1 = 128 from rfl, not_not, and_bit7]; omega
  have c2 : ¬ ((a + 16) &&& LeadingBits2 ≠ 0) := by
    rw [show LeadingBits2 = 64 from rfl, not_not, and_bit6]; omega
  have c3 : ¬ ((a + 16) &&& LeadingBits3 ≠ 0) := by
    rw [show LeadingBits3 = 32 from rfl, not_not, and_bit5]; omega
  have c4 : (a + 16) &&& LeadingBits4 ≠ 0 := by
    rw [show LeadingBits4 = 16 from rfl, Ne, and_bit4]; omega
  have e : toUInt64 (((a + 16 : Nat) : Int) - (LeadingBits4 : Int)) = a :=
    toUInt64_sub a 16 (by omega)
  simp only [vsizeDecodeBytes, List.getElem?_cons_zero, List.getElem?_cons_succ,
    Option.bind_eq_bind, Option.some_bind, if_neg c1, if_neg c2, if_neg c3, if_pos c4, e, Option.pure_def]
  rw [shl64_eq a 24 (by omega), shl64_eq v1 16 (by omega), shl64_eq v2 8 (by omega)]
  simp (disch := omega) only [or_add8, or_add16, or_add24]
  norm_num

/-- The leading zero bits of a first byte with the marker of 4 byte(s). -/
theorem vsizeLoadCount_4 (a : Nat) (ha : a < 16) :
    vsizeLoadCount (a + 16) 8 = some 3 := by
  simp only [vsizeLoadCount, List.range, List.range.loop, List.find?, Nat.reduceShiftLeft,
    Nat.reduceShiftRight, ne_eq, decide_not, and_bit0, and_bit1, and_bit2, and_bit3, and_bit4, and_bit5, and_bit6, and_bit7]
  have b7 : (a + 16) / 128 % 2 = 0 := by omega
  have b6 : (a + 16) / 64 % 2 = 0 ∨ 4 < 2 := by omega
  have b5 : (a + 16) / 32 % 2 = 0 ∨ 4 < 3 := by omega
  have b4 : (a + 16) / 16 % 2 = 1 ∨ 4 < 4 := by omega
  have b3 : (a + 16) / 8 % 2 = 0 ∨ 4 < 5 := by omega
  have b2 : (a + 16) / 4 % 2 = 0 ∨ 4 < 6 := by omega
  have b1 : (a + 16) / 2 % 2 = 0 ∨ 4 < 7 := by omega
  have b0 : (a + 16) / 1 % 2 = 0 ∨ 4 < 8 := by omega
  simp_all

/-- The encoding of a value that takes 5 byte(s). -/
theorem vsizeEncode_5 (x : Nat) (h1 : 268435455 ≤ x) (h2 : x < 34359738367) :
    vsizeNumBytes x = 5 ∧ vsizeEncode x = [x / 4294967296 + 8, x / 16777216 % 256, x / 65536 % 256, x / 256 % 256, x % 256] := by
  have hn : vsizeNumBytes x = 5 := by
    unfold vsizeNumBytes
    split_ifs <;> omega
  refine ⟨hn, ?_⟩
  unfold vsizeEncode
  simp only [hn]
  simp [List.range, List.range.loop, and255, Nat.shiftRight_eq_div_pow]
  have hf := first_byte 3 (x / 4294967296) (by norm_num) (by omega)
  norm_num at hf
  omega

/-- The decoding of 5 byte(s). -/
theorem vsizeDecode_5 (a v1 v2 v3 v4 : Nat) (ha : a < 8) (h1 : v1 < 256) (h2 : v2 < 256) (h3 : v3 < 256) (h4 : v4 < 256) :
    vsizeDecodeBytes [a + 8, v1, v2, v3, v4] = some (a * 4294967296 + v1 * 16777216 + v2 * 65536 + v3 * 256 + v4) := by
  have c1 : ¬ ((a + 8) &&& LeadingBits1 ≠ 0) := by
    rw [show LeadingBits1 = 128 from rfl, not_not, and_bit7]; omega
  have c2 : ¬ ((a + 8) &&& LeadingBits2 ≠ 0) := by
    rw [show LeadingBits2 = 64 from rfl, not_not, and_bit6]; omega
  have c3 : ¬ ((a + 8) &&& LeadingBits3 ≠ 0) := by
    rw [show LeadingBits3 = 32 from rfl, not_not, and_bit5]; omega
  have c4 : ¬ ((a + 8) &&& LeadingBits4 ≠ 0) := by
    rw [show LeadingBits4 = 16 from rfl, not_not, and_bit4]; omega
  have c5 : (a + 8) &&& LeadingBits5 ≠ 0 := by
    rw [show LeadingBits5 = 8 from rfl, Ne, and_bit3]; omega
  have e : toUInt64 (((a + 8 : Nat) : Int) - (LeadingBits5 : Int)) = a :=
    toUInt64_sub a 8 (by omega)
  simp only [vsizeDecodeBytes, List.getElem?_cons_zero, List.getElem?_cons_succ,
    Option.bind_eq_bind, Option.some_bind, if_neg c1, if_neg c2, if_neg c3, if_neg c4, if_pos c5, e, Option.pure_def]
  rw [shl64_eq a 32 (by omega), shl64_eq v1 24 (by omega), shl64_eq v2 16 (by omega), shl64_eq v3 8 (by omega)]
  simp (disch := omega) only [or_add8, or_add16, or_add24, or_add32]
  norm_num

/-- The leading zero bits of a first byte with the marker of 5 byte(s). -/
theorem vsizeLoadCount_5 (a : Nat) (ha : a < 8) :
    vsizeLoadCount (a + 8) 8 = some 4 := by
  simp only [vsizeLoadCount, List.range, List.range.loop, List.find?, Nat.reduceShiftLeft,
    Nat.reduceShiftRight, ne_eq, decide_not, and_bit0, and_bit1, and_bit2, and_bit3, and_bit4, and_bit5, and_bit6, and_bit7]
  have b7 : (a + 8) / 128 % 2 = 0 := by omega
  have b6 : (a + 8) / 64 % 2 = 0 ∨ 5 < 2 := by omega
  have b5 : (a + 8) / 32 % 2 = 0 ∨ 5 < 3 := by omega
  have b4 : (a + 8) / 16 % 2 = 0 ∨ 5 < 4 := by omega
  have b3 : (a + 8) / 8 % 2 = 1 ∨ 5 < 5 := by omega
  have b2 : (a + 8) / 4 % 2 = 0 ∨ 5 < 6 := by omega
  have b1 : (a + 8) / 2 % 2 = 0 ∨ 5 < 7 := by omega
  have b0 : (a + 8) / 1 % 2 = 0 ∨ 5 < 8 := by omega
  simp_all

/-- The encoding of a value that takes 6 byte(s). -/
theorem vsizeEncode_6 (x : Nat) (h1 : 34359738367 ≤ x) (h2 : x < 4398046511103) :
    vsizeNumBytes x = 6 ∧ vsizeEncode x = [x / 1099511627776 + 4, x / 4294967296 % 256, x / 16777216 % 256, x / 65536 % 256, x / 256 % 256, x % 256] := by
  have hn : vsizeNumBytes x = 6 := by
    unfold vsizeNumBytes
    split_ifs <;> omega
  refine ⟨hn, ?_⟩
  unfold vsizeEncode
  simp only [hn]
  simp [List.range, List.range.loop, and255, Nat.shiftRight_eq_div_pow]
  have hf := first_byte 2 (x / 1099511627776) (by norm_num) (by omega)
  norm_num at hf
  omega

/-- The decoding of 6 byte(s). -/
theorem vsizeDecode_6 (a v1 v2 v3 v4 v5 : Nat) (ha : a < 4) (h1 : v1 < 256) (h2 : v2 < 256) (h3 : v3 < 256) (h4 : v4 < 256) (h5 : v5 < 256) :
    vsizeDecodeBytes [a + 4, v1, v2, v3, v4, v5] = some (a * 1099511627776 + v1 * 4294967296 + v2 * 16777216 + v3 * 65536 + v4 * 256 + v5) := by
  have c1 : ¬ ((a + 4) &&& LeadingBits1 ≠ 0) := by
    rw [show LeadingBits1 = 128 from rfl, not_not, and_bit7]; omega
  have c2 : ¬ ((a + 4) &&& LeadingBits2 ≠ 0) := by
    rw [show LeadingBits2 = 64 from rfl, not_not, and_bit6]; omega
  have c3 : ¬ ((a + 4) &&& LeadingBits3 ≠ 0) := by
    rw [show LeadingBits3 = 32 from rfl, not_not, and_bit5]; omega
  have c4 : ¬ ((a + 4) &&& LeadingBits4 ≠ 0) := by
    rw [show LeadingBits4 = 16 from rfl, not_not, and_bit4]; omega
  have c5 : ¬ ((a + 4) &&& LeadingBits5 ≠ 0) := by
    rw [show LeadingBits5 = 8 from rfl, not_not, and_bit3]; omega
  have c6 : (a + 4) &&& LeadingBits6 ≠ 0 := by
    rw [show LeadingBits6 = 4 from rfl, Ne, and_bit2]; omega
  have e : toUInt64 (((a + 4 : Nat) : Int) - (LeadingBits6 : Int)) = a :=
    toUInt64_sub a 4 (by omega)
  simp only [vsizeDecodeBytes, List.getElem?_cons_zero, List.getElem?_cons_succ,
    Option.bind_eq_bind, Option.some_bind, if_neg c1, if_neg c2, if_neg c3, if_neg c4, if_neg c5, if_pos c6, e, Option.pure_def]
  rw [shl64_eq a 40 (by omega), shl64_eq v1 32 (by omega), shl64_eq v2 24 (by omega), shl64_eq v3 16 (by omega), shl64_eq v4 8 (by omega)]
  simp (disch := omega) only [or_add8, or_add16, or_add24, or_add32, or_add40]
  norm_num

/-- The leading zero bits of a first byte with the marker of 6 byte(s). -/
theorem vsizeLoadCount_6 (a : Nat) (ha : a < 4) :
    vsizeLoadCount (a + 4) 8 = some 5 := by
  simp only [vsizeLoadCount, List.range, List.range.loop, List.find?, Nat.reduceShiftLeft,
    Nat.reduceShiftRight, ne_eq, decide_not, and_bit0, and_bit1, and_bit2, and_bit3, and_bit4, and_bit5, and_bit6, and_bit7]
  have b7 : (a + 4) / 128 % 2 = 0 := by omega
  have b6 : (a + 4) / 64 % 2 = 0 ∨ 6 < 2 := by omega
  have b5 : (a + 4) / 32 % 2 = 0 ∨ 6 < 3 := by omega
  have b4 : (a + 4) / 16 % 2 = 0 ∨ 6 < 4 := by omega
  have b3 : (a + 4) / 8 % 2 = 0 ∨ 6 < 5 := by omega
  have b2 : (a + 4) / 4 % 2 = 1 ∨ 6 < 6 := by omega
  have b1 : (a + 4) / 2 % 2 = 0 ∨ 6 < 7 := by omega
  have b0 : (a + 4) / 1 % 2 = 0 ∨ 6 < 8 := by omega
  simp_all

/-- The encoding of a value that takes 7 byte(s). -/
theorem vsizeEncode_7 (x : Nat) (h1 : 4398046511103 ≤ x) (h2 : x < 562949953421311) :
    vsizeNumBytes x = 7 ∧ vsizeEncode x = [x / 281474976710656 + 2, x / 1099511627776 % 256, x / 4294967296 % 256, x / 16777216 % 256, x / 65536 % 256, x / 256 % 256, x % 256] := by
  have hn : vsizeNumBytes x = 7 := by
    unfold vsizeNumBytes
    split_ifs <;> omega
  refine ⟨hn, ?_⟩
  unfold vsizeEncode
  simp only [hn]
  simp [List.range, List.range.loop, and255, Nat.shiftRight_eq_div_pow]
  have hf := first_byte 1 (x / 281474976710656) (by norm_num) (by omega)
  norm_num at hf
  omega

/-- The decoding of 7 byte(s). -/
theorem vsizeDecode_7 (a v1 v2 v3 v4 v5 v6 : Nat) (ha : a < 2) (h1 : v1 < 256) (h2 : v2 < 256) (h3 : v3 < 256) (h4 : v4 < 256) (h5 : v5 < 256) (h6 : v6 < 256) :
    vsizeDecodeBytes [a + 2, v1, v2, v3, v4, v5, v6] = some (a * 281474976710656 + v1 * 1099511627776 + v2 * 4294967296 + v3 * 16777216 + v4 * 65536 + v5 * 256 + v6) := by
  have c1 : ¬ ((a + 2) &&& LeadingBits1 ≠ 0) := by
    rw [show LeadingBits1 = 128 from rfl, not_not, and_bit7]; omega
  have c2 : ¬ ((a + 2) &&& LeadingBits2 ≠ 0) := by
    rw [show LeadingBits2 = 64 from rfl, not_not, and_bit6]; omega
  have c3 : ¬ ((a + 2) &&& LeadingBits3 ≠ 0) := by
    rw [show LeadingBits3 = 32 from rfl, not_not, and_bit5]; omega
  have c4 : ¬ ((a + 2) &&& LeadingBits4 ≠ 0) := by
    rw [show LeadingBits4 = 16 from rfl, not_not, and_bit4]; omega
  have c5 : ¬ ((a + 2) &&& LeadingBits5 ≠ 0) := by
    rw [show LeadingBits5 = 8 from rfl, not_not, and_bit3]; omega
  have c6 : ¬ ((a + 2) &&& LeadingBits6 ≠ 0) := by
    rw [show LeadingBits6 = 4 from rfl, not_not, and_bit2]; omega
  have c7 : (a + 2) &&& LeadingBits7 ≠ 0 := by
    rw [show LeadingBits7 = 2 from rfl, Ne, and_bit1]; omega
  have e : toUInt64 (((a + 2 : Nat) : Int) - (LeadingBits7 : Int)) = a :=
    toUInt64_sub a 2 (by omega)
  simp only [vsizeDecodeBytes, List.getElem?_cons_zero, List.getElem?_cons_succ,
    Option.bind_eq_bind, Option.some_bind, if_neg c1, if_neg c2, if_neg c3, if_neg c4, if_neg c5, if_neg c6, if_pos c7, e, Option.pure_def]
  rw [shl64_eq a 48 (by omega), shl64_eq v1 40 (by omega), shl64_eq v2 32 (by omega), shl64_eq v3 24 (by omega), shl64_eq v4 16 (by omega), shl64_eq v5 8 (by omega)]
  simp (disch := omega) only [or_add8, or_add16, or_add24, or_add32, or_add40, or_add48]
  norm_num

/-- The leading zero bits of a first byte with the marker of 7 byte(s). -/
theorem vsizeLoadCount_7 (a : Nat) (ha : a < 2) :
    vsizeLoadCount (a + 2) 8 = some 6 := by
  simp only [vsizeLoadCount, List.range, List.range.loop, List.find?, Nat.reduceShiftLeft,
    Nat.reduceShiftRight, ne_eq, decide_not, and_bit0, and_bit1, and_bit2, and_bit3, and_bit4, and_bit5, and_bit6, and_bit7]
  have b7 : (a + 2) / 128 % 2 = 0 := by omega
  have b6 : (a + 2) / 64 % 2 = 0 ∨ 7 < 2 := by omega
  have b5 : (a + 2) / 32 % 2 = 0 ∨ 7 < 3 := by omega
  have b4 : (a + 2) / 16 % 2 = 0 ∨ 7 < 4 := by omega
  have b3 : (a + 2) / 8 % 2 = 0 ∨ 7 < 5 := by omega
  have b2 : (a + 2) / 4 % 2 = 0 ∨ 7 < 6 := by omega
  have b1 : (a + 2) / 2 % 2 = 1 ∨ 7 < 7 := by omega
  have b0 : (a + 2) / 1 % 2 = 0 ∨ 7 < 8 := by omega
  simp_all

/-- The encoding of a value that takes 8 byte(s). -/
theorem vsizeEncode_8 (x : Nat) (h1 : 562949953421311 ≤ x) (h2 : x < 72057594037927936) :
    vsizeNumBytes x = 8 ∧ vsizeEncode x = [1, x / 281474976710656 % 256, x / 1099511627776 % 256, x / 4294967296 % 256, x / 16777216 % 256, x / 65536 % 256, x / 256 % 256, x % 256] := by
  have hn : vsizeNumBytes x = 8 := by
    unfold vsizeNumBytes
    split_ifs <;> omega
  refine ⟨hn, ?_⟩
  unfold vsizeEncode
  simp only [hn]
  simp [List.range, List.range.loop, and255, Nat.shiftRight_eq_div_pow]
  have hf := first_byte 0 (x / 72057594037927936) (by norm_num) (by omega)
  norm_num at hf
  omega

/-- The decoding of 8 bytes. -/
theorem vsizeDecode_8 (v1 v2 v3 v4 v5 v6 v7 : Nat) (h1 : v1 < 256) (h2 : v2 < 256) (h3 : v3 < 256) (h4 : v4 < 256) (h5 : v5 < 256) (h6 : v6 < 256) (h7 : v7 < 256) :
    vsizeDecodeBytes [1, v1, v2, v3, v4, v5, v6, v7] = some (v1 * 281474976710656 + v2 * 1099511627776 + v3 * 4294967296 + v4 * 16777216 + v5 * 65536 + v6 * 256 + v7) := by
  have c1 : ¬ (1 &&& LeadingBits1 ≠ 0) := by decide
  have c2 : ¬ (1 &&& LeadingBits2 ≠ 0) := by decide
  have c3 : ¬ (1 &&& LeadingBits3 ≠ 0) := by decide
  have c4 : ¬ (1 &&& LeadingBits4 ≠ 0) := by decide
  have c5 : ¬ (1 &&& LeadingBits5 ≠ 0) := by decide
  have c6 : ¬ (1 &&& LeadingBits6 ≠ 0) := by decide
  have c7 : ¬ (1 &&& LeadingBits7 ≠ 0) := by decide
  have c8 : 1 &&& LeadingBits8 ≠ 0 := by decide
  simp only [vsizeDecodeBytes, List.getElem?_cons_zero, List.getElem?_cons_succ,
    Option.bind_eq_bind, Option.some_bind, if_neg c1, if_neg c2, if_neg c3, if_neg c4, if_neg c5, if_neg c6, if_neg c7, if_pos c8, Option.pure_def]
  rw [shl64_eq v1 48 (by omega), shl64_eq v2 40 (by omega), shl64_eq v3 32 (by omega), shl64_eq v4 24 (by omega), shl64_eq v5 16 (by omega), shl64_eq v6 8 (by omega)]
  simp (disch := omega) only [or_add8, or_add16, or_add24, or_add32, or_add40, or_add48, or_add56]
  norm_num

/-- The leading zero bits of a first byte with the marker of 8 byte(s). -/
theorem vsizeLoadCount_8 (a : Nat) (ha : a < 1) :
    vsizeLoadCount (a + 1) 8 = some 7 := by
  simp only [vsizeLoadCount, List.range, List.range.loop, List.find?, Nat.reduceShiftLeft,
    Nat.reduceShiftRight, ne_eq, decide_not, and_bit0, and_bit1, and_bit2, and_bit3, and_bit4, and_bit5, and_bit6, and_bit7]
  have b7 : (a + 1) / 128 % 2 = 0 := by omega
  have b6 : (a + 1) / 64 % 2 = 0 ∨ 8 < 2 := by omega
  have b5 : (a + 1) / 32 % 2 = 0 ∨ 8 < 3 := by omega
  have b4 : (a + 1) / 16 % 2 = 0 ∨ 8 < 4 := by omega
  have b3 : (a + 1) / 8 % 2 = 0 ∨ 8 < 5 := by omega
  have b2 : (a + 1) / 4 % 2 = 0 ∨ 8 < 6 := by omega
  have b1 : (a + 1) / 2 % 2 = 0 ∨ 8 < 7 := by omega
  have b0 : (a + 1) / 1 % 2 = 1 ∨ 8 < 8 := by omega
  simp_all

/-- C26. EBML variable-size integers round-trip: for every `x < 2^56 - 1`,
`vsizeEncode(x)` has `vsizeNumBytes(x)` bytes, between 1 and 8; its first byte
lies between `2^(8-n)` and `2^(9-n) - 1`, which is `n - 1` leading zero bits
followed by a one bit, and `vsizeLoad` reads from it that `n - 1` more bytes
follow; and `vsizeDecode(vsizeEncode(x))` is `x`. -/
theorem vsize_round_trip (x : Nat) (hx : x < 2 ^ 56 - 1) :
    (vsizeEncode x).length = vsizeNumBytes x ∧
    1 ≤ vsizeNumBytes x ∧ vsizeNumBytes x ≤ 8 ∧
    (∀ b ∈ vsizeEncode x, b < 256) ∧
    (∃ b0, (vsizeEncode x)[0]? = some b0 ∧
      2 ^ (8 - vsizeNumBytes x) ≤ b0 ∧ b0 < 2 ^ (9 - vsizeNumBytes x) ∧
      vsizeLoadCount b0 8 = some (vsizeNumBytes x - 1)) ∧
    vsizeDecode (vsizeEncode x) = some x := by
  have hx2 : x < 72057594037927935 := by norm_num at hx; exact hx
  rcases Nat.lt_or_ge x 127 with h1 | h1
  rotate_left
  rcases Nat.lt_or_ge x 16383 with h2 | h2
  rotate_left
  rcases Nat.lt_or_ge x 2097151 with h3 | h3
  rotate_left
  rcases Nat.lt_or_ge x 268435455 with h4 | h4
  rotate_left
  rcases Nat.lt_or_ge x 34359738367 with h5 | h5
  rotate_left
  rcases Nat.lt_or_ge x 4398046511103 with h6 | h6
  rotate_left
  rcases Nat.lt_or_ge x 562949953421311 with h7 | h7
  rotate_left
  · obtain ⟨hn, he⟩ := vsizeEncode_8 x (by omega) (by omega)
    rw [he, hn]
    refine ⟨rfl, by norm_num, by norm_num, ?_,
      ⟨_, rfl, by norm_num; try omega, by norm_num; try omega,
        by simpa using vsizeLoadCount_8 0 (by omega)⟩, ?_⟩
    · intro b hb
      simp only [List.mem_cons, List.mem_singleton, List.not_mem_nil, or_false] at hb
      omega
    · rw [vsizeDecode, vsizeDecode_8 (x / 281474976710656 % 256) (x / 1099511627776 % 256) (x / 4294967296 % 256) (x / 16777216 % 256) (x / 65536 % 256) (x / 256 % 256) (x % 256) (by omega) (by omega) (by omega) (by omega) (by omega) (by omega) (by omega)]
      congr 1
      omega
  · obtain ⟨hn, he⟩ := vsizeEncode_1 x (by omega) (by omega)
    rw [he, hn]
    refine ⟨rfl, by norm_num, by norm_num, ?_,
      ⟨_, rfl, by norm_num; try omega, by norm_num; try omega,
        vsizeLoadCount_1 x (by omega)⟩, ?_⟩
    · intro b hb
      simp only [List.mem_cons, List.mem_singleton, List.not_mem_nil, or_false] at hb
      omega
    · rw [vsizeDecode, vsizeDecode_1 x (by omega)]
  · obtain ⟨hn, he⟩ := vsizeEncode_2 x (by omega) (by omega)
    rw [he, hn]
    refine ⟨rfl, by norm_num, by norm_num, ?_,
      ⟨_, rfl, by norm_num; try omega, by norm_num; try omega,
        vsizeLoadCount_2 (x / 256) (by omega)⟩, ?_⟩
    · intro b hb
      simp only [List.mem_cons, List.mem_singleton, List.not_mem_nil, or_false] at hb
      omega
    · rw [vsizeDecode, vsizeDecode_2 (x / 256) (x % 256) (by omega) (by omega)]
      congr 1
      omega
  · obtain ⟨hn, he⟩ := vsizeEncode_3 x (by omega) (by omega)
    rw [he, hn]
    refine ⟨rfl, by norm_num, by norm_num, ?_,
      ⟨_, rfl, by norm_num; try omega, by norm_num; try omega,
        vsizeLoadCount_3 (x / 65536) (by omega)⟩, ?_⟩
    · intro b hb
      simp only [List.mem_cons, List.mem_singleton, List.not_mem_nil, or_false] at hb
      omega
    · rw [vsizeDecode, vsizeDecode_3 (x / 65536) (x / 256 % 256) (x % 256) (by omega) (by omega) (by omega)]
      congr 1
      omega
  · obtain ⟨hn, he⟩ := vsizeEncode_4 x (by omega) (by omega)
    rw [he, hn]
    refine ⟨rfl, by norm_num, by norm_num, ?_,
      ⟨_, rfl, by norm_num; try omega, by norm_num; try omega,
        vsizeLoadCount_4 (x / 16777216) (by omega)⟩, ?_⟩
    · intro b hb
      simp only [List.mem_cons, List.mem_singleton, List.not_mem_nil, or_false] at hb
      omega
    · rw [vsizeDecode, vsizeDecode_4 (x / 16777216) (x / 65536 % 256) (x / 256 % 256) (x % 256) (by omega) (by omega) (by omega) (by omega)]
      congr 1
      omega
  · obtain ⟨hn, he⟩ := vsizeEncode_5 x (by omega) (by omega)
    rw [he, hn]
    refine ⟨rfl, by norm_num, by norm_num, ?_,
      ⟨_, rfl, by norm_num; try omega, by norm_num; try omega,
        vsizeLoadCount_5 (x / 4294967296) (by omega)⟩, ?_⟩
    · intro b hb
      simp only [List.mem_cons, List.mem_singleton, List.not_mem_nil, or_false] at hb
      omega
    · rw [vsizeDecode, vsizeDecode_5 (x / 4294967296) (x / 16777216 % 256) (x / 65536 % 256) (x / 256 % 256) (x % 256) (by omega) (by omega) (by omega) (by omega) (by omega)]
      congr 1
      omega
  · obtain ⟨hn, he⟩ := vsizeEncode_6 x (by omega) (by omega)
    rw [he, hn]
    refine ⟨rfl, by norm_num, by norm_num, ?_,
      ⟨_, rfl, by norm_num; try omega, by norm_num; try omega,
        vsizeLoadCount_6 (x / 1099511627776) (by omega)⟩, ?_⟩
    · intro b hb
      simp only [List.mem_cons, List.mem_singleton, List.not_mem_nil, or_false] at hb
      omega
    · rw [vsizeDecode, vsizeDecode_6 (x / 1099511627776) (x / 4294967296 % 256) (x / 16777216 % 256) (x / 65536 % 256) (x / 256 % 256) (x % 256) (by omega) (by omega) (by omega) (by omega) (by omega) (by omega)]
      congr 1
      omega
  · obtain ⟨hn, he⟩ := vsizeEncode_7 x (by omega) (by omega)
    rw [he, hn]
    refine ⟨rfl, by norm_num, by norm_num, ?_,
      ⟨_, rfl, by norm_num; try omega, by norm_num; try omega,
        vsizeLoadCount_7 (x / 281474976710656) (by omega)⟩, ?_⟩
    · intro b hb
      simp only [List.mem_cons, List.mem_singleton, List.not_mem_nil, or_false] at hb
      omega
    · rw [vsizeDecode, vsizeDecode_7 (x / 281474976710656) (x / 1099511627776 % 256) (x / 4294967296 % 256) (x / 16777216 % 256) (x / 65536 % 256) (x / 256 % 256) (x % 256) (by omega) (by omega) (by omega) (by omega) (by omega) (by omega) (by omega)]
      congr 1
      omega

/-- Witness for C26: the value 300 takes two bytes, `0x41 0x2C`. -/
theorem vsize_round_trip_witness :
    (300 : Nat) < 2 ^ 56 - 1 ∧ vsizeEncode 300 = [0x41, 0x2C] ∧
    (vsizeEncode 300).length = vsizeNumBytes 300 ∧
    1 ≤ vsizeNumBytes 300 ∧ vsizeNumBytes 300 ≤ 8 ∧
    (∀ b ∈ vsizeEncode 300, b < 256) ∧
    (∃ b0, (vsizeEncode 300)[0]? = some b0 ∧
      2 ^ (8 - vsizeNumBytes 300) ≤ b0 ∧ b0 < 2 ^ (9 - vsizeNumBytes 300) ∧
      vsizeLoadCount b0 8 = some (vsizeNumBytes 300 - 1)) ∧
    vsizeDecode (vsizeEncode 300) = some 300 :=
  ⟨by norm_num, by decide, vsize_round_trip 300 (by norm_num)⟩

/-- Shifting zero gives zero. -/
theorem shl64_zero (k : Nat) : shl64 0 k = 0 := by simp [shl64]

/-- The low byte of a signed value is below 256. -/
theorem byte_lt (q : Int) : (q % 256).toNat < 256 := by omega

/-- One step of `uintDecode`: `(ui << 8) | b`. -/
theorem shl_or_byte (acc b : Nat) (ha : acc < 2 ^ 56) (hb : b < 256) :
    shl64 acc 8 ||| b = acc * 256 + b := by
  have h : acc * 2 ^ 8 < 2 ^ 64 := by omega
  rw [shl64_eq acc 8 h, or_add 8 (acc * 2 ^ 8) b (Dvd.intro_left acc rfl) hb]
  norm_num

/-- The bytes of `intEncode(si, 1)`. -/
theorem intEncodeBytes_1 (si : Int) :
    intEncodeBytes si 1 =
      [(si % 256).toNat] := by
  unfold intEncodeBytes
  simp only [Int.shiftRight_eq_div_pow]
  simp [List.range, List.range.loop]

/-- The value of `uintDecode` on 1 byte(s). -/
theorem uintDecode_1 (b0 : Nat) (_h0 : b0 < 256) :
    uintDecode [b0] 1 = some (b0) := by
  unfold uintDecode
  simp only [List.range, List.range.loop, List.foldlM, List.getElem?_cons_zero,
    List.getElem?_cons_succ, Option.map_some', Option.bind_eq_bind, Option.some_bind,
    shl64_zero, Nat.zero_or, Option.pure_def]

/-- The 1 byte(s) of `si`, read as a number, are `si` modulo `256 ^ 1`. -/
theorem bytes_value_1 (si : Int) :
    ((((si % 256).toNat : Nat) : Int)) = si % 256 := by
  omega

/-- A value of 1 byte(s) is decoded from its 1-byte encoding. -/
theorem intDecode_intEncodeBytes_1 (si : Int) (hlo : -128 ≤ si) (hhi : si ≤ 127) :
    intDecode (intEncodeBytes si 1) 1 = some si := by
  rw [intEncodeBytes_1, intDecode, uintDecode_1 _
    (byte_lt _)]
  have k := bytes_value_1 si
  generalize (si % 256).toNat = u at k ⊢
  simp only [maxUInt, List.getElem?_cons_zero, List.getElem?_cons_succ, Option.bind_eq_bind,
    Option.some_bind, Option.pure_def, Nat.reduceShiftRight, Option.some.injEq]
  unfold toInt64 sub64
  split_ifs <;> omega

/-- The bytes of `intEncode(si, 2)`. -/
theorem intEncodeBytes_2 (si : Int) :
    intEncodeBytes si 2 =
      [(si / 256 % 256).toNat, (si % 256).toNat] := by
  unfold intEncodeBytes
  simp only [Int.shiftRight_eq_div_pow]
  simp [List.range, List.range.loop]

/-- The value of `uintDecode` on 2 byte(s). -/
theorem uintDecode_2 (b0 b1 : Nat) (h0 : b0 < 256) (h1 : b1 < 256) :
    uintDecode [b0, b1] 2 = some ((b0) * 256 + b1) := by
  unfold uintDecode
  simp only [List.range, List.range.loop, List.foldlM, List.getElem?_cons_zero,
    List.getElem?_cons_succ, Option.map_some', Option.bind_eq_bind, Option.some_bind,
    shl64_zero, Nat.zero_or, Option.pure_def]
  rw [shl_or_byte (b0) b1 (by omega) h1]

/-- The 2 byte(s) of `si`, read as a number, are `si` modulo `256 ^ 2`. -/
theorem bytes_value_2 (si : Int) :
    (((((si / 256 % 256).toNat) * 256 + (si % 256).toNat : Nat) : Int)) = si % 65536 := by
  have h := bytes_value_1 (si / 256)
  generalize (si / 256 % 256).toNat = A at h ⊢
  omega

/-- A value of 2 byte(s) is decoded from its 2-byte encoding. -/
theorem intDecode_intEncodeBytes_2 (si : Int) (hlo : -32768 ≤ si) (hhi : si ≤ 32767) :
    intDecode (intEncodeBytes si 2) 2 = some si := by
  rw [intEncodeBytes_2, intDecode, uintDecode_2 _ _
    (byte_lt _) (byte_lt _)]
  have k := bytes_value_2 si
  generalize ((si / 256 % 256).toNat) * 256 + (si % 256).toNat = u at k ⊢
  simp only [maxUInt, List.getElem?_cons_zero, List.getElem?_cons_succ, Option.bind_eq_bind,
    Option.some_bind, Option.pure_def, Nat.reduceShiftRight, Option.some.injEq]
  unfold toInt64 sub64
  split_ifs <;> omega

/-- The bytes of `intEncode(si, 3)`. -/
theorem intEncodeBytes_3 (si : Int) :
    intEncodeBytes si 3 =
      [(si / 256 / 256 % 256).toNat, (si / 256 % 256).toNat, (si % 256).toNat] := by
  unfold intEncodeBytes
  simp only [Int.shiftRight_eq_div_pow]
  simp [List.range, List.range.loop]

/-- The value of `uintDecode` on 3 byte(s). -/
theorem uintDecode_3 (b0 b1 b2 : Nat) (h0 : b0 < 256) (h1 : b1 < 256) (h2 : b2 < 256) :
    uintDecode [b0, b1, b2] 3 = some (((b0) * 256 + b1) * 256 + b2) := by
  unfold uintDecode
  simp only [List.range, List.range.loop, List.foldlM, List.getElem?_cons_zero,
    List.getElem?_cons_succ, Option.map_some', Option.bind_eq_bind, Option.some_bind,
    shl64_zero, Nat.zero_or, Option.pure_def]
  rw [shl_or_byte (b0) b1 (by omega) h1]
  rw [shl_or_byte ((b0) * 256 + b1) b2 (by omega) h2]

/-- The 3 byte(s) of `si`, read as a number, are `si` modulo `256 ^ 3`. -/
theorem bytes_value_3 (si : Int) :
    ((((((si / 256 / 256 % 256).toNat) * 256 + (si / 256 % 256).toNat) * 256 + (si % 256).toNat : Nat) : Int)) = si % 16777216 := by
  have h := bytes_value_2 (si / 256)
  generalize ((si / 256 / 256 % 256).toNat) * 256 + (si / 256 % 256).toNat = A at h ⊢
  omega

/-- A value of 3 byte(s) is decoded from its 3-byte encoding. -/
theorem intDecode_intEncodeBytes_3 (si : Int) (hlo : -8388608 ≤ si) (hhi : si ≤ 8388607) :
    intDecode (intEncodeBytes si 3) 3 = some si := by
  rw [intEncodeBytes_3, intDecode, uintDecode_3 _ _ _
    (byte_lt _) (byte_lt _) (byte_lt _)]
  have k := bytes_value_3 si
  generalize (((si / 256 / 256 % 256).toNat) * 256 + (si / 256 % 256).toNat) * 256 + (si % 256).toNat = u at k ⊢
  simp only [maxUInt, List.getElem?_cons_zero, List.getElem?_cons_succ, Option.bind_eq_bind,
    Option.some_bind, Option.pure_def, Nat.reduceShiftRight, Option.some.injEq]
  unfold toInt64 sub64
  split_ifs <;> omega

/-- The bytes of `intEncode(si, 4)`. -/
theorem intEncodeBytes_4 (si : Int) :
    intEncodeBytes si 4 =
      [(si / 256 / 256 / 256 % 256).toNat, (si / 256 / 256 % 256).toNat, (si / 256 % 256).toNat, (si % 256).toNat] := by
  unfold intEncodeBytes
  simp only [Int.shiftRight_eq_div_pow]
  simp [List.range, List.range.loop]

/-- The value of `uintDecode` on 4 byte(s). -/
theorem uintDecode_4 (b0 b1 b2 b3 : Nat) (h0 : b0 < 256) (h1 : b1 < 256) (h2 : b2 < 256) (h3 : b3 < 256) :
    uintDecode [b0, b1, b2, b3] 4 = some ((((b0) * 256 + b1) * 256 + b2) * 256 + b3) := by
  unfold uintDecode
  simp only [List.range, List.range.loop, List.foldlM, List.getElem?_cons_zero,
    List.getElem?_cons_succ, Option.map_some', Option.bind_eq_bind, Option.some_bind,
    shl64_zero, Nat.zero_or, Option.pure_def]
  rw [shl_or_byte (b0) b1 (by omega) h1]
  rw [shl_or_byte ((b0) * 256 + b1) b2 (by omega) h2]
  rw [shl_or_byte (((b0) * 256 + b1) * 256 + b2) b3 (by omega) h3]

/-- The 4 byte(s) of `si`, read as a number, are `si` modulo `256 ^ 4`. -/
theorem bytes_value_4 (si : Int) :
    (((((((si / 256 / 256 / 256 % 256).toNat) * 256 + (si / 256 / 256 % 256).toNat) * 256 + (si / 256 % 256).toNat) * 256 + (si % 256).toNat : Nat) : Int)) = si % 4294967296 := by
  have h := bytes_value_3 (si / 256)
  generalize (((si / 256 / 256 / 256 % 256).toNat) * 256 + (si / 256 / 256 % 256).toNat) * 256 + (si / 256 % 256).toNat = A at h ⊢
  omega

/-- A value of 4 byte(s) is decoded from its 4-byte encoding. -/
theorem intDecode_intEncodeBytes_4 (si : Int) (hlo : -2147483648 ≤ si) (hhi : si ≤ 2147483647) :
    intDecode (intEncodeBytes si 4) 4 = some si := by
  rw [intEncodeBytes_4, intDecode, uintDecode_4 _ _ _ _
    (byte_lt _) (byte_lt _) (byte_lt _) (byte_lt _)]
  have k := bytes_value_4 si
  generalize ((((si / 256 / 256 / 256 % 256).toNat) * 256 + (si / 256 / 256 % 256).toNat) * 256 + (si / 256 % 256).toNat) * 256 + (si % 256).toNat = u at k ⊢
  simp only [maxUInt, List.getElem?_cons_zero, List.getElem?_cons_succ, Option.bind_eq_bind,
    Option.some_bind, Option.pure_def, Nat.reduceShiftRight, Option.some.injEq]
  unfold toInt64 sub64
  split_ifs <;> omega

/-- The bytes of `intEncode(si, 5)`. -/
theorem intEncodeBytes_5 (si : Int) :
    intEncodeBytes si 5 =
      [(si / 256 / 256 / 256 / 256 % 256).toNat, (si / 256 / 256 / 256 % 256).toNat, (si / 256 / 256 % 256).toNat, (si / 256 % 256).toNat, (si % 256).toNat] := by
  unfold intEncodeBytes
  simp only [Int.shiftRight_eq_div_pow]
  simp [List.range, List.range.loop]

/-- The value of `uintDecode` on 5 byte(s). -/
theorem uintDecode_5 (b0 b1 b2 b3 b4 : Nat) (h0 : b0 < 256) (h1 : b1 < 256) (h2 : b2 < 256) (h3 : b3 < 256) (h4 : b4 < 256) :
    uintDecode [b0, b1, b2, b3, b4] 5 = some (((((b0) * 256 + b1) * 256 + b2) * 256 + b3) * 256 + b4) := by
  unfold uintDecode
  simp only [List.range, List.range.loop, List.foldlM, List.getElem?_cons_zero,
    List.getElem?_cons_succ, Option.map_some', Option.bind_eq_bind, Option.some_bind,
    shl64_zero, Nat.zero_or, Option.pure_def]
  rw [shl_or_byte (b0) b1 (by omega) h1]
  rw [shl_or_byte ((b0) * 256 + b1) b2 (by omega) h2]
  rw [shl_or_byte (((b0) * 256 + b1) * 256 + b2) b3 (by omega) h3]
  rw [shl_or_byte ((((b0) * 256 + b1) * 256 + b2) * 256 + b3) b4 (by omega) h4]

/-- The 5 byte(s) of `si`, read as a number, are `si` modulo `256 ^ 5`. -/
theorem bytes_value_5 (si : Int) :
    ((((((((si / 256 / 256 / 256 / 256 % 256).toNat) * 256 + (si / 256 / 256 / 256 % 256).toNat) * 256 + (si / 256 / 256 % 256).toNat) * 256 + (si / 256 % 256).toNat) * 256 + (si % 256).toNat : Nat) : Int)) = si % 1099511627776 := by
  have h := bytes_value_4 (si / 256)
  generalize ((((si / 256 / 256 / 256 / 256 % 256).toNat) * 256 + (si / 256 / 256 / 256 % 256).toNat) * 256 + (si / 256 / 256 % 256).toNat) * 256 + (si / 256 % 256).toNat = A at h ⊢
  omega

/-- A value of 5 byte(s) is decoded from its 5-byte encoding. -/
theorem intDecode_intEncodeBytes_5 (si : Int) (hlo : -549755813888 ≤ si) (hhi : si ≤ 549755813887) :
    intDecode (intEncodeBytes si 5) 5 = some si := by
  rw [intEncodeBytes_5, intDecode, uintDecode_5 _ _ _ _ _
    (byte_lt _) (byte_lt _) (byte_lt _) (byte_lt _) (byte_lt _)]
  have k := bytes_value_5 si
  generalize (((((si / 256 / 256 / 256 / 256 % 256).toNat) * 256 + (si / 256 / 256 / 256 % 256).toNat) * 256 + (si / 256 / 256 % 256).toNat) * 256 + (si / 256 % 256).toNat) * 256 + (si % 256).toNat = u at k ⊢
  simp only [maxUInt, List.getElem?_cons_zero, List.getElem?_cons_succ, Option.bind_eq_bind,
    Option.some_bind, Option.pure_def, Nat.reduceShiftRight, Option.some.injEq]
  unfold toInt64 sub64
  split_ifs <;> omega

/-- The bytes of `intEncode(si, 6)`. -/
theorem intEncodeBytes_6 (si : Int) :
    intEncodeBytes si 6 =
      [(si / 256 / 256 / 256 / 256 / 256 % 256).toNat, (si / 256 / 256 / 256 / 256 % 256).toNat, (si / 256 / 256 / 256 % 256).toNat, (si / 256 / 256 % 256).toNat, (si / 256 % 256).toNat, (si % 256).toNat] := by
  unfold intEncodeBytes
  simp only [Int.shiftRight_eq_div_pow]
  simp [List.range, List.range.loop]

/-- The value of `uintDecode` on 6 byte(s). -/
theorem uintDecode_6 (b0 b1 b2 b3 b4 b5 : Nat) (h0 : b0 < 256) (h1 : b1 < 256) (h2 : b2 < 256) (h3 : b3 < 256) (h4 : b4 < 256) (h5 : b5 < 256) :
    uintDecode [b0, b1, b2, b3, b4, b5] 6 = some ((((((b0) * 256 + b1) * 256 + b2) * 256 + b3) * 256 + b4) * 256 + b5) := by
  unfold uintDecode
  simp only [List.range, List.range.loop, List.foldlM, List.getElem?_cons_zero,
    List.getElem?_cons_succ, Option.map_some', Option.bind_eq_bind, Option.some_bind,
    shl64_zero, Nat.zero_or, Option.pure_def]
  rw [shl_or_byte (b0) b1 (by omega) h1]
  rw [shl_or_byte ((b0) * 256 + b1) b2 (by omega) h2]
  rw [shl_or_byte (((b0) * 256 + b1) * 256 + b2) b3 (by omega) h3]
  rw [shl_or_byte ((((b0) * 256 + b1) * 256 + b2) * 256 + b3) b4 (by omega) h4]
  rw [shl_or_byte (((((b0) * 256 + b1) * 256 + b2) * 256 + b3) * 256 + b4) b5 (by omega) h5]

/-- The 6 byte(s) of `si`, read as a number, are `si` modulo `256 ^ 6`. -/
theorem bytes_value_6 (si : Int) :
    (((((((((si / 256 / 256 / 256 / 256 / 256 % 256).toNat) * 256 + (si / 256 / 256 / 256 / 256 % 256).toNat) * 256 + (si / 256 / 256 / 256 % 256).toNat) * 256 + (si / 256 / 256 % 256).toNat) * 256 + (si / 256 % 256).toNat) * 256 + (si % 256).toNat : Nat) : Int)) = si % 281474976710656 := by
  have h := bytes_value_5 (si / 256)
  generalize (((((si / 256 / 256 / 256 / 256 / 256 % 256).toNat) * 256 + (si / 256 / 256 / 256 / 256 % 256).toNat) * 256 + (si / 256 / 256 / 256 % 256).toNat) * 256 + (si / 256 / 256 % 256).toNat) * 256 + (si / 256 % 256).toNat = A at h ⊢
  omega

/-- A value of 6 byte(s) is decoded from its 6-byte encoding. -/
theorem intDecode_intEncodeBytes_6 (si : Int) (hlo : -140737488355328 ≤ si) (hhi : si ≤ 140737488355327) :
    intDecode (intEncodeBytes si 6) 6 = some si := by
  rw [intEncodeBytes_6, intDecode, uintDecode_6 _ _ _ _ _ _
    (byte_lt _) (byte_lt _) (byte_lt _) (byte_lt _) (byte_lt _) (byte_lt _)]
  have k := bytes_value_6 si
  generalize ((((((si / 256 / 256 / 256 / 256 / 256 % 256).toNat) * 256 + (si / 256 / 256 / 256 / 256 % 256).toNat) * 256 + (si / 256 / 256 / 256 % 256).toNat) * 256 + (si / 256 / 256 % 256).toNat) * 256 + (si / 256 % 256).toNat) * 256 + (si % 256).toNat = u at k ⊢
  simp only [maxUInt, List.getElem?_cons_zero, List.getElem?_cons_succ, Option.bind_eq_bind,
    Option.some_bind, Option.pure_def, Nat.reduceShiftRight, Option.some.injEq]
  unfold toInt64 sub64
  split_ifs <;> omega

/-- The bytes of `intEncode(si, 7)`. -/
theorem intEncodeBytes_7 (si : Int) :
    intEncodeBytes si 7 =
      [(si / 256 / 256 / 256 / 256 / 256 / 256 % 256).toNat, (si / 256 / 256 / 256 / 256 / 256 % 256).toNat, (si / 256 / 256 / 256 / 256 % 256).toNat, (si / 256 / 256 / 256 % 256).toNat, (si / 256 / 256 % 256).toNat, (si / 256 % 256).toNat, (si % 256).toNat] := by
  unfold intEncodeBytes
  simp only [Int.shiftRight_eq_div_pow]
  simp [List.range, List.range.loop]

/-- The value of `uintDecode` on 7 byte(s). -/
theorem uintDecode_7 (b0 b1 b2 b3 b4 b5 b6 : Nat) (h0 : b0 < 256) (h1 : b1 < 256) (h2 : b2 < 256) (h3 : b3 < 256) (h4 : b4 < 256) (h5 : b5 < 256) (h6 : b6 < 256) :
    uintDecode [b0, b1, b2, b3, b4, b5, b6] 7 = some (((((((b0) * 256 + b1) * 256 + b2) * 256 + b3) * 256 + b4) * 256 + b5) * 256 + b6) := by
  unfold uintDecode
  simp only [List.range, List.range.loop, List.foldlM, List.getElem?_cons_zero,
    List.getElem?_cons_succ, Option.map_some', Option.bind_eq_bind, Option.some_bind,
    shl64_zero, Nat.zero_or, Option.pure_def]
  rw [shl_or_byte (b0) b1 (by omega) h1]
  rw [shl_or_byte ((b0) * 256 + b1) b2 (by omega) h2]
  rw [shl_or_byte (((b0) * 256 + b1) * 256 + b2) b3 (by omega) h3]
  rw [shl_or_byte ((((b0) * 256 + b1) * 256 + b2) * 256 + b3) b4 (by omega) h4]
  rw [shl_or_byte (((((b0) * 256 + b1) * 256 + b2) * 256 + b3) * 256 + b4) b5 (by omega) h5]
  rw [shl_or_byte ((((((b0) * 256 + b1) * 256 + b2) * 256 + b3) * 256 + b4) * 256 + b5) b6 (by omega) h6]

/-- The 7 byte(s) of `si`, read as a number, are `si` modulo `256 ^ 7`. -/
theorem bytes_value_7 (si : Int) :
    ((((((((((si / 256 / 256 / 256 / 256 / 256 / 256 % 256).toNat) * 256 + (si / 256 / 256 / 256 / 256 / 256 % 256).toNat) * 256 + (si / 256 / 256 / 256 / 256 % 256).toNat) * 256 + (si / 256 / 256 / 256 % 256).toNat) * 256 + (si / 256 / 256 % 256).toNat) * 256 + (si / 256 % 256).toNat) * 256 + (si % 256).toNat : Nat) : Int)) = si % 72057594037927936 := by
  have h := bytes_value_6 (si / 256)
  generalize ((((((si / 256 / 256 / 256 / 256 / 256 / 256 % 256).toNat) * 256 + (si / 256 / 256 / 256 / 256 / 256 % 256).toNat) * 256 + (si / 256 / 256 / 256 / 256 % 256).toNat) * 256 + (si / 256 / 256 / 256 % 256).toNat) * 256 + (si / 256 / 256 % 256).toNat) * 256 + (si / 256 % 256).toNat = A at h ⊢
  omega

/-- A value of 7 byte(s) is decoded from its 7-byte encoding. -/
theorem intDecode_intEncodeBytes_7 (si : Int) (hlo : -36028797018963968 ≤ si) (hhi : si ≤ 36028797018963967) :
    intDecode (intEncodeBytes si 7) 7 = some si := by
  rw [intEncodeBytes_7, intDecode, uintDecode_7 _ _ _ _ _ _ _
    (byte_lt _) (byte_lt _) (byte_lt _) (byte_lt _) (byte_lt _) (byte_lt _) (byte_lt _)]
  have k := bytes_value_7 si
  generalize (((((((si / 256 / 256 / 256 / 256 / 256 / 256 % 256).toNat) * 256 + (si / 256 / 256 / 256 / 256 / 256 % 256).toNat) * 256 + (si / 256 / 256 / 256 / 256 % 256).toNat) * 256 + (si / 256 / 256 / 256 % 256).toNat) * 256 + (si / 256 / 256 % 256).toNat) * 256 + (si / 256 % 256).toNat) * 256 + (si % 256).toNat = u at k ⊢
  simp only [maxUInt, List.getElem?_cons_zero, List.getElem?_cons_succ, Option.bind_eq_bind,
    Option.some_bind, Option.pure_def, Nat.reduceShiftRight, Option.some.injEq]
  unfold toInt64 sub64
  split_ifs <;> omega

/-- The bytes of `intEncode(si, 8)`. -/
theorem intEncodeBytes_8 (si : Int) :
    intEncodeBytes si 8 =
      [(si / 256 / 256 / 256 / 256 / 256 / 256 / 256 % 256).toNat, (si / 256 / 256 / 256 / 256 / 256 / 256 % 256).toNat, (si / 256 / 256 / 256 / 256 / 256 % 256).toNat, (si / 256 / 256 / 256 / 256 % 256).toNat, (si / 256 / 256 / 256 % 256).toNat, (si / 256 / 256 % 256).toNat, (si / 256 % 256).toNat, (si % 256).toNat] := by
  unfold intEncodeBytes
  simp only [Int.shiftRight_eq_div_pow]
  simp [List.range, List.range.loop]

/-- The value of `uintDecode` on 8 byte(s). -/
theorem uintDecode_8 (b0 b1 b2 b3 b4 b5 b6 b7 : Nat) (h0 : b0 < 256) (h1 : b1 < 256) (h2 : b2 < 256) (h3 : b3 < 256) (h4 : b4 < 256) (h5 : b5 < 256) (h6 : b6 < 256) (h7 : b7 < 256) :
    uintDecode [b0, b1, b2, b3, b4, b5, b6, b7] 8 = some ((((((((b0) * 256 + b1) * 256 + b2) * 256 + b3) * 256 + b4) * 256 + b5) * 256 + b6) * 256 + b7) := by
  unfold uintDecode
  simp only [List.range, List.range.loop, List.foldlM, List.getElem?_cons_zero,
    List.getElem?_cons_succ, Option.map_some', Option.bind_eq_bind, Option.some_bind,
    shl64_zero, Nat.zero_or, Option.pure_def]
  rw [shl_or_byte (b0) b1 (by omega) h1]
  rw [shl_or_byte ((b0) * 256 + b1) b2 (by omega) h2]
  rw [shl_or_byte (((b0) * 256 + b1) * 256 + b2) b3 (by omega) h3]
  rw [shl_or_byte ((((b0) * 256 + b1) * 256 + b2) * 256 + b3) b4 (by omega) h4]
  rw [shl_or_byte (((((b0) * 256 + b1) * 256 + b2) * 256 + b3) * 256 + b4) b5 (by omega) h5]
  rw [shl_or_byte ((((((b0) * 256 + b1) * 256 + b2) * 256 + b3) * 256 + b4) * 256 + b5) b6 (by omega) h6]
  rw [shl_or_byte (((((((b0) * 256 + b1) * 256 + b2) * 256 + b3) * 256 + b4) * 256 + b5) * 256 + b6) b7 (by omega) h7]

/-- The 8 byte(s) of `si`, read as a number, are `si` modulo `256 ^ 8`. -/
theorem bytes_value_8 (si : Int) :
    (((((((((((si / 256 / 256 / 256 / 256 / 256 / 256 / 256 % 256).toNat) * 256 + (si / 256 / 256 / 256 / 256 / 256 / 256 % 256).toNat) * 256 + (si / 256 / 256 / 256 / 256 / 256 % 256).toNat) * 256 + (si / 256 / 256 / 256 / 256 % 256).toNat) * 256 + (si / 256 / 256 / 256 % 256).toNat) * 256 + (si / 256 / 256 % 256).toNat) * 256 + (si / 256 % 256).toNat) * 256 + (si % 256).toNat : Nat) : Int)) = si % 18446744073709551616 := by
  have h := bytes_value_7 (si / 256)
  generalize (((((((si / 256 / 256 / 256 / 256 / 256 / 256 / 256 % 256).toNat) * 256 + (si / 256 / 256 / 256 / 256 / 256 / 256 % 256).toNat) * 256 + (si / 256 / 256 / 256 / 256 / 256 % 256).toNat) * 256 + (si / 256 / 256 / 256 / 256 % 256).toNat) * 256 + (si / 256 / 256 / 256 % 256).toNat) * 256 + (si / 256 / 256 % 256).toNat) * 256 + (si / 256 % 256).toNat = A at h ⊢
  omega

/-- A value of 8 byte(s) is decoded from its 8-byte encoding. -/
theorem intDecode_intEncodeBytes_8 (si : Int) (hlo : -9223372036854775808 ≤ si) (hhi : si ≤ 9223372036854775807) :
    intDecode (intEncodeBytes si 8) 8 = some si := by
  rw [intEncodeBytes_8, intDecode, uintDecode_8 _ _ _ _ _ _ _ _
    (byte_lt _) (byte_lt _) (byte_lt _) (byte_lt _) (byte_lt _) (byte_lt _) (byte_lt _) (byte_lt _)]
  have k := bytes_value_8 si
  generalize ((((((((si / 256 / 256 / 256 / 256 / 256 / 256 / 256 % 256).toNat) * 256 + (si / 256 / 256 / 256 / 256 / 256 / 256 % 256).toNat) * 256 + (si / 256 / 256 / 256 / 256 / 256 % 256).toNat) * 256 + (si / 256 / 256 / 256 / 256 % 256).toNat) * 256 + (si / 256 / 256 / 256 % 256).toNat) * 256 + (si / 256 / 256 % 256).toNat) * 256 + (si / 256 % 256).toNat) * 256 + (si % 256).toNat = u at k ⊢
  simp only [maxUInt, List.getElem?_cons_zero, List.getElem?_cons_succ, Option.bind_eq_bind,
    Option.some_bind, Option.pure_def, Nat.reduceShiftRight, Option.some.injEq]
  unfold toInt64 sub64
  split_ifs <;> omega

/-- The width that `intNumBytes` returns holds the value, and it is the least
such width unless that is 4: the case of 4 bytes is never taken, a value that
needs 4 bytes gets 5. -/
theorem intNumBytes_width (si : Int) (hlo : -(2 : Int) ^ 63 ≤ si) (hhi : si ≤ (2 : Int) ^ 63 - 1) :
    fitsWidth si (intNumBytes si) ∧ intNumBytes si ≠ 4 ∧
    ∀ n, 1 ≤ n → n ≤ 8 → fitsWidth si n →
      intNumBytes si ≤ n ∨ (n = 4 ∧ intNumBytes si = 5) := by
  have e : negHex80000000 = 2147483648 := by decide
  refine ⟨?_, ?_, ?_⟩
  · unfold intNumBytes fitsWidth
    rw [e]
    split_ifs <;> norm_num <;> omega
  · unfold intNumBytes
    rw [e]
    split_ifs <;> omega
  · intro n h1 h8 hf
    unfold fitsWidth at hf
    unfold intNumBytes
    rw [e]
    interval_cases n <;> norm_num at hf <;> split_ifs <;> omega

/-- Every 64-bit value is decoded from its encoding: `intDecode(intEncode(si),
intNumBytes(si))` is `si`. -/
theorem intDecode_intEncode (si : Int) (hlo : -(2 : Int) ^ 63 ≤ si) (hhi : si ≤ (2 : Int) ^ 63 - 1) :
    intDecode (intEncode si) (intNumBytes si) = some si := by
  have e : negHex80000000 = 2147483648 := by decide
  norm_num at hlo hhi
  unfold intEncode
  by_cases h1 : si ≥ -0x80 ∧ si ≤ 0x7F
  · have hn : intNumBytes si = 1 := by unfold intNumBytes; rw [if_pos h1]
    rw [hn]; exact intDecode_intEncodeBytes_1 si (by omega) (by omega)
  by_cases h2 : si ≥ -0x8000 ∧ si ≤ 0x7FFF
  · have hn : intNumBytes si = 2 := by unfold intNumBytes; rw [if_neg h1, if_pos h2]
    rw [hn]; exact intDecode_intEncodeBytes_2 si (by omega) (by omega)
  by_cases h3 : si ≥ -0x800000 ∧ si ≤ 0x7FFFFF
  · have hn : intNumBytes si = 3 := by unfold intNumBytes; rw [if_neg h1, if_neg h2, if_pos h3]
    rw [hn]; exact intDecode_intEncodeBytes_3 si (by omega) (by omega)
  have h4 : ¬ (si ≥ negHex80000000 ∧ si ≤ 0x7FFFFFFF) := by rw [e]; omega
  by_cases h5 : si ≥ -0x8000000000 ∧ si ≤ 0x7FFFFFFFFF
  · have hn : intNumBytes si = 5 := by
      unfold intNumBytes; rw [if_neg h1, if_neg h2, if_neg h3, if_neg h4, if_pos h5]
    rw [hn]; exact intDecode_intEncodeBytes_5 si (by omega) (by omega)
  by_cases h6 : si ≥ -0x800000000000 ∧ si ≤ 0x7FFFFFFFFFFF
  · have hn : intNumBytes si = 6 := by
      unfold intNumBytes; rw [if_neg h1, if_neg h2, if_neg h3, if_neg h4, if_neg h5, if_pos h6]
    rw [hn]; exact intDecode_intEncodeBytes_6 si (by omega) (by omega)
  by_cases h7 : si ≥ -0x80000000000000 ∧ si ≤ 0x7FFFFFFFFFFFFF
  · have hn : intNumBytes si = 7 := by
      unfold intNumBytes
      rw [if_neg h1, if_neg h2, if_neg h3, if_neg h4, if_neg h5, if_neg h6, if_pos h7]
    rw [hn]; exact intDecode_intEncodeBytes_7 si (by omega) (by omega)
  · have hn : intNumBytes si = 8 := by
      unfold intNumBytes
      rw [if_neg h1, if_neg h2, if_neg h3, if_neg h4, if_neg h5, if_neg h6, if_neg h7]
    rw [hn]; exact intDecode_intEncodeBytes_8 si (by omega) (by omega)

/-- C27 (code at the failing input). The value `0x800000` needs 4 bytes: it
fits the two's complement of 4 bytes and not that of 3.  `intNumBytes` returns
5 for it: the test `si >= -0x80000000` of the 4-byte case compares with
`2147483648`, so that case is never taken, for no value at all.  The value is
still decoded from its 5-byte encoding. -/
theorem intNumBytes_skips_four_bytes :
    negHex80000000 = 2147483648 ∧
    fitsWidth 0x800000 4 ∧ ¬ fitsWidth 0x800000 3 ∧
    intNumBytes 0x800000 = 5 ∧
    intEncode 0x800000 = [0, 0, 0x80, 0, 0] ∧
    intDecode (intEncode 0x800000) (intNumBytes 0x800000) = some 0x800000 ∧
    ∀ si : Int, intNumBytes si ≠ 4 := by
  refine ⟨by decide, by decide, by decide, by decide, by decide, by decide, ?_⟩
  intro si
  have e : negHex80000000 = 2147483648 := by decide
  unfold intNumBytes
  rw [e]
  split_ifs <;> omega


/-! ### Playlist::lookupGroup -/

/-- The items before group `i + 1` are those before group `i` and those of
group `i`. -/
theorem itemsBefore_succ (groups : List PlaylistGroup) (i : Nat) (h : i < groups.length) :
    itemsBefore groups (i + 1) = itemsBefore groups i + (groups.get ⟨i, h⟩).numItems := by
  unfold itemsBefore
  rw [List.take_succ, List.getElem?_eq_getElem h, List.map_append, List.sum_append]
  simp only [Option.toList, List.map_cons, List.map_nil, List.sum_cons, List.sum_nil, Nat.add_zero]
  rfl

/-- The number of items before a group grows with the index of the group. -/
theorem itemsBefore_mono (groups : List PlaylistGroup) (i j : Nat) (h : i ≤ j) :
    itemsBefore groups i ≤ itemsBefore groups j := by
  induction j with
  | zero =>
    have : i = 0 := by omega
    subst this; exact le_refl _
  | succ k ih =>
    by_cases hk : i ≤ k
    · by_cases hl : k < groups.length
      · rw [itemsBefore_succ groups k hl]
        exact le_trans (ih hk) (Nat.le_add_right _ _)
      · have e : itemsBefore groups (k + 1) = itemsBefore groups k := by
          unfold itemsBefore
          rw [List.take_of_length_le (by omega), List.take_of_length_le (by omega)]
        rw [e]; exact ih hk
    · have : i = k + 1 := by omega
      subst this; exact le_refl _

/-- The loop of `updateOffsets` keeps the sizes, sets the offsets to the running
sums and returns the total. -/
theorem updateOffsetsLoop_spec (groups : List PlaylistGroup) :
    ∀ offset : Nat,
      (updateOffsetsLoop offset groups).1.map (fun g => g.numItems) =
        groups.map (fun g => g.numItems) ∧
      (updateOffsetsLoop offset groups).2 = offset + itemsBefore groups groups.length ∧
      ∀ i (h : i < (updateOffsetsLoop offset groups).1.length),
        ((updateOffsetsLoop offset groups).1.get ⟨i, h⟩).offset_ = offset + itemsBefore groups i := by
  induction groups with
  | nil => intro offset; simp [updateOffsetsLoop, itemsBefore]
  | cons g rest ih =>
    intro offset
    obtain ⟨h1, h2, h3⟩ := ih (offset + g.numItems)
    refine ⟨?_, ?_, ?_⟩
    · simp [updateOffsetsLoop, h1]
    · simp only [updateOffsetsLoop, h2]
      simp [itemsBefore]
      omega
    · intro i h
      cases i with
      | zero => simp [updateOffsetsLoop, itemsBefore]
      | succ k =>
        simp only [updateOffsetsLoop, List.length_cons] at h
        have := h3 k (by omega)
        simp only [updateOffsetsLoop, List.get_cons_succ, this]
        simp [itemsBefore]
        omega

/-- The function `Playlist::updateOffsets` leaves the offsets cumulative. -/
theorem updateOffsets_cumulative (p : Playlist) : p.updateOffsets.cumulative := by
  obtain ⟨h1, h2, h3⟩ := updateOffsetsLoop_spec p.groups_ 0
  have hlen : (updateOffsetsLoop 0 p.groups_).1.length = p.groups_.length := by
    have := congrArg List.length h1
    simpa using this
  have hb : ∀ i, itemsBefore (updateOffsetsLoop 0 p.groups_).1 i = itemsBefore p.groups_ i := by
    intro i
    unfold itemsBefore
    rw [List.map_take, List.map_take, h1]
  constructor
  · intro i h
    simp only [Playlist.updateOffsets] at h ⊢
    rw [h3 i h, hb]; simp
  · simp only [Playlist.updateOffsets]
    rw [h2, hb, hlen]; simp

/-- The loop of `lookupGroup` ends within `i1 - i0 + 1` passes; at its exit no
group before `i0` holds the index and the group at `i0`, if there is one, ends
after it. -/
theorem lookupLoop_spec (groups : List PlaylistGroup) (index : Nat)
    (hoff : ∀ i (h : i < groups.length), (groups.get ⟨i, h⟩).offset_ = itemsBefore groups i) :
    ∀ fuel i0 i1, i0 ≤ i1 → i1 ≤ groups.length → i1 - i0 < fuel →
      itemsBefore groups i0 ≤ index →
      (i1 < groups.length → index < itemsBefore groups (i1 + 1)) →
      ∃ r, lookupLoop groups index fuel i0 i1 = some r ∧ i0 ≤ r ∧ r ≤ i1 ∧
        itemsBefore groups r ≤ index ∧
        (r < groups.length → index < itemsBefore groups (r + 1)) := by
  intro fuel
  induction fuel with
  | zero => intro i0 i1 _ _ h; omega
  | succ f ih =>
    intro i0 i1 h01 h1n hf hI1 hI2
    by_cases he : i0 = i1
    · subst he
      exact ⟨i0, by simp [lookupLoop], le_refl _, le_refl _, hI1, hI2⟩
    · have hi : i0 + (i1 - i0) / 2 < i1 := by omega
      have hil : i0 + (i1 - i0) / 2 < groups.length := by omega
      have hend : (groups.get ⟨i0 + (i1 - i0) / 2, hil⟩).offset_ +
          (groups.get ⟨i0 + (i1 - i0) / 2, hil⟩).numItems =
          itemsBefore groups (i0 + (i1 - i0) / 2 + 1) := by
        rw [hoff _ hil, itemsBefore_succ groups _ hil]
      have hg : groups[i0 + (i1 - i0) / 2]? = some (groups.get ⟨i0 + (i1 - i0) / 2, hil⟩) := by
        rw [List.getElem?_eq_getElem hil]; rfl
      rw [lookupLoop, if_pos he]
      simp only [hg, hend]
      by_cases hlt : index < itemsBefore groups (i0 + (i1 - i0) / 2 + 1)
      · rw [if_pos hlt]
        have hm : min (i0 + (i1 - i0) / 2) (i1 - 1) = i0 + (i1 - i0) / 2 := by omega
        rw [hm]
        obtain ⟨r, hr, ha, hb, hc, hd⟩ :=
          ih i0 (i0 + (i1 - i0) / 2) (by omega) (by omega) (by omega) hI1 (fun _ => hlt)
        exact ⟨r, hr, ha, by omega, hc, hd⟩
      · rw [if_neg hlt]
        have hI1' : itemsBefore groups (max (i0 + (i1 - i0) / 2) (i0 + 1)) ≤ index := by
          have hmx : max (i0 + (i1 - i0) / 2) (i0 + 1) ≤ i0 + (i1 - i0) / 2 + 1 := by omega
          exact le_trans (itemsBefore_mono groups _ _ hmx) (by omega)
        obtain ⟨r, hr, ha, hb, hc, hd⟩ :=
          ih (max (i0 + (i1 - i0) / 2) (i0 + 1)) i1 (by omega) h1n (by omega) hI1' hI2
        exact ⟨r, hr, by omega, hb, hc, hd⟩

/-- C28. For a playlist with cumulative offsets and an index below `numItems_`,
the binary search of `Playlist::lookupGroup` ends and returns a group, never
the fallback of the failed assertion; the group is not empty, its range
`[offset, offset + size)` holds the index, and it is the only group with these
properties.  `Playlist::updateOffsets` leaves the offsets cumulative. -/
theorem lookupGroup_finds_group (p : Playlist) (index : Nat) (hc : p.cumulative)
    (hi : index < p.numItems_) :
    p.updateOffsets.cumulative ∧
    ∃ i, ∃ h : i < p.groups_.length,
      p.lookupGroup index = some (LookupResult.group i) ∧
      0 < (p.groups_.get ⟨i, h⟩).numItems ∧
      (p.groups_.get ⟨i, h⟩).offset_ ≤ index ∧
      index < (p.groups_.get ⟨i, h⟩).offset_ + (p.groups_.get ⟨i, h⟩).numItems ∧
      ∀ j, ∀ hj : j < p.groups_.length,
        (p.groups_.get ⟨j, hj⟩).offset_ ≤ index →
        index < (p.groups_.get ⟨j, hj⟩).offset_ + (p.groups_.get ⟨j, hj⟩).numItems → j = i := by
  refine ⟨updateOffsets_cumulative p, ?_⟩
  obtain ⟨hoff, hnum⟩ := hc
  obtain ⟨r, hr, _, hrn, hle, hlt⟩ :=
    lookupLoop_spec p.groups_ index hoff (p.groups_.length + 1) 0 p.groups_.length
      (Nat.zero_le _) (le_refl _) (by omega) (by simp [itemsBefore]) (fun h => absurd h (lt_irrefl _))
  have hrl : r < p.groups_.length := by
    rcases Nat.lt_or_ge r p.groups_.length with h | h
    · exact h
    · have : r = p.groups_.length := by omega
      subst this
      omega
  have hend := itemsBefore_succ p.groups_ r hrl
  have hlt' := hlt hrl
  have hne : p.groups_.isEmpty = false := by
    cases hg : p.groups_ with
    | nil => rw [hg] at hrl; simp at hrl
    | cons a l => rfl
  refine ⟨r, hrl, ?_, ?_, ?_, ?_, ?_⟩
  · have hg : p.groups_[r]? = some (p.groups_.get ⟨r, hrl⟩) := by
      rw [List.getElem?_eq_getElem hrl]; rfl
    have hcond : r < p.groups_.length ∧
        index < (p.groups_.get ⟨r, hrl⟩).offset_ + (p.groups_.get ⟨r, hrl⟩).numItems := by
      rw [hoff r hrl]; exact ⟨hrl, by omega⟩
    unfold Playlist.lookupGroup
    rw [hne]
    simp only [Bool.false_eq_true, if_false, ge_iff_le, if_neg (not_le.mpr hi), hr, hg,
      if_pos hcond]
  · omega
  · rw [hoff r hrl]; exact hle
  · rw [hoff r hrl]; omega
  · intro j hj h1 h2
    rw [hoff j hj] at h1 h2
    have hej := itemsBefore_succ p.groups_ j hj
    rcases Nat.lt_trichotomy j r with h | h | h
    · have := itemsBefore_mono p.groups_ (j + 1) r (by omega)
      omega
    · exact h
    · have := itemsBefore_mono p.groups_ (r + 1) j (by omega)
      omega

/-- Witness for C28: four groups of 3, 0, 2 and 4 items; the item 3 lies in the
third group, past the empty one. -/
theorem lookupGroup_finds_group_witness :
    fourGroups.updateOffsets.lookupGroup 3 = some (LookupResult.group 2) ∧
    (3 : Nat) < fourGroups.updateOffsets.numItems_ ∧
    (fourGroups.updateOffsets.updateOffsets.cumulative ∧
    ∃ i, ∃ h : i < fourGroups.updateOffsets.groups_.length,
      fourGroups.updateOffsets.lookupGroup 3 = some (LookupResult.group i) ∧
      0 < (fourGroups.updateOffsets.groups_.get ⟨i, h⟩).numItems ∧
      (fourGroups.updateOffsets.groups_.get ⟨i, h⟩).offset_ ≤ 3 ∧
      3 < (fourGroups.updateOffsets.groups_.get ⟨i, h⟩).offset_ +
        (fourGroups.updateOffsets.groups_.get ⟨i, h⟩).numItems ∧
      ∀ j, ∀ hj : j < fourGroups.updateOffsets.groups_.length,
        (fourGroups.updateOffsets.groups_.get ⟨j, hj⟩).offset_ ≤ 3 →
        3 < (fourGroups.updateOffsets.groups_.get ⟨j, hj⟩).offset_ +
          (fourGroups.updateOffsets.groups_.get ⟨j, hj⟩).numItems → j = i) :=
  ⟨by decide, by decide,
    lookupGroup_finds_group fourGroups.updateOffsets 3 (updateOffsets_cumulative fourGroups)
      (by decide)⟩

/-! ### AudioTrack: traits, tempo and seek -/

/-- The members that `noteNativeTraitsChanged` leaves alone, and the filter it
leaves: one exactly when there is a filter class for the output traits. -/
theorem noteNativeTraitsChanged_fields {σ : Type} (e : AudioEnums) (f : TempoFilterApi σ)
    (t : AudioTrackFull σ) :
    (t.noteNativeTraitsChanged e f).toAudioTrack = t.toAudioTrack ∧
    (t.noteNativeTraitsChanged e f).output_ = t.output_ ∧
    (t.noteNativeTraitsChanged e f).override_ = t.override_ ∧
    (t.noteNativeTraitsChanged e f).tempo_ = t.tempo_ ∧
    (t.noteNativeTraitsChanged e f).payload_ = t.payload_ ∧
    (t.noteNativeTraitsChanged e f).tempoFilter_.isSome = (tempoFilterKind e t.output_).isSome := by
  unfold AudioTrackFull.noteNativeTraitsChanged
  cases tempoFilterKind e t.output_ <;> simp

/-- The output traits and the queue after `decoderStartup`. -/
theorem decoderStartup_fields {σ : Type} (e : AudioEnums) (f : TempoFilterApi σ)
    (getNumberOfChannels : Nat → Nat) (getTraits : AudioTraits → AudioTraits × Bool)
    (start_time : Int) (u : AudioTrackFull σ) :
    (u.decoderStartup e f getNumberOfChannels getTraits start_time).1.output_ = u.override_ ∧
    (u.decoderStartup e f getNumberOfChannels getTraits start_time).1.payload_ = u.payload_ := by
  obtain ⟨_, h2, _, _, h5, _⟩ := noteNativeTraitsChanged_fields e f
    { u with output_ := u.override_, sampleRate_ := u.override_.sampleRate_,
             outputChannels_ := getNumberOfChannels u.override_.channelLayout_,
             native_ := (getTraits u.native_).1 }
  unfold AudioTrackFull.decoderStartup
  cases hr : (getTraits u.native_).2
  · simp [hr]
  · simp only [hr, Bool.not_true, Bool.false_eq_true, if_false]
    exact ⟨h2, h5⟩

/-- The members that the handling of `frameTraitsChanged` leaves alone. -/
theorem frameTraitsChanged_fields {σ : Type} (e : AudioEnums) (f : TempoFilterApi σ)
    (t : AudioTrackFull σ) (nc : Option AudioTraits)
    (hcons : t.tempoFilter_.isSome = (tempoFilterKind e t.output_).isSome) :
    (t.frameTraitsChanged e f nc).toAudioTrack = t.toAudioTrack ∧
    (t.frameTraitsChanged e f nc).output_ = t.output_ ∧
    (t.frameTraitsChanged e f nc).override_ = t.override_ ∧
    (t.frameTraitsChanged e f nc).tempo_ = t.tempo_ ∧
    (t.frameTraitsChanged e f nc).payload_ = t.payload_ ∧
    (t.frameTraitsChanged e f nc).tempoFilter_.isSome = (tempoFilterKind e t.output_).isSome := by
  cases nc with
  | none => exact ⟨rfl, rfl, rfl, rfl, rfl, hcons⟩
  | some native =>
    exact noteNativeTraitsChanged_fields e f { t with native_ := native }

/-- The payload of a frame: it carries the output traits; with a tempo filter
and a tempo other than 1 it is tagged with the tempo and holds what the filter
hands out, otherwise it is tagged 1 and holds the chunks as they are. -/
theorem makePayload_spec {σ : Type} (f : TempoFilterApi σ) (t : AudioTrackFull σ)
    (chunks : List (List Nat)) :
    (t.makePayload f chunks).2.traits_ = t.output_ ∧
    (t.makePayload f chunks).1.isSome = t.tempoFilter_.isSome ∧
    (∀ flt, t.tempoFilter_ = some flt → t.tempo_ ≠ 1 →
      (t.makePayload f chunks).2.tempo_ = t.tempo_ ∧
      (t.makePayload f chunks).2.data_ = (passThrough f flt chunks).2) ∧
    (t.tempoFilter_ = none ∨ t.tempo_ = 1 →
      (t.makePayload f chunks).2.tempo_ = 1 ∧
      (t.makePayload f chunks).2.data_ = chunks.flatten) := by
  unfold AudioTrackFull.makePayload
  cases hf : t.tempoFilter_ with
  | none => simp
  | some flt =>
    by_cases h1 : t.tempo_ = 1
    · simp [h1]
    · simp [h1]

/-- The handling of `frameTraitsChanged` leaves the output traits, the override
and the queue alone. -/
theorem frameTraitsChanged_queue {σ : Type} (e : AudioEnums) (f : TempoFilterApi σ)
    (t : AudioTrackFull σ) (nc : Option AudioTraits) :
    (t.frameTraitsChanged e f nc).output_ = t.output_ ∧
    (t.frameTraitsChanged e f nc).override_ = t.override_ ∧
    (t.frameTraitsChanged e f nc).tempo_ = t.tempo_ ∧
    (t.frameTraitsChanged e f nc).payload_ = t.payload_ := by
  cases nc with
  | none => exact ⟨rfl, rfl, rfl, rfl⟩
  | some native =>
    obtain ⟨_, h2, h3, h4, h5, _⟩ :=
      noteNativeTraitsChanged_fields e f { t with native_ := native }
    exact ⟨h2, h3, h4, h5⟩

/-- The members that `AudioTrack::decode` leaves alone, and the frame it adds. -/
theorem decode_full_queue {σ : Type} (api : TTimeApi) (e : AudioEnums) (f : TempoFilterApi σ)
    (t : AudioTrackFull σ) (packet : AvPkt) (o : AudioCodecOut) (nc : Option AudioTraits)
    (chunks : List (List Nat)) :
    (t.decode api e f packet o nc chunks).1.output_ = t.output_ ∧
    (t.decode api e f packet o nc chunks).1.override_ = t.override_ ∧
    (t.decode api e f packet o nc chunks).1.tempo_ = t.tempo_ ∧
    (t.decode api e f packet o nc chunks).1.tempoFilter_.isSome =
      (t.frameTraitsChanged e f nc).tempoFilter_.isSome ∧
    (t.decode api e f packet o nc chunks).1.payload_ =
      if (t.decode api e f packet o nc chunks).2.pushed then
        t.payload_ ++ [((t.frameTraitsChanged e f nc).makePayload f chunks).2]
      else t.payload_ := by
  obtain ⟨h2, h3, h4, h5⟩ := frameTraitsChanged_queue e f t nc
  obtain ⟨_, m2, _, _⟩ := makePayload_spec f (t.frameTraitsChanged e f nc) chunks
  unfold AudioTrackFull.decode
  simp only []
  split_ifs with hp
  · simp [h2, h3, h4, h5, m2]
  · simp [h2, h3, h4, h5]

/-- C22. After `AudioTrack::resetTimeCounters(seekTime, dropPending)` the
inbound packet queue is empty, `timeIn_` is `seekTime`, `timeOut_` and
`playbackEnabled_` keep their values, the discard streak is 0, no previous PTS
is recorded, and the previous sample count, the decoded-sample count and the
start time are 0, whatever `dropPending` is. -/
theorem resetTimeCounters_clean_restart {σ : Type}
    (startNewSequence : List TAudioFrame → Bool → List TAudioFrame) (reopen : Option Int)
    (t : AudioTrackFull σ) (seekTime : ℚ) (dropPendingFrames : Bool) :
    (t.resetTimeCounters startNewSequence reopen seekTime dropPendingFrames).1.packetQueue_ = [] ∧
    (t.resetTimeCounters startNewSequence reopen seekTime dropPendingFrames).1.timeIn_ =
      seekTime ∧
    (t.resetTimeCounters startNewSequence reopen seekTime dropPendingFrames).1.timeOut_ =
      t.timeOut_ ∧
    (t.resetTimeCounters startNewSequence reopen seekTime dropPendingFrames).1.playbackEnabled_ =
      t.playbackEnabled_ ∧
    (t.resetTimeCounters startNewSequence reopen seekTime dropPendingFrames).1.discarded_ = 0 ∧
    (t.resetTimeCounters startNewSequence reopen seekTime dropPendingFrames).1.hasPrevPTS_ =
      false ∧
    (t.resetTimeCounters startNewSequence reopen seekTime dropPendingFrames).1.prevNumSamples_ =
      0 ∧
    (t.resetTimeCounters startNewSequence reopen seekTime dropPendingFrames).1.samplesDecoded_ =
      0 ∧
    (t.resetTimeCounters startNewSequence reopen seekTime dropPendingFrames).1.startTime_ = 0 := by
  cases dropPendingFrames <;>
    simp [AudioTrackFull.resetTimeCounters, AudioTrack.setPlaybackInterval]

/-- C23. A frame that `AudioTrack::decode` pushes carries the output traits of
the track, which `decoderStartup` sets to the traits override and `decode`
never changes.  `setTraitsOverride` alters no frame of the queue: on a track
whose decoder does not run it changes `override_` only, and on a running one
it clears the queue and starts the decoder again.  So every frame of the queue
carries the output traits, before and after either call. -/
theorem frames_carry_output_traits {σ : Type} (api : TTimeApi) (e : AudioEnums)
    (f : TempoFilterApi σ) (getNumberOfChannels : Nat → Nat)
    (getTraits : AudioTraits → AudioTraits × Bool) (start_time : Int) (run : Bool)
    (t : AudioTrackFull σ) :
    (t.decoderStartup e f getNumberOfChannels getTraits start_time).1.output_ = t.override_ ∧
    (∀ (packet : AvPkt) (o : AudioCodecOut) (nc : Option AudioTraits) (chunks : List (List Nat)),
      (t.decode api e f packet o nc chunks).1.output_ = t.output_ ∧
      (t.decode api e f packet o nc chunks).1.override_ = t.override_ ∧
      ((t.decode api e f packet o nc chunks).2.pushed = true →
        ∃ p, (t.decode api e f packet o nc chunks).1.payload_ = t.payload_ ++ [p] ∧
          p.traits_ = t.output_) ∧
      ((t.decode api e f packet o nc chunks).2.pushed = false →
        (t.decode api e f packet o nc chunks).1.payload_ = t.payload_) ∧
      (t.framesMatchOutput → (t.decode api e f packet o nc chunks).1.framesMatchOutput)) ∧
    (∀ override : AudioTraits,
      (t.isRunning = false →
        (t.setTraitsOverride e f getNumberOfChannels getTraits start_time run override).1.output_ =
          t.output_ ∧
        (t.setTraitsOverride e f getNumberOfChannels getTraits start_time run override).1.payload_ =
          t.payload_ ∧
        (t.setTraitsOverride e f getNumberOfChannels getTraits start_time run override).1.override_ =
          override) ∧
      (t.isRunning = true → override ≠ t.override_ →
        (t.setTraitsOverride e f getNumberOfChannels getTraits start_time run override).1.payload_ =
          [] ∧
        (run = true →
          (t.setTraitsOverride e f getNumberOfChannels getTraits start_time run
            override).1.output_ = override)) ∧
      (t.framesMatchOutput →
        (t.setTraitsOverride e f getNumberOfChannels getTraits start_time run
          override).1.framesMatchOutput)) := by
  have hstart := fun u : AudioTrackFull σ =>
    decoderStartup_fields e f getNumberOfChannels getTraits start_time u
  refine ⟨(hstart t).1, ?_, ?_⟩
  · intro packet o nc chunks
    obtain ⟨d1, d2, _, _, d5⟩ := decode_full_queue api e f t packet o nc chunks
    obtain ⟨h2, _, _, _⟩ := frameTraitsChanged_queue e f t nc
    obtain ⟨m1, _, _, _⟩ := makePayload_spec f (t.frameTraitsChanged e f nc) chunks
    refine ⟨d1, d2, fun hp => ?_, fun hp => ?_, fun hm p hpm => ?_⟩
    · rw [if_pos hp] at d5
      exact ⟨_, d5, by rw [m1, h2]⟩
    · rw [hp] at d5
      simpa using d5
    · rw [d1]
      by_cases hp : (t.decode api e f packet o nc chunks).2.pushed = true
      · rw [if_pos hp] at d5
        rw [d5, List.mem_append, List.mem_singleton] at hpm
        rcases hpm with h | h
        · exact hm p h
        · rw [h, m1, h2]
      · rw [if_neg hp] at d5
        rw [d5] at hpm
        exact hm p hpm
  · intro override
    unfold AudioTrackFull.setTraitsOverride AudioTrackFull.framesMatchOutput
    by_cases heq : t.override_ = override
    · rw [if_pos heq]
      exact ⟨fun _ => ⟨rfl, rfl, heq⟩, fun _ hne => absurd heq.symm hne, fun hm => hm⟩
    · rw [if_neg heq]
      by_cases hr : t.isRunning = true
      · rw [if_pos hr, if_pos hr]
        cases run
        · rw [if_neg (by simp)]
          refine ⟨fun h => ?_, fun _ _ => ⟨rfl, fun h => ?_⟩, fun _ p hpm => ?_⟩
          · rw [hr] at h; simp at h
          · simp at h
          · simp at hpm
        · obtain ⟨s1, s2⟩ := hstart
            { t with frameQueue_ := [], payload_ := [], isRunning := true, override_ := override }
          rw [if_pos rfl]
          refine ⟨fun h => ?_, fun _ _ => ⟨s2, fun _ => s1⟩, fun _ p hpm => ?_⟩
          · rw [hr] at h; simp at h
          · have hnil : p ∈ ([] : List AudioPayload) := by
              have := s2
              simp only [] at this hpm
              rw [this] at hpm
              exact hpm
            simp at hnil
      · rw [if_neg hr, if_neg hr]
        exact ⟨fun _ => ⟨rfl, rfl, rfl⟩, fun h => absurd h hr, fun hm => hm⟩

/-- The function `AudioTrack::setTempo` stores the tempo and keeps the filter,
if there is one. -/
theorem setTempo_fields {σ : Type} (f : TempoFilterApi σ) (t : AudioTrackFull σ) (tempo : ℚ) :
    (t.setTempo f tempo).1.tempo_ = tempo ∧
    (t.setTempo f tempo).1.output_ = t.output_ ∧
    (t.setTempo f tempo).1.payload_ = t.payload_ ∧
    (t.setTempo f tempo).1.tempoFilter_.isSome = t.tempoFilter_.isSome := by
  unfold AudioTrackFull.setTempo
  cases hf : t.tempoFilter_ with
  | none => simp [hf]
  | some flt =>
    simp only [hf]
    split_ifs <;> simp

/-- After `decoderStartup` the track has a tempo filter exactly when there is a
filter class for its output traits. -/
theorem decoderStartup_filter {σ : Type} (e : AudioEnums) (f : TempoFilterApi σ)
    (getNumberOfChannels : Nat → Nat) (getTraits : AudioTraits → AudioTraits × Bool)
    (start_time : Int) (u : AudioTrackFull σ)
    (h : (u.decoderStartup e f getNumberOfChannels getTraits start_time).2 = true) :
    (u.decoderStartup e f getNumberOfChannels getTraits start_time).1.tempoFilter_.isSome =
      (tempoFilterKind e
        (u.decoderStartup e f getNumberOfChannels getTraits start_time).1.output_).isSome := by
  obtain ⟨_, h2, _, _, _, h6⟩ := noteNativeTraitsChanged_fields e f
    { u with output_ := u.override_, sampleRate_ := u.override_.sampleRate_,
             outputChannels_ := getNumberOfChannels u.override_.channelLayout_,
             native_ := (getTraits u.native_).1 }
  unfold AudioTrackFull.decoderStartup at h ⊢
  cases hr : (getTraits u.native_).2
  · simp [hr] at h
  · simp only [hr, Bool.not_true, Bool.false_eq_true, if_false]
    rw [h6, h2]

/-- The frames of a run: each one is tagged with the tempo of the track and
comes out of the tempo filter when the track has a filter and its tempo is not
1, and is tagged 1 and holds its chunks as they are otherwise. -/
theorem run_payloads {σ : Type} (api : TTimeApi) (e : AudioEnums) (f : TempoFilterApi σ)
    (ins : List AudioInput) :
    ∀ t : AudioTrackFull σ, t.tempoFilter_.isSome = (tempoFilterKind e t.output_).isSome →
      ∃ ps, (AudioTrackFull.run api e f t ins).payload_ = t.payload_ ++ ps ∧
        ∀ p ∈ ps,
          ((tempoFilterKind e t.output_).isSome = true ∧ t.tempo_ ≠ 1 →
            p.tempo_ = t.tempo_ ∧ ∃ flt, ∃ i ∈ ins, p.data_ = (passThrough f flt i.chunks).2) ∧
          ((tempoFilterKind e t.output_).isSome = false ∨ t.tempo_ = 1 →
            p.tempo_ = 1 ∧ ∃ i ∈ ins, p.data_ = i.chunks.flatten) := by
  induction ins with
  | nil => intro t _; exact ⟨[], by simp [AudioTrackFull.run], by simp⟩
  | cons i rest ih =>
    intro t hcons
    obtain ⟨d1, _, d3, d4, d5⟩ :=
      decode_full_queue api e f t i.packet i.out i.nativeChanged i.chunks
    obtain ⟨_, c2, _, c4, _, c6⟩ := frameTraitsChanged_fields e f t i.nativeChanged hcons
    obtain ⟨_, _, m3, m4⟩ :=
      makePayload_spec f (t.frameTraitsChanged e f i.nativeChanged) i.chunks
    have hcons' : (t.decode api e f i.packet i.out i.nativeChanged i.chunks).1.tempoFilter_.isSome =
        (tempoFilterKind e
          (t.decode api e f i.packet i.out i.nativeChanged i.chunks).1.output_).isSome := by
      rw [d4, c6, d1]
    obtain ⟨ps, hps, hall⟩ :=
      ih (t.decode api e f i.packet i.out i.nativeChanged i.chunks).1 hcons'
    rw [d1, d3] at hall
    have hrest : ∀ p ∈ ps,
        ((tempoFilterKind e t.output_).isSome = true ∧ t.tempo_ ≠ 1 →
          p.tempo_ = t.tempo_ ∧
            ∃ flt, ∃ j ∈ i :: rest, p.data_ = (passThrough f flt j.chunks).2) ∧
        ((tempoFilterKind e t.output_).isSome = false ∨ t.tempo_ = 1 →
          p.tempo_ = 1 ∧ ∃ j ∈ i :: rest, p.data_ = j.chunks.flatten) := by
      intro p hp
      obtain ⟨a1, a2⟩ := hall p hp
      refine ⟨fun h => ?_, fun h => ?_⟩
      · obtain ⟨b1, flt, j, hj, b2⟩ := a1 h
        exact ⟨b1, flt, j, List.mem_cons_of_mem _ hj, b2⟩
      · obtain ⟨b1, j, hj, b2⟩ := a2 h
        exact ⟨b1, j, List.mem_cons_of_mem _ hj, b2⟩
    simp only [AudioTrackFull.run]
    by_cases hp : (t.decode api e f i.packet i.out i.nativeChanged i.chunks).2.pushed = true
    · rw [if_pos hp] at d5
      refine ⟨((t.frameTraitsChanged e f i.nativeChanged).makePayload f i.chunks).2 :: ps,
        by rw [hps, d5]; simp, ?_⟩
      intro p hpm
      rcases List.mem_cons.mp hpm with h | h
      · subst h
        refine ⟨fun hk => ?_, fun hk => ?_⟩
        · have hsome : (t.frameTraitsChanged e f i.nativeChanged).tempoFilter_.isSome = true := by
            rw [c6]; exact hk.1
          obtain ⟨flt, hflt⟩ := Option.isSome_iff_exists.mp hsome
          obtain ⟨e1, e2⟩ := m3 flt hflt (by rw [c4]; exact hk.2)
          exact ⟨by rw [e1, c4], flt, i, List.mem_cons_self _ _, e2⟩
        · have hnone : (t.frameTraitsChanged e f i.nativeChanged).tempoFilter_ = none ∨
              (t.frameTraitsChanged e f i.nativeChanged).tempo_ = 1 := by
            rcases hk with h | h
            · left
              rw [← Option.not_isSome_iff_eq_none, c6, h]; simp
            · right; rw [c4]; exact h
          obtain ⟨e1, e2⟩ := m4 hnone
          exact ⟨e1, i, List.mem_cons_self _ _, e2⟩
      · exact hrest p h
    · rw [if_neg hp] at d5
      exact ⟨ps, by rw [hps, d5], hrest⟩

/-- A timestamp within the 64-bit range passes the first two checks of
`verify_pts`. -/
theorem fits64_known (c : TTime) (h : c.fits64) :
    c.time_ ≠ AV_NOPTS_VALUE ∧ toInt64 c.base_ ≠ AV_NOPTS_VALUE := by
  obtain ⟨h1, h2, h3⟩ := h
  unfold AV_NOPTS_VALUE toInt64
  constructor
  · omega
  · split_ifs <;> omega

/-- Without a previous PTS, `verify_pts` accepts every timestamp within the
64-bit range whose base is not zero. -/
theorem verify_pts_no_prev (api : TTimeApi) (prev c : TTime) (h : c.fits64) (hb : c.base_ ≠ 0) :
    verify_pts api false prev c true = true := by
  obtain ⟨h1, h2⟩ := fits64_known c h
  simp [verify_pts, h1, h2, hb]

/-- A timestamp that passed `verify_pts` has a base other than zero. -/
theorem verify_pts_base (api : TTimeApi) (hp : Bool) (prev c : TTime)
    (h : verify_pts api hp prev c true = true) : c.base_ ≠ 0 := by
  unfold verify_pts at h
  simp only [] at h
  intro h0
  simp [h0] at h

/-- The frame checks leave the members of the PTS repair alone, apart from
clearing `hasPrevPTS_`. -/
theorem checkFrames_repair (api : TTimeApi) (l : List Int) :
    ∀ t : AudioTrack,
      (AudioTrack.checkFrames api t l).sampleRate_ = t.sampleRate_ ∧
      (AudioTrack.checkFrames api t l).time_base_den = t.time_base_den ∧
      (AudioTrack.checkFrames api t l).prevNumSamples_ = t.prevNumSamples_ ∧
      (AudioTrack.checkFrames api t l).prevPTS_ = t.prevPTS_ ∧
      ((AudioTrack.checkFrames api t l).hasPrevPTS_ = true → t.hasPrevPTS_ = true) := by
  induction l with
  | nil => intro t; simp [AudioTrack.checkFrames]
  | cons p ps ih =>
    intro t
    obtain ⟨h1, h2, h3, h4, h5⟩ := ih (t.checkFrame api p)
    have hc : (t.checkFrame api p).sampleRate_ = t.sampleRate_ ∧
        (t.checkFrame api p).time_base_den = t.time_base_den ∧
        (t.checkFrame api p).prevNumSamples_ = t.prevNumSamples_ ∧
        (t.checkFrame api p).prevPTS_ = t.prevPTS_ ∧
        ((t.checkFrame api p).hasPrevPTS_ = true → t.hasPrevPTS_ = true) := by
      unfold AudioTrack.checkFrame
      dsimp only
      split_ifs <;> simp
    obtain ⟨g1, g2, g3, g4, g5⟩ := hc
    simp only [AudioTrack.checkFrames]
    exact ⟨h1.trans g1, h2.trans g2, h3.trans g3, h4.trans g4, fun h => g5 (h5 h)⟩

/-- The state of the PTS repair holds at the stamping of a frame if it held at
the start of the call. -/
theorem atStamping_ok (api : TTimeApi) (t : AudioTrack) (o : AudioCodecOut)
    (hok : t.ptsStateOk) : (t.atStamping api o).ptsStateOk := by
  obtain ⟨h1, h2, h3, h4, h5⟩ := checkFrames_repair api o.framePts t
  obtain ⟨k1, k2, k3⟩ := hok
  unfold AudioTrack.atStamping AudioTrack.ptsStateOk
  dsimp only
  rw [h1, h2, h3, h4]
  exact ⟨k1, k2, fun h => k3 (h5 h)⟩

/-- The sum that keeps the base of its left operand passes the checks of the
repository test on sums: `t2 == t1 + t1` and `t1 <= t1 + TTime(1, 1001)`. -/
theorem keepBaseAdd_passes_time_test :
    TTime.keepBaseAdd ⟨100, 1000⟩ ⟨100, 1000⟩ = ⟨200, 1000⟩ ∧
    TTime.exactLt (TTime.keepBaseAdd ⟨100, 1000⟩ ⟨1, 1001⟩) ⟨100, 1000⟩ = false := by
  decide

/-- The sum that keeps the base of its left operand has the base of its left
operand. -/
theorem keepBaseAdd_base (a b : TTime) : (TTime.keepBaseAdd a b).base_ = a.base_ := by
  unfold TTime.keepBaseAdd
  split_ifs <;> rfl

/-- With a previous PTS whose base is not zero, the step "previous PTS plus one
tick" passes `verify_pts` unless the increment leaves the 64-bit range. -/
theorem verify_pts_next_tick (api : TTimeApi) (prev : TTime) (hb : prev.base_ ≠ 0)
    (hf : (⟨prev.time_ + 1, prev.base_⟩ : TTime).fits64) :
    verify_pts api true prev ⟨prev.time_ + 1, prev.base_⟩ true = true := by
  obtain ⟨h1, h2⟩ := fits64_known _ hf
  simp only [] at h1 h2
  simp [verify_pts, h1, h2, hb]

/-- The chain reaches a validated PTS by its fifth step; by its fourth step if
no previous PTS is recorded or the extrapolated PTS passes `verify_pts`; and
the first four steps fail only with a previous PTS, which the fifth step then
advances by one tick. -/
theorem stampPTS_by_fifth_step (api : TTimeApi) (t : AudioTrack) (p : AvPkt) (n : Nat)
    (hbase : ∀ a b : TTime, a.base_ ≠ 0 → b.base_ ≠ 0 → (api.add a b).base_ ≠ 0)
    (hok : t.ptsStateOk)
    (h3 : t.hasPrevPTS_ = false → (t.sampleCountPTS api n).fits64)
    (h5 : t.hasPrevPTS_ = true → t.nextTickPTS.fits64) :
    (t.stampPTS api p n).gotPTS = true ∧
    t.stampedBy api p n 5 = some (t.stampPTS api p n).time_ ∧
    ((t.hasPrevPTS_ = false ∨
        verify_pts api t.hasPrevPTS_ t.prevPTS_ (t.extrapolatedPTS api) true = true) →
      t.stampedBy api p n 4 = some (t.stampPTS api p n).time_) ∧
    (t.stampedBy api p n 4 = none →
      t.hasPrevPTS_ = true ∧
      verify_pts api t.hasPrevPTS_ t.prevPTS_ (t.extrapolatedPTS api) true = false ∧
      (t.stampPTS api p n).time_ = t.nextTickPTS) := by
  obtain ⟨k1, k2, k3⟩ := hok
  obtain ⟨num, den, sr, st, hp, prev, pns, sd, pe, ti, tout, di, fq⟩ := t
  simp only [AudioTrack.sampleCountPTS, AudioTrack.nextTickPTS, AudioTrack.extrapolatedPTS,
    AudioTrack.stampedBy] at k1 k2 k3 h3 h5 ⊢
  have e3 : hp = false → verify_pts api hp prev
      (api.add ⟨((sd - n : Nat) : Int), sr⟩ ⟨st, toUInt64 den⟩) true = true := by
    intro h
    have hf := h3 h
    subst h
    exact verify_pts_no_prev _ _ _ hf
      (hbase _ _ (by simpa using (Nat.pos_iff_ne_zero.mp k1)) k2)
  have e5 : hp = true → verify_pts api hp prev ⟨prev.time_ + 1, prev.base_⟩ true = true := by
    intro h
    have hf := h5 h
    have hb := (k3 h).2
    subst h
    exact verify_pts_next_tick api prev hb hf
  generalize hv1 : verify_pts api hp prev ⟨num * p.pts, toUInt64 den⟩ true = v1
  generalize hv2 : verify_pts api hp prev ⟨num * p.dts, toUInt64 den⟩ true = v2
  generalize hv3 : verify_pts api hp prev
      (api.add ⟨((sd - n : Nat) : Int), sr⟩ ⟨st, toUInt64 den⟩) true = v3 at e3
  generalize hv4 : verify_pts api hp prev (api.add prev ⟨(pns : Int), sr⟩) true = v4
  generalize hv5 : verify_pts api hp prev ⟨prev.time_ + 1, prev.base_⟩ true = v5 at e5
  by_cases c1 : p.pts = AV_NOPTS_VALUE <;> by_cases c2 : p.dts = AV_NOPTS_VALUE <;>
  cases hp <;> cases v1 <;> cases v2 <;> cases v3 <;> cases v4 <;> cases v5 <;>
  simp [AudioTrack.stampPTS, AudioTrack.ptsCandidates, firstValidated, hv1, hv2, hv3, hv4, hv5,
    c1, c2] at e3 e5 ⊢

end yae
